import Mathlib

/-!
# madge: `lib/graph.js`

A shallow embedding of `lib/graph.js` (`setNodeColor`,
`checkGraphvizInstalled`, `createGraphvizOptions`, `createGraph` and the
operations `svg`, `image`, `interactive`, `dot`) and theorems about it.

Modelling conventions.

* A JavaScript object used as a table (`nodes`, `groups`, `subgraphs`, the
  dependency mapping `modules`) is a plain object: its own properties are an
  association list, and it inherits the properties of `Object.prototype`.  A
  property read `t[k]` finds the own property, else the inherited value of
  that name (`constructor`, `toString`, `__proto__`, ...), else `undefined`
  (`Slot`).  An inherited value is a built-in function or `Object.prototype`:
  it is truthy, it is no node and no subgraph, and it has no `attributes`.
* An assignment `t[k] = v` writes an own property, except under the name
  `__proto__`, where it calls the inherited setter: a value that is no object
  is ignored, an object becomes the prototype of `t`.  The loop of
  `createGraph` can make a subgraph object the prototype of `subgraphs`; what
  the table inherits afterwards depends on the objects of `ts-graphviz`, and a
  run that does so is marked and not followed further (`Run.protoWrite`).
* Module identifiers, group names and node attribute values are strings; the
  two highlight colours of the configuration are strings.
* `ts-graphviz` is an external library.  Its digraph is modelled by the objects
  created in it: the subgraphs (by name, `g.subgraph(name)` returns the
  existing subgraph of that name or creates it), the nodes and the edges, each
  node and edge tagged with the cluster (the root graph, or a subgraph) whose
  `createNode` / `createEdge` made it, in creation order.  `createEdge` given an
  end that is no node object throws a `TypeError` (the library takes such an
  end for a string and calls its `split`).
* A `TypeError` (a property read on `undefined`, a call of something that is
  no function) ends the loop: `Run.typeError`, or `none` for a single step.
* The attribute callback may keep private state: its answer is a function of
  the identifiers it has been asked about before and of the identifier asked.
* A promise is its settled outcome together with the events that led to it:
  console lines, the probe, the call of `createGraph`, file writes, the
  renderer call.  The outcomes of `exec`, of the renderer and of awaited
  writes are parameters (`World`).
* `path.extname` follows the POSIX variant of the Node.js library; `path.join`
  and `path.resolve` are parameters.
-/

namespace Madge

/-! ## Attribute objects and tables -/

/-- An attribute object with string values, in property order. -/
abbrev AttrSet := List (String × String)

/-- The own properties of a table from property names to strings; the first
binding of a key is the current one. -/
abbrev Table := List (String × String)

/-- The own property `k` of the table `t` (for an attribute map, the entry
`k`). -/
def tblGet : List (String × String) → String → Option String
  | [], _ => none
  | (k', v) :: rest, k => if k' = k then some v else tblGet rest k

/-- Property write `t[k] = v`; the new binding shadows an older one. -/
def tblSet (t : Table) (k v : String) : Table := (k, v) :: t

/-- Attribute read `attributes.get(k)`. -/
def attrGet (a : AttrSet) (k : String) : Option String := tblGet a k

/-- Attribute write `attributes.set(k, v)`: an existing key keeps its place. -/
def attrSet : AttrSet → String → String → AttrSet
  | [], k, v => [(k, v)]
  | (k', v') :: rest, k, v =>
    if k' = k then (k', v) :: rest else (k', v') :: attrSet rest k v

/-- Truthiness of a string-or-undefined value: defined and non-empty. -/
def truthy : Option String → Bool
  | some s => s != ""
  | none => false

/-- The expression `a || b` on string-or-undefined values, `b` a string. -/
def jsOr (a : Option String) (b : String) : String :=
  match a with
  | some s => if s = "" then b else s
  | none => b

/-- The property name an index expression denotes: `t[undefined]` reads the
property called "undefined". -/
def propKey : Option String → String
  | some s => s
  | none => "undefined"

/-! ## The dependency mapping -/

/-- The dependency mapping: identifier to the list of identifiers it depends
on, in `Object.keys` order. -/
abbrev Modules := List (String × List String)

/-- The keys `Object.keys(modules)`. -/
def modKeys (m : Modules) : List String := m.map Prod.fst

/-- The own property `id` of the mapping: the dependency list of a key. -/
def modGet : Modules → String → Option (List String)
  | [], _ => none
  | (k, v) :: rest, id => if k = id then some v else modGet rest id

/-- The dependency list of a key (empty for an identifier that is no key). -/
def depsOf (m : Modules) (id : String) : List String := (modGet m id).getD []

/-- Every dependency target, in visiting order. -/
def depTargets (m : Modules) : List String := (modKeys m).flatMap (depsOf m)

/-! ## The ts-graphviz digraph -/

/-- A node object: its identifier, the cluster it was created in (`none` is
the root graph, `some n` the subgraph named `n`) and its attributes. -/
structure Node where
  id : String
  cluster : Option String
  attributes : AttrSet
deriving DecidableEq, Repr

/-- An edge object: the cluster it was created in and the identifiers of its
two end nodes. -/
structure Edge where
  cluster : Option String
  source : String
  target : String
deriving DecidableEq, Repr

/-- The digraph `g`. -/
structure Digraph where
  subgraphs : List String
  nodes : List Node
  edges : List Edge
deriving DecidableEq, Repr

/-- The call `gv.digraph('G')`. -/
def digraph : Digraph := ⟨[], [], []⟩

/-- The call `g.subgraph(name)`: the subgraph of that name, created when there
is none yet. -/
def Digraph.subgraph (g : Digraph) (name : String) : Digraph :=
  if name ∈ g.subgraphs then g else { g with subgraphs := g.subgraphs ++ [name] }

/-- The call `cluster.createNode(id, attributes)`. -/
def Digraph.createNode (g : Digraph) (cluster : Option String) (id : String)
    (attributes : Option AttrSet) : Digraph :=
  { g with nodes := g.nodes ++ [⟨id, cluster, attributes.getD []⟩] }

/-- The call `cluster.createEdge([from, to])`. -/
def Digraph.createEdge (g : Digraph) (cluster : Option String) (source target : String) :
    Digraph :=
  { g with edges := g.edges ++ [⟨cluster, source, target⟩] }

/-- The nodes stored in a cluster. -/
def Digraph.nodesIn (g : Digraph) (cluster : Option String) : List Node :=
  g.nodes.filter (fun n => n.cluster = cluster)

/-- The edges stored in a cluster. -/
def Digraph.edgesIn (g : Digraph) (cluster : Option String) : List Edge :=
  g.edges.filter (fun e => e.cluster = cluster)

/-! ## Configuration -/

/-- A JavaScript value of the graphviz option objects; a number is given by
the value of its literal (`0.3` is `3 / 10`), no arithmetic is done on it. -/
inductive Value where
  | undefined
  | bool (b : Bool)
  | num (q : ℚ)
  | str (s : String)
deriving DecidableEq

/-- An option object, in property order. -/
abbrev Obj := List (String × Value)

/-- The object `config.graphVizOptions`. -/
structure GraphVizOverrides where
  G : Option Obj
  E : Option Obj
  N : Option Obj

/-- The configuration object.  The callback `getNodeAttributes` may be absent;
when called it is given the identifiers it was asked about before and the
identifier asked, and returns an attribute object or `undefined`. -/
structure Config where
  rankdir : Value
  layout : Value
  backgroundColor : Value
  edgeColor : Value
  fontName : Value
  fontSize : Value
  nodeColor : Value
  nodeShape : Value
  nodeStyle : Value
  noDependencyColor : String
  cyclicNodeColor : String
  graphVizPath : Option String
  graphVizOptions : Option GraphVizOverrides
  getNodeAttributes : Option (List String → String → Option AttrSet)

/-! ## `setNodeColor` -/

/-- The function `setNodeColor(node, color)`. -/
def setNodeColor (node : Node) (color : String) : Node :=
  { node with attributes := attrSet (attrSet node.attributes "color" color) "fontcolor" color }

/-! ## `createGraphvizOptions` -/

/-- The own property `k` of an option object. -/
def objGet : Obj → String → Option Value
  | [], _ => none
  | (k', v) :: rest, k => if k' = k then some v else objGet rest k

/-- An own property of an object is written, an existing key keeping its
place. -/
def objPut : Obj → String → Value → Obj
  | [], k, v => [(k, v)]
  | (k', v') :: rest, k, v =>
    if k' = k then (k', v) :: rest else (k', v') :: objPut rest k v

/-- The assignment `target[k] = v` that `Object.assign` makes for a property
of the source.  Under the name `__proto__`, when the target has no own
property of that name, the assignment calls the setter inherited from
`Object.prototype`, which ignores a value that is no object: the target is
unchanged.  In every other case an own property is written. -/
def objSet (o : Obj) (k : String) (v : Value) : Obj :=
  if k = "__proto__" ∧ objGet o k = none then o else objPut o k v

/-- The call `Object.assign(target, source)`: each own property of the source
is assigned to the target, in order; an undefined source is skipped. -/
def objectAssign (target : Obj) (source : Option Obj) : Obj :=
  match source with
  | none => target
  | some src => src.foldl (fun acc kv => objSet acc kv.1 kv.2) target

/-- The options handed to the renderer. -/
structure GraphvizOptions where
  dotCommand : Option String
  graph : Obj
  edge : Obj
  node : Obj
  format : Option String
deriving DecidableEq

/-- The built-in graph attributes. -/
def defaultGraphAttributes (config : Config) : Obj :=
  [("overlap", .bool false), ("pad", .num (3 / 10)), ("rankdir", config.rankdir),
   ("layout", config.layout), ("bgcolor", config.backgroundColor)]

/-- The built-in edge attributes. -/
def defaultEdgeAttributes (config : Config) : Obj :=
  [("color", config.edgeColor)]

/-- The built-in node attributes. -/
def defaultNodeAttributes (config : Config) : Obj :=
  [("fontname", config.fontName), ("fontsize", config.fontSize), ("color", config.nodeColor),
   ("shape", config.nodeShape), ("style", config.nodeStyle), ("height", .num 0),
   ("fontcolor", config.nodeColor)]

/-- The function `createGraphvizOptions(config)`; `pathJoin` is `path.join` of
the Node.js library. -/
def createGraphvizOptions (pathJoin : String → String → String) (config : Config) :
    GraphvizOptions :=
  let graphVizOptions : GraphVizOverrides := config.graphVizOptions.getD ⟨none, none, none⟩
  { dotCommand := if truthy config.graphVizPath
      then some (pathJoin (config.graphVizPath.getD "") "dot") else none
    graph := objectAssign (defaultGraphAttributes config) graphVizOptions.G
    edge := objectAssign (defaultEdgeAttributes config) graphVizOptions.E
    node := objectAssign (defaultNodeAttributes config) graphVizOptions.N
    format := none }

/-! ## Plain objects -/

/-- The property names a plain object inherits from `Object.prototype`. -/
def inheritedNames : List String :=
  ["constructor", "__defineGetter__", "__defineSetter__", "hasOwnProperty",
    "__lookupGetter__", "__lookupSetter__", "isPrototypeOf", "propertyIsEnumerable",
    "toString", "valueOf", "__proto__", "toLocaleString"]

/-- What the property read `t[k]` finds on a plain object: nothing (the read
gives `undefined`), the value inherited under the name `k` (a built-in
function, or `Object.prototype` itself for `__proto__`), or an own property.
An own property shadows an inherited one. -/
inductive Slot (α : Type) where
  | absent
  | inherited (name : String)
  | own (value : α)
deriving DecidableEq, Repr

/-- The property read `t[k]` on a plain object with the own properties `t`. -/
def readTable (t : Table) (k : String) : Slot String :=
  match tblGet t k with
  | some v => .own v
  | none => if k ∈ inheritedNames then .inherited k else .absent

/-- The property read `nodes[x]`, for the identifiers that have an own entry
in `nodes`; the own entry of `x` is the node object of `x`. -/
def readNode (nodes : List String) (x : String) : Slot String :=
  if x ∈ nodes then .own x
  else if x ∈ inheritedNames then .inherited x else .absent

/-- The property read `modules[id]`. -/
def readModule (m : Modules) (id : String) : Slot (List String) :=
  match modGet m id with
  | some deps => .own deps
  | none => if id ∈ inheritedNames then .inherited id else .absent

/-- The string an inherited value becomes when it is used as a property name:
the source text of the built-in function, or the text of `Object.prototype`. -/
def inheritedText (name : String) : String :=
  if name = "__proto__" then "[object Object]"
  else if name = "constructor" then "function Object() \x7b [native code] \x7d"
  else "function " ++ name ++ "() \x7b [native code] \x7d"

/-- What a property read finds when there is no inherited property of the
name: the own property, or nothing. -/
def ownSlot : Option String → Slot String
  | some v => .own v
  | none => .absent

/-- Truthiness of what a property read finds: an inherited value is an object
and truthy. -/
def Slot.truthy : Slot String → Bool
  | .own s => s != ""
  | .inherited _ => true
  | .absent => false

/-- The property name that the result of a property read denotes when it is
used as an index. -/
def Slot.propKey : Slot String → String
  | .own s => s
  | .inherited name => inheritedText name
  | .absent => "undefined"

/-- How a run of the loop of `createGraph` ends: with its variables; with a
thrown `TypeError` (a property read on `undefined`, a call of something that
is no function, or `createEdge` given an end that is no node); or with the
assignment of a subgraph object to `subgraphs.__proto__`, which makes that
object the prototype of `subgraphs`.  What `subgraphs` inherits from then on
depends on the objects of `ts-graphviz` and is not described. -/
inductive Run (α : Type) where
  | done (value : α)
  | typeError
  | protoWrite
deriving DecidableEq, Repr

/-- The rest of a run: it is reached only when the first part is done. -/
def Run.bind {α β : Type} (r : Run α) (k : α → Run β) : Run β :=
  match r with
  | .done a => k a
  | .typeError => .typeError
  | .protoWrite => .protoWrite

/-- A function of what a run ends with. -/
def Run.map {α β : Type} (f : α → β) (r : Run α) : Run β :=
  match r with
  | .done a => .done (f a)
  | .typeError => .typeError
  | .protoWrite => .protoWrite

/-- A step that either gives a value or is a `TypeError`. -/
def Run.ofOption {α : Type} : Option α → Run α
  | some a => .done a
  | none => .typeError

/-- The call `list.forEach(...)` with a body that changes the variables `s`:
the elements are visited in order, a failure ends the loop. -/
def Run.forEach {α σ : Type} (body : σ → α → Run σ) : σ → List α → Run σ
  | s, [] => .done s
  | s, a :: rest => (body s a).bind fun s1 => Run.forEach body s1 rest

/-! ## `createGraph` -/

/-- Which highlight a `setNodeColor` call applies. -/
inductive Style where
  | noDependency
  | cyclic
deriving DecidableEq, Repr

/-- The colour of a highlight. -/
def Style.color (config : Config) : Style → String
  | .noDependency => config.noDependencyColor
  | .cyclic => config.cyclicNodeColor

/-- The variables of `createGraph` while the loop runs: the digraph `g`, the
identifiers that have an own entry in `nodes` (the entry is the node object of
that identifier in `g`), the own properties of the tables `groups` and
`subgraphs` (a subgraph object is named by its name in `g`), and two records
of what happened: the identifiers the attribute callback was called with, and
the `setNodeColor` calls made. -/
structure BuildState where
  g : Digraph
  nodes : List String
  groups : Table
  subgraphs : Table
  calls : List String
  styled : List (String × Style)
deriving DecidableEq, Repr

/-- The variables before the loop. -/
def BuildState.init : BuildState := ⟨digraph, [], [], [], [], []⟩

/-- The call `config.getNodeAttributes?.(id)`. -/
def callGetNodeAttributes (config : Config) (s : BuildState) (id : String) :
    Option AttrSet × BuildState :=
  match config.getNodeAttributes with
  | none => (none, s)
  | some f => (f s.calls id, { s with calls := s.calls ++ [id] })

/-- The value of `nodeAttr?.group` when it is truthy. -/
def groupOf (nodeAttr : Option AttrSet) : Option String :=
  match nodeAttr with
  | none => none
  | some a =>
    match attrGet a "group" with
    | none => none
    | some grp => if grp = "" then none else some grp

/-- The value of `subgraphs[k] || g.subgraph(grp)`: the digraph after the
expression is evaluated and the subgraph it denotes.  There is none when
`subgraphs[k]` is an inherited value: that value is truthy, so it is what the
expression gives, and it is no subgraph. -/
def subgraphOr (g : Digraph) (subgraphs : Table) (k grp : String) :
    Option (Digraph × String) :=
  match readTable subgraphs k with
  | .own ref => some (g, ref)
  | .inherited _ => none
  | .absent => some (g.subgraph grp, grp)

/-- Lines 95-105 with `who = x = id`, and lines 114-124 with `x = depId` and
`who = id`: the node of `x` is created when `nodes[x]` is falsy, which an
inherited value is not.  The two places differ in the `subgraphs` entry that
is consulted before a subgraph is made: `subgraphs[groups[who]]`.  Where the
node is created `x` is no inherited name (`nodes[x]` was undefined), so
`groups[x]` is an own property or undefined.  When the consulted entry is an
inherited value, that value is what is stored under the group of `x`, and the
call of its `createNode` is a `TypeError`.  Otherwise a subgraph object is
stored: under the name `__proto__` this sets the prototype of `subgraphs`. -/
def createNodeFor (config : Config) (s : BuildState) (x who : String) : Run BuildState :=
  match readNode s.nodes x with
  | .own _ => .done s
  | .inherited _ => .done s
  | .absent =>
    let r := callGetNodeAttributes config s x
    let nodeAttr := r.1
    let s1 := r.2
    match groupOf nodeAttr with
    | some grp =>
      let groups := tblSet s1.groups x (jsOr (tblGet s1.groups x) grp)
      let key := propKey (tblGet groups x)
      match subgraphOr s1.g s1.subgraphs (readTable groups who).propKey grp with
      | none => .typeError
      | some made =>
        if key = "__proto__" then .protoWrite
        else
          let subgraphs := tblSet s1.subgraphs key made.2
          match readTable subgraphs key with
          | .own ref =>
            .done { s1 with
              g := made.1.createNode (some ref) x nodeAttr
              nodes := s1.nodes ++ [x]
              groups := groups
              subgraphs := subgraphs }
          | _ => .typeError
    | none =>
      .done { s1 with g := s1.g.createNode none x nodeAttr, nodes := s1.nodes ++ [x] }

/-- The call `setNodeColor(nodes[id], color)`.  When `nodes[id]` is no node
object (it is undefined, or an inherited value, which has no `attributes`) the
call is a `TypeError`: the result `none`. -/
def applyStyle (config : Config) (s : BuildState) (id : String) (style : Style) :
    Option BuildState :=
  if id ∈ s.nodes then
    some { s with
      g := { s.g with
        nodes := s.g.nodes.map
          (fun n => if n.id = id then setNodeColor n (style.color config) else n) }
      styled := s.styled ++ [(id, style)] }
  else none

/-- Lines 107-111, for a key `id` of the mapping (`modules[id]` is its own
property); `none` is a `TypeError`. -/
def styleKey (modules : Modules) (cyclicModules : List String) (config : Config)
    (s : BuildState) (id : String) : Option BuildState :=
  match modGet modules id with
  | none => none
  | some deps =>
    if deps.length = 0 then applyStyle config s id .noDependency
    else if id ∈ cyclicModules then applyStyle config s id .cyclic
    else some s

/-- Lines 126-128: the test `!modules[depId]` fails for a key of the mapping
and for an inherited name. -/
def styleDep (modules : Modules) (config : Config) (s : BuildState) (depId : String) :
    Run BuildState :=
  match readModule modules depId with
  | .absent => Run.ofOption (applyStyle config s depId .noDependency)
  | .inherited _ => .done s
  | .own _ => .done s

/-- Lines 130-134.  `createEdge` throws a `TypeError` when one of the two ends
`nodes[id]`, `nodes[depId]` is no node object (the library takes such an end
for a string and calls its `split`). -/
def emitEdge (s : BuildState) (id depId : String) : Run BuildState :=
  if (readTable s.groups id).truthy = true ∧
      readTable s.groups id = readTable s.groups depId then
    match readTable s.subgraphs (readTable s.groups id).propKey with
    | .own ref =>
      if id ∈ s.nodes ∧ depId ∈ s.nodes then
        .done { s with g := s.g.createEdge (some ref) id depId }
      else .typeError
    | _ => .typeError
  else if id ∈ s.nodes ∧ depId ∈ s.nodes then
    .done { s with g := s.g.createEdge none id depId }
  else .typeError

/-- The body of `modules[id].forEach` (lines 114-134). -/
def visitDep (modules : Modules) (config : Config) (id : String) (s : BuildState)
    (depId : String) : Run BuildState :=
  (createNodeFor config s depId id).bind fun s1 =>
  (styleDep modules config s1 depId).bind fun s2 =>
  emitEdge s2 id depId

/-- The body of `Object.keys(modules).forEach` (lines 95-135). -/
def visitKey (modules : Modules) (cyclicModules : List String) (config : Config)
    (s : BuildState) (id : String) : Run BuildState :=
  (createNodeFor config s id id).bind fun s1 =>
  (Run.ofOption (styleKey modules cyclicModules config s1 id)).bind fun s2 =>
  match modGet modules id with
  | none => .typeError
  | some deps => Run.forEach (visitDep modules config id) s2 deps

/-- Lines 88-136: the variables when the loop over the keys ends. -/
def buildGraph (modules : Modules) (circular : List (List String)) (config : Config) :
    Run BuildState :=
  Run.forEach (visitKey modules circular.flatten config) BuildState.init (modKeys modules)

/-- What one `createGraph` call leaves: the graph it built, the paths it gave
to `writeFile`, and the options it gave to the renderer. -/
structure GraphResult where
  built : BuildState
  written : List String
  options : GraphvizOptions

/-- The function `createGraph(modules, circular, config, options)`. -/
def createGraph (modules : Modules) (circular : List (List String)) (config : Config)
    (options : GraphvizOptions) : Run GraphResult :=
  (buildGraph modules circular config).map fun s =>
    { built := s, written := ["temp.dot"], options := options }

/-! ## The loop as a sequence of visits -/

/-- One pass of a loop body: the outer body up to the styling of the key
(lines 95-111), or the inner body for one dependency (lines 114-134). -/
inductive Visit where
  | key (id : String)
  | dep (id depId : String)
deriving DecidableEq, Repr

/-- The identifier a visit encounters. -/
def Visit.ident : Visit → String
  | .key id => id
  | .dep _ depId => depId

/-- The edge a visit emits. -/
def Visit.edge : Visit → Option (String × String)
  | .key _ => none
  | .dep id depId => some (id, depId)

/-- The visits of one key. -/
def keyVisits (m : Modules) (id : String) : List Visit :=
  Visit.key id :: (depsOf m id).map (Visit.dep id)

/-- The visits of the whole loop, in order. -/
def visitsOf (m : Modules) : List Visit := (modKeys m).flatMap (keyVisits m)

/-- The effect of one visit. -/
def stepVisit (modules : Modules) (cyclicModules : List String) (config : Config)
    (s : BuildState) : Visit → Run BuildState
  | .key id => (createNodeFor config s id id).bind fun s1 =>
      Run.ofOption (styleKey modules cyclicModules config s1 id)
  | .dep id depId => visitDep modules config id s depId

/-- The state after a sequence of visits. -/
def runVisits (modules : Modules) (cyclicModules : List String) (config : Config)
    (vs : List Visit) : Run BuildState :=
  Run.forEach (stepVisit modules cyclicModules config) BuildState.init vs

/-- A list without its repeated elements, each kept at its first place. -/
def firstSeen (l : List String) : List String :=
  l.foldl (fun acc x => if x ∈ acc then acc else acc ++ [x]) []

/-- The pairs (id, depId) in visiting order: keys in mapping order, each key's
dependency list in list order. -/
def dependencyPairs (m : Modules) : List (String × String) :=
  (modKeys m).flatMap fun id => (depsOf m id).map fun depId => (id, depId)

/-- All nodes of the digraph, taken cluster by cluster: the root graph first,
then each subgraph. -/
def Digraph.allNodes (g : Digraph) : List Node :=
  g.nodesIn none ++ g.subgraphs.flatMap fun name => g.nodesIn (some name)

/-- All edges of the digraph, taken cluster by cluster. -/
def Digraph.allEdges (g : Digraph) : List Edge :=
  g.edgesIn none ++ g.subgraphs.flatMap fun name => g.edgesIn (some name)

/-- No key and no dependency target of the mapping is a name inherited from
`Object.prototype`. -/
def OwnNames (m : Modules) : Prop :=
  ∀ x ∈ modKeys m ++ depTargets m, x ∉ inheritedNames

/-- The attribute callback never returns the name of an inherited property as
a group. -/
def OwnGroups (config : Config) : Prop :=
  ∀ f, config.getNodeAttributes = some f →
    ∀ asked id grp, groupOf (f asked id) = some grp → grp ∉ inheritedNames

/-! ## The loop on own properties

The steps of the loop as they run when every property read finds an own
property or nothing, that is, when no identifier and no group is an inherited
name.  The loop of `createGraph` is compared with them: a run that is done has
taken these steps. -/

/-- The steps of `createNodeFor` on own properties. -/
def plainCreateNodeFor (config : Config) (s : BuildState) (x who : String) :
    Option BuildState :=
  if x ∈ s.nodes then some s
  else
    let r := callGetNodeAttributes config s x
    let nodeAttr := r.1
    let s1 := r.2
    match groupOf nodeAttr with
    | some grp =>
      let groups := tblSet s1.groups x (jsOr (tblGet s1.groups x) grp)
      let made : Digraph × String :=
        match tblGet s1.subgraphs (propKey (tblGet groups who)) with
        | some ref => (s1.g, ref)
        | none => (s1.g.subgraph grp, grp)
      let subgraphs := tblSet s1.subgraphs (propKey (tblGet groups x)) made.2
      match tblGet subgraphs (propKey (tblGet groups x)) with
      | none => none
      | some ref =>
        some { s1 with
          g := made.1.createNode (some ref) x nodeAttr
          nodes := s1.nodes ++ [x]
          groups := groups
          subgraphs := subgraphs }
    | none =>
      some { s1 with g := s1.g.createNode none x nodeAttr, nodes := s1.nodes ++ [x] }

/-- The steps of `styleDep` on own properties. -/
def plainStyleDep (modules : Modules) (config : Config) (s : BuildState) (depId : String) :
    Option BuildState :=
  match modGet modules depId with
  | none => applyStyle config s depId .noDependency
  | some _ => some s

/-- The steps of `emitEdge` on own properties. -/
def plainEmitEdge (s : BuildState) (id depId : String) : Option BuildState :=
  if id ∈ s.nodes ∧ depId ∈ s.nodes then
    if truthy (tblGet s.groups id) = true ∧ tblGet s.groups id = tblGet s.groups depId then
      match tblGet s.subgraphs (propKey (tblGet s.groups id)) with
      | none => none
      | some ref => some { s with g := s.g.createEdge (some ref) id depId }
    else some { s with g := s.g.createEdge none id depId }
  else none

/-- The steps of `visitDep` on own properties. -/
def plainVisitDep (modules : Modules) (config : Config) (id : String) (s : BuildState)
    (depId : String) : Option BuildState :=
  (plainCreateNodeFor config s depId id).bind fun s1 =>
  (plainStyleDep modules config s1 depId).bind fun s2 =>
  plainEmitEdge s2 id depId

/-- The steps of `visitKey` on own properties. -/
def plainVisitKey (modules : Modules) (cyclicModules : List String) (config : Config)
    (s : BuildState) (id : String) : Option BuildState :=
  (plainCreateNodeFor config s id id).bind fun s1 =>
  (styleKey modules cyclicModules config s1 id).bind fun s2 =>
  match modGet modules id with
  | none => none
  | some deps => deps.foldlM (plainVisitDep modules config id) s2

/-- The steps of `buildGraph` on own properties. -/
def plainBuildGraph (modules : Modules) (circular : List (List String)) (config : Config) :
    Option BuildState :=
  (modKeys modules).foldlM (plainVisitKey modules circular.flatten config) BuildState.init

/-- The steps of `stepVisit` on own properties. -/
def plainStepVisit (modules : Modules) (cyclicModules : List String) (config : Config)
    (s : BuildState) : Visit → Option BuildState
  | .key id => (plainCreateNodeFor config s id id).bind fun s1 =>
      styleKey modules cyclicModules config s1 id
  | .dep id depId => plainVisitDep modules config id s depId

/-- The steps of `runVisits` on own properties. -/
def plainRunVisits (modules : Modules) (cyclicModules : List String) (config : Config)
    (vs : List Visit) : Option BuildState :=
  vs.foldlM (plainStepVisit modules cyclicModules config) BuildState.init

/-! ## The invariant of the loop -/

/-- The attribute object the callback returns for an identifier, given the
identifiers asked before: empty when there is no callback or it returns
nothing. -/
def baseAttrs (config : Config) (asked : List String) (id : String) : AttrSet :=
  match config.getNodeAttributes with
  | none => []
  | some f => (f asked id).getD []

/-- An attribute object after `setNodeColor`. -/
def highlighted (base : AttrSet) (color : String) : AttrSet :=
  attrSet (attrSet base "color" color) "fontcolor" color

/-- What holds of the variables of `createGraph` between any two statements of
the loop, as long as the loop has met no inherited name. -/
structure WellFormed (m : Modules) (cyc : List String) (cfg : Config) (s : BuildState) :
    Prop where
  nodes_nodup : s.nodes.Nodup
  nodes_eq : s.g.nodes.map (fun n => n.id) = s.nodes
  subgraphs_nodup : s.g.subgraphs.Nodup
  calls_eq : s.calls = if cfg.getNodeAttributes.isSome = true then s.nodes else []
  groups_ok : ∀ id grp, tblGet s.groups id = some grp →
    grp ≠ "" ∧ id ∈ s.nodes ∧ ∃ r, tblGet s.subgraphs grp = some r
  subgraphs_ok : ∀ k r, tblGet s.subgraphs k = some r → r ∈ s.g.subgraphs
  node_cluster : ∀ n ∈ s.g.nodes, (n.cluster = none ↔ tblGet s.groups n.id = none) ∧
    ∀ r, n.cluster = some r → r ∈ s.g.subgraphs
  edge_ends : ∀ e ∈ s.g.edges, e.source ∈ s.nodes ∧ e.target ∈ s.nodes
  edge_cluster : ∀ e ∈ s.g.edges,
    (e.cluster = none ↔
      ¬ ∃ G, tblGet s.groups e.source = some G ∧ tblGet s.groups e.target = some G) ∧
    ∀ r, e.cluster = some r → r ∈ s.g.subgraphs
  group_call : ∀ p id q, s.calls = p ++ id :: q →
    tblGet s.groups id = cfg.getNodeAttributes.bind fun f => groupOf (f p id)
  groups_nocb : cfg.getNodeAttributes = none → s.groups = []
  styled_mem : ∀ id st, (id, st) ∈ s.styled → id ∈ s.nodes
  styled_noDep : ∀ id, (id, Style.noDependency) ∈ s.styled →
    modGet m id = some [] ∨ modGet m id = none
  styled_cyclic : ∀ id, (id, Style.cyclic) ∈ s.styled →
    id ∈ cyc ∧ ∃ deps, modGet m id = some deps ∧ deps ≠ []
  styled_color : ∀ n ∈ s.g.nodes, ∀ st, (n.id, st) ∈ s.styled →
    attrGet n.attributes "color" = some (st.color cfg) ∧
      attrGet n.attributes "fontcolor" = some (st.color cfg)
  node_attrs : ∀ n ∈ s.g.nodes, ∀ p q, s.nodes = p ++ n.id :: q →
    ((∀ st, (n.id, st) ∉ s.styled) →
      n.attributes = baseAttrs cfg p n.id) ∧
    (∀ st, (n.id, st) ∈ s.styled →
      n.attributes = highlighted (baseAttrs cfg p n.id) (st.color cfg))

/-- What the variables owe to the visits made so far. -/
structure History (m : Modules) (cyc : List String) (pre : List Visit) (s : BuildState) :
    Prop where
  nodes_hist : s.nodes = firstSeen (pre.map Visit.ident)
  edges_hist : s.g.edges.map (fun e => (e.source, e.target)) = pre.filterMap Visit.edge
  noDep_hist : ∀ id, (id, Style.noDependency) ∈ s.styled ↔
    (Visit.key id ∈ pre ∧ modGet m id = some []) ∨
      (∃ p, Visit.dep p id ∈ pre ∧ modGet m id = none)
  cyclic_hist : ∀ id, (id, Style.cyclic) ∈ s.styled ↔
    Visit.key id ∈ pre ∧ id ∈ cyc ∧ ∃ deps, modGet m id = some deps ∧ deps ≠ []

/-- The table `groups` after the node of `x` is created with group `grp`. -/
def bindGroup (groups : Table) (x : String) : Option String → Table
  | some g => (x, g) :: groups
  | none => groups

/-- The table `subgraphs` after a node is created with group `grp` in the
subgraph `ref`. -/
def bindSubgraph (subgraphs : Table) (ref : String) : Option String → Table
  | some g => (g, ref) :: subgraphs
  | none => subgraphs

/-- When a style may be applied to an identifier: the condition under which
the loop reaches the `setNodeColor` call of that style. -/
def styleAllowed (m : Modules) (cyc : List String) (id : String) : Style → Prop
  | .noDependency => modGet m id = some [] ∨ modGet m id = none
  | .cyclic => id ∈ cyc ∧ ∃ deps, modGet m id = some deps ∧ deps ≠ []

/-! ## Groups -/

/-- The group the attribute callback gives an identifier at its first call in
the record `calls`: the first-assigned group. -/
def firstGroup (config : Config) (calls : List String) (id : String) : Option String :=
  config.getNodeAttributes.bind fun f => groupOf (f (calls.takeWhile fun y => y != id) id)

/-! ## Example inputs -/

/-- The default configuration of madge. -/
def exampleConfig : Config :=
  { rankdir := .str "LR"
    layout := .str "dot"
    backgroundColor := .str "#111111"
    edgeColor := .str "#757575"
    fontName := .str "Arial"
    fontSize := .str "14px"
    nodeColor := .str "#c6c5fe"
    nodeShape := .str "box"
    nodeStyle := .str "rounded"
    noDependencyColor := "#cfffac"
    cyclicNodeColor := "#ff6c60"
    graphVizPath := none
    graphVizOptions := none
    getNodeAttributes := none }

/-- A stand-in for `path.join` on two plain segments. -/
def examplePathJoin (a b : String) : String := a ++ "/" ++ b

/-- The options `svg` passes for the default configuration. -/
def exampleOptions : GraphvizOptions :=
  { createGraphvizOptions examplePathJoin exampleConfig with format := some "svg" }

/-- The callback of the grouping scenarios: A is in group g1 and every other
identifier in group g2. -/
def twoGroups (_ : List String) (id : String) : Option AttrSet :=
  some [("group", if id = "A" then "g1" else "g2")]

/-- The default configuration with the callback `twoGroups`. -/
def twoGroupsConfig : Config := { exampleConfig with getNodeAttributes := some twoGroups }

/-- A callback that would answer differently when asked about an identifier a
second time. -/
def fickle (asked : List String) (id : String) : Option AttrSet :=
  some [("group", if id ∈ asked then "late" else "early")]

/-- The default configuration with the callback `fickle`. -/
def fickleConfig : Config := { exampleConfig with getNodeAttributes := some fickle }

/-! ## Override objects -/

/-- The override object for one element kind (empty when there is none). -/
def overrideOf (config : Config) (kind : GraphVizOverrides → Option Obj) : Obj :=
  ((config.graphVizOptions.getD ⟨none, none, none⟩) |> kind).getD []

/-- An object has each property once. -/
def DistinctKeys (o : Obj) : Prop := (o.map Prod.fst).Nodup

/-- The default configuration with engine overrides: the graph direction is
replaced and a spline setting added, the node height is replaced. -/
def overrideConfig : Config :=
  { exampleConfig with
    graphVizOptions := some
      { G := some [("rankdir", .str "TB"), ("splines", .str "ortho")]
        E := none
        N := some [("height", .str "1")] } }

/-- The default configuration with an override object for the graph that has
the own property `__proto__` (as `JSON.parse` makes it). -/
def protoOverrideConfig : Config :=
  { exampleConfig with
    graphVizOptions := some
      { G := some [("__proto__", .str "x"), ("splines", .str "ortho")]
        E := none
        N := none } }

/-- A callback that puts every node in the group named "constructor". -/
def constructorGroup (_ : List String) (_ : String) : Option AttrSet :=
  some [("group", "constructor")]

/-- The default configuration with the callback `constructorGroup`. -/
def constructorGroupConfig : Config :=
  { exampleConfig with getNodeAttributes := some constructorGroup }

/-- A callback that gives every node a color, a shape and a fontcolor. -/
def paintBlue (_ : List String) (_ : String) : Option AttrSet :=
  some [("color", "blue"), ("shape", "oval"), ("fontcolor", "white")]

/-- The default configuration with the callback `paintBlue`. -/
def paintBlueConfig : Config := { exampleConfig with getNodeAttributes := some paintBlue }

/-! ## `path.extname` and the image format -/

/-- The variables of the loop of `path.extname` (POSIX variant of the Node.js
library); the value -1 of `startDot` and `end` is `none`. -/
structure ExtnameState where
  startDot : Option Nat
  startPart : Nat
  endPos : Option Nat
  matchedSlash : Bool
  preDotState : Int
deriving DecidableEq, Repr

/-- The loop of `path.extname`, from the last character of the path to the
first.  The argument holds the characters not yet visited, last one first:
its head is `path[i]` with `i` the length of its tail. -/
def extnameLoop : List Char → ExtnameState → ExtnameState
  | [], st => st
  | c :: rest, st =>
    if c = '/' then
      if st.matchedSlash then extnameLoop rest st
      else { st with startPart := rest.length + 1 }
    else
      let st1 : ExtnameState :=
        if st.endPos = none then { st with matchedSlash := false, endPos := some (rest.length + 1) }
        else st
      let st2 : ExtnameState :=
        if c = '.' then
          if st1.startDot = none then { st1 with startDot := some rest.length }
          else if st1.preDotState ≠ 1 then { st1 with preDotState := 1 }
          else st1
        else if st1.startDot ≠ none then { st1 with preDotState := -1 }
        else st1
      extnameLoop rest st2

/-- The variables of `path.extname` before the loop. -/
def ExtnameState.init : ExtnameState := ⟨none, 0, none, true, 0⟩

/-- The result of `path.extname` from the variables after the loop. -/
def extnameResult (path : List Char) (st : ExtnameState) : List Char :=
  match st.startDot, st.endPos with
  | some sd, some e =>
    if st.preDotState = 0 ∨ (st.preDotState = 1 ∧ sd = e - 1 ∧ sd = st.startPart + 1) then []
    else (path.drop sd).take (e - sd)
  | _, _ => []

/-- The function `path.extname` on the characters of a path. -/
def extnameChars (path : List Char) : List Char :=
  extnameResult path (extnameLoop path.reverse ExtnameState.init)

/-- The function `path.extname`. -/
def extname (path : String) : String := ⟨extnameChars path.data⟩

/-- The call `s.replace('.', '')`: the first dot of the string is removed. -/
def removeFirstDot (s : String) : String := ⟨s.data.erase '.'⟩

/-- The expression `path.extname(imagePath).replace('.', '') || 'png'`. -/
def imageFormat (imagePath : String) : String :=
  if removeFirstDot (extname imagePath) = "" then "png"
  else removeFirstDot (extname imagePath)

/-! ## The output operations -/

/-- A JavaScript error, by its message. -/
structure JsError where
  message : String
deriving DecidableEq, Repr

/-- The error a failed `exec` rejects with: its `code` (a name such as ENOENT,
or an exit status written in decimal) and its text. -/
structure ExecError where
  code : Option String
  text : String
deriving DecidableEq, Repr

/-- The bytes of a `Buffer`. -/
abbrev Buffer := List Nat

/-- What is handed to `writeFile`. -/
inductive FileData where
  | text (s : String)
  | bytes (b : Buffer)
deriving DecidableEq, Repr

/-- What an operation does, in order: a console line, the probe `exec`, the
call of `createGraph`, a `writeFile` call, the renderer call
`adapter.toStream`, the call of the interactive page generator. -/
inductive Event where
  | consoleLog (line : String)
  | exec (cmd : String) (args : List String)
  | createGraph (modules : Modules) (circular : List (List String))
  | writeFile (path : String) (data : FileData)
  | toStream (dot : String) (options : GraphvizOptions)
  | generateInteractiveHtml (svg : Buffer)
deriving DecidableEq

/-- The collaborators the operations call: the outcome of `exec` (`none` is
success), `gv.toDot`, the renderer (`adapter.toStream` read to the end), the
outcome of an awaited `writeFile` (`none` is success), the interactive page
generator `./interactive` (not part of this file), and the functions of the
`path` library and of `Buffer` that are used.  For a build in which a subgraph
object is assigned to `subgraphs.__proto__`, `afterProtoWrite` is how the loop
goes on: `none` when it ends in a `TypeError`, otherwise the text `gv.toDot`
gives for the digraph it ends with. -/
structure World where
  exec : String → List String → Option ExecError
  toDot : Digraph → String
  afterProtoWrite : Modules → List (List String) → Config → Option String
  toStream : String → GraphvizOptions → Except JsError Buffer
  writeFile : String → FileData → Option JsError
  generateInteractiveHtml : Buffer → Except JsError FileData
  pathJoin : String → String → String
  pathResolve : String → String
  toStringUtf8 : Buffer → String

/-- A settled promise: its value or the error it rejects with, and what was
done on the way. -/
structure Outcome (α : Type) where
  result : Except JsError α
  events : List Event

/-- The continuation of a promise (`.then`, or the statements after an
`await`): it runs only when the promise is fulfilled. -/
def Outcome.andThen {α β : Type} (o : Outcome α) (k : α → Outcome β) : Outcome β :=
  match o.result with
  | .error e => ⟨.error e, o.events⟩
  | .ok a => ⟨(k a).result, o.events ++ (k a).events⟩

/-- The call `console.log(line)`. -/
def consoleLog (line : String) : Outcome Unit := ⟨.ok (), [.consoleLog line]⟩

/-- A `writeFile` call that is waited for. -/
def writeFileAwaited (w : World) (path : String) (data : FileData) : Outcome Unit :=
  ⟨match w.writeFile path data with
    | none => .ok ()
    | some e => .error e,
    [.writeFile path data]⟩

/-- The command of the probe (line 29). -/
def probeCommand (w : World) (config : Config) : String :=
  if truthy config.graphVizPath = true then w.pathJoin (config.graphVizPath.getD "") "gvpr"
  else "gvpr"

/-- The function `checkGraphvizInstalled(config)`. -/
def checkGraphvizInstalled (w : World) (config : Config) : Outcome Unit :=
  let cmd := probeCommand w config
  ⟨match w.exec cmd ["-V"] with
    | none => .ok ()
    | some err =>
      if err.code = some "ENOENT" then
        .error ⟨"Graphviz could not be found. Ensure that \"gvpr\" is in your $PATH. "
          ++ err.text⟩
      else
        .error ⟨"Unexpected error when calling Graphviz \"" ++ cmd ++ "\". " ++ err.text⟩,
    [.exec cmd ["-V"]]⟩

/-- The promise a `createGraph` call returns and what the call does (lines
87-143): the loop, `gv.toDot`, the `writeFile` calls, which are not waited
for, and the renderer.  A `TypeError` in the loop rejects the promise (its
message is not described). -/
def createGraphPromise (w : World) (modules : Modules) (circular : List (List String))
    (config : Config) (options : GraphvizOptions) : Outcome Buffer :=
  match createGraph modules circular config options with
  | .typeError => ⟨.error ⟨"TypeError"⟩, [.createGraph modules circular]⟩
  | .done r =>
    ⟨w.toStream (w.toDot r.built.g) r.options,
      [.createGraph modules circular] ++
        r.written.map (fun p => Event.writeFile p (.text (w.toDot r.built.g))) ++
        [.toStream (w.toDot r.built.g) r.options]⟩
  | .protoWrite =>
    match w.afterProtoWrite modules circular config with
    | none => ⟨.error ⟨"TypeError"⟩, [.createGraph modules circular]⟩
    | some text =>
      ⟨w.toStream text options,
        [.createGraph modules circular, .writeFile "temp.dot" (.text text),
          .toStream text options]⟩

/-- The assignment `options.format = format`. -/
def setFormat (options : GraphvizOptions) (format : String) : GraphvizOptions :=
  { options with format := some format }

/-- The function `svg(modules, circular, config)`. -/
def svg (w : World) (modules : Modules) (circular : List (List String)) (config : Config) :
    Outcome Buffer :=
  let options := setFormat (createGraphvizOptions w.pathJoin config) "svg"
  (checkGraphvizInstalled w config).andThen fun _ =>
    createGraphPromise w modules circular config options

/-- The function `image(modules, circular, imagePath, config)`. -/
def image (w : World) (modules : Modules) (circular : List (List String))
    (imagePath : String) (config : Config) : Outcome String :=
  let options := setFormat (createGraphvizOptions w.pathJoin config) (imageFormat imagePath)
  (checkGraphvizInstalled w config).andThen fun _ =>
    (createGraphPromise w modules circular config options).andThen fun image =>
      (writeFileAwaited w imagePath (.bytes image)).andThen fun _ =>
        ⟨.ok (w.pathResolve imagePath), []⟩

/-- The function `interactive(modules, circular, pagePath, config)`. -/
def interactive (w : World) (modules : Modules) (circular : List (List String))
    (pagePath : String) (config : Config) : Outcome String :=
  (consoleLog "Generating interactive...").andThen fun _ =>
    (svg w modules circular config).andThen fun svg_ =>
      (consoleLog "Got svg").andThen fun _ =>
        (Outcome.mk (w.generateInteractiveHtml svg_) [.generateInteractiveHtml svg_]).andThen
          fun html_ =>
            (consoleLog "Got html").andThen fun _ =>
              (writeFileAwaited w pagePath html_).andThen fun _ =>
                (consoleLog "Wrote html").andThen fun _ =>
                  ⟨.ok (w.pathResolve pagePath), []⟩

/-- The function `dot(modules, circular, config)`. -/
def dot (w : World) (modules : Modules) (circular : List (List String)) (config : Config) :
    Outcome String :=
  let options := setFormat (createGraphvizOptions w.pathJoin config) "dot"
  ((checkGraphvizInstalled w config).andThen fun _ =>
    createGraphPromise w modules circular config options).andThen fun output =>
      ⟨.ok (w.toStringUtf8 output), []⟩

/-- A world in which Graphviz is installed and every call succeeds. -/
def exampleWorld : World :=
  { exec := fun _ _ => none
    toDot := fun _ => "digraph G"
    afterProtoWrite := fun _ _ _ => none
    toStream := fun _ _ => .ok [1, 2, 3]
    writeFile := fun _ _ => none
    generateInteractiveHtml := fun _ => .ok (.text "<html>")
    pathJoin := examplePathJoin
    pathResolve := fun p => "/cwd/" ++ p
    toStringUtf8 := fun _ => "digraph G" }

/-- A world in which the executable of the probe is not found. -/
def worldWithoutGraphviz : World :=
  { exampleWorld with exec := fun _ _ => some ⟨some "ENOENT", "Error: spawn gvpr ENOENT"⟩ }

/-- The path an event writes to, when it is a `writeFile` call. -/
def Event.writtenPath : Event → Option String
  | .writeFile path _ => some path
  | _ => none

/-- The format an event hands to the renderer, when it is a renderer call. -/
def Event.renderFormat : Event → Option (Option String)
  | .toStream _ options => some options.format
  | _ => none

/-- A world in which the probe starts but exits with status 1. -/
def worldWithBrokenGraphviz : World :=
  { exampleWorld with exec := fun _ _ => some ⟨some "1", "Error: Command failed"⟩ }

/-- The default configuration with an alternate install directory. -/
def installDirConfig : Config := { exampleConfig with graphVizPath := some "/opt/gv/bin" }

/-! ## Lemmas on tables and lists -/

theorem tblGet_cons (t : Table) (k v k' : String) :
    tblGet ((k, v) :: t) k' = if k = k' then some v else tblGet t k' := rfl

theorem tblGet_tblSet (t : Table) (k v k' : String) :
    tblGet (tblSet t k v) k' = if k = k' then some v else tblGet t k' := rfl

theorem attrGet_attrSet (a : AttrSet) (k v k' : String) :
    attrGet (attrSet a k v) k' = if k = k' then some v else attrGet a k' := by
  induction a with
  | nil => simp [attrSet, attrGet, tblGet]
  | cons hd tl ih =>
    obtain ⟨k0, v0⟩ := hd
    unfold attrGet at ih ⊢
    by_cases h0 : k0 = k
    · subst h0
      by_cases h1 : k0 = k' <;> simp [attrSet, tblGet, h1]
    · by_cases h1 : k0 = k'
      · subst h1
        have h2 : ¬ k = k0 := fun h => h0 h.symm
        simp [attrSet, tblGet, h0, h2]
      · simp [attrSet, tblGet, h0, h1, ih]

theorem setNodeColor_id (n : Node) (c : String) : (setNodeColor n c).id = n.id := rfl

theorem setNodeColor_cluster (n : Node) (c : String) :
    (setNodeColor n c).cluster = n.cluster := rfl

theorem setNodeColor_color (n : Node) (c : String) :
    attrGet (setNodeColor n c).attributes "color" = some c ∧
      attrGet (setNodeColor n c).attributes "fontcolor" = some c := by
  simp [setNodeColor, attrGet_attrSet]

theorem modGet_of_mem_keys (m : Modules) (id : String) (h : id ∈ modKeys m) :
    ∃ deps, modGet m id = some deps := by
  induction m with
  | nil => simp [modKeys] at h
  | cons hd tl ih =>
    obtain ⟨k, v⟩ := hd
    by_cases hk : k = id
    · exact ⟨v, by simp [modGet, hk]⟩
    · have : id ∈ modKeys tl := by
        simp only [modKeys, List.map_cons, List.mem_cons] at h
        rcases h with h | h
        · exact absurd h.symm hk
        · exact h
      obtain ⟨d, hd⟩ := ih this
      exact ⟨d, by simp [modGet, hk, hd]⟩

theorem mem_keys_of_modGet (m : Modules) (id : String) (deps : List String)
    (h : modGet m id = some deps) : id ∈ modKeys m := by
  induction m with
  | nil => simp [modGet] at h
  | cons hd tl ih =>
    obtain ⟨k, v⟩ := hd
    by_cases hk : k = id
    · simp [modKeys, hk]
    · simp only [modGet, hk, if_false] at h
      have := ih h
      simp only [modKeys, List.map_cons, List.mem_cons]
      exact Or.inr this

theorem modGet_of_mem (m : Modules) (k : String) (v : List String)
    (hd : (modKeys m).Nodup) (h : (k, v) ∈ m) : modGet m k = some v := by
  induction m with
  | nil => simp at h
  | cons e tl ih =>
    obtain ⟨k0, v0⟩ := e
    simp only [modKeys, List.map_cons, List.nodup_cons] at hd
    rcases List.mem_cons.mp h with h | h
    · simp only [Prod.mk.injEq] at h
      simp [modGet, h.1, h.2]
    · have hk : k ∈ tl.map Prod.fst := List.mem_map.mpr ⟨(k, v), h, rfl⟩
      have hne : ¬ k0 = k := fun e => hd.1 (e ▸ hk)
      simp only [modGet, hne, if_false]
      exact ih hd.2 h

theorem modGet_eq_none_iff (m : Modules) (id : String) :
    modGet m id = none ↔ id ∉ modKeys m := by
  constructor
  · intro h hmem
    obtain ⟨d, hd⟩ := modGet_of_mem_keys m id hmem
    rw [h] at hd
    cases hd
  · intro h
    cases hg : modGet m id with
    | none => rfl
    | some d => exact absurd (mem_keys_of_modGet m id d hg) h

theorem firstSeen_append_singleton (l : List String) (x : String) :
    firstSeen (l ++ [x]) = if x ∈ firstSeen l then firstSeen l else firstSeen l ++ [x] := by
  simp [firstSeen, List.foldl_append]

theorem mem_firstSeen (l : List String) (x : String) : x ∈ firstSeen l ↔ x ∈ l := by
  induction l using List.reverseRecOn with
  | nil => simp [firstSeen]
  | append_singleton l y ih =>
    rw [firstSeen_append_singleton]
    by_cases hy : y ∈ firstSeen l
    · simp only [hy, if_true, List.mem_append, List.mem_singleton]
      constructor
      · intro h
        exact Or.inl (ih.mp h)
      · rintro (h | h)
        · exact ih.mpr h
        · rw [h]
          exact hy
    · simp only [hy, if_false, List.mem_append, List.mem_singleton, ih]

theorem nodup_firstSeen (l : List String) : (firstSeen l).Nodup := by
  induction l using List.reverseRecOn with
  | nil => simp [firstSeen]
  | append_singleton l y ih =>
    rw [firstSeen_append_singleton]
    by_cases hy : y ∈ firstSeen l
    · simpa [hy] using ih
    · simp only [hy, if_false]
      rw [List.nodup_append]
      refine ⟨ih, List.nodup_singleton y, ?_⟩
      intro a ha hb
      rw [List.mem_singleton] at hb
      exact hy (hb ▸ ha)

theorem firstSeen_prefix (l l' : List String) : firstSeen l <+: firstSeen (l ++ l') := by
  induction l' using List.reverseRecOn with
  | nil => simp
  | append_singleton l' y ih =>
    rw [← List.append_assoc, firstSeen_append_singleton]
    by_cases hy : y ∈ firstSeen (l ++ l')
    · simpa [hy] using ih
    · simp only [hy, if_false]
      exact ih.trans (List.prefix_append _ _)

/-- A loop keeps an invariant that is indexed by the part of the list already
visited, and never fails, when each step does. -/
theorem foldlM_prefix_inv {α σ : Type} (step : σ → α → Option σ)
    (P : List α → σ → Prop) (l : List α)
    (hstep : ∀ pre x post s, l = pre ++ x :: post → P pre s →
      ∃ s', step s x = some s' ∧ P (pre ++ [x]) s') :
    ∀ post pre s, l = pre ++ post → P pre s →
      ∃ s', post.foldlM step s = some s' ∧ P l s' := by
  intro post
  induction post with
  | nil =>
    intro pre s hl hP
    refine ⟨s, rfl, ?_⟩
    rw [hl, List.append_nil]
    exact hP
  | cons x post ih =>
    intro pre s hl hP
    obtain ⟨s1, h1, hP1⟩ := hstep pre x post s hl hP
    obtain ⟨s2, h2, hP2⟩ := ih (pre ++ [x]) s1 (by simp [hl]) hP1
    refine ⟨s2, ?_, hP2⟩
    simp [List.foldlM, h1, h2]

theorem plainStepVisit_depVisits (m : Modules) (cyc : List String) (cfg : Config)
    (id : String) (deps : List String) (s : BuildState) :
    (deps.map (Visit.dep id)).foldlM (plainStepVisit m cyc cfg) s =
      deps.foldlM (plainVisitDep m cfg id) s := by
  induction deps generalizing s with
  | nil => rfl
  | cons d ds ih =>
    simp only [List.map_cons, List.foldlM, plainStepVisit]
    cases plainVisitDep m cfg id s d with
    | none => rfl
    | some s3 => exact ih s3

theorem plainStepVisit_keyVisits (m : Modules) (cyc : List String) (cfg : Config)
    (s : BuildState) (id : String) (h : id ∈ modKeys m) :
    (keyVisits m id).foldlM (plainStepVisit m cyc cfg) s = plainVisitKey m cyc cfg s id := by
  obtain ⟨deps, hdeps⟩ := modGet_of_mem_keys m id h
  have hd : depsOf m id = deps := by simp [depsOf, hdeps]
  simp only [keyVisits, hd, List.foldlM, plainStepVisit, plainVisitKey, hdeps]
  simp only [plainStepVisit_depVisits, Option.bind_eq_bind]
  cases plainCreateNodeFor cfg s id id with
  | none => rfl
  | some s1 =>
    show ((styleKey m cyc cfg s1 id).bind _) = ((styleKey m cyc cfg s1 id).bind _)
    cases styleKey m cyc cfg s1 id with
    | none => rfl
    | some s2 => rfl

theorem plainBuildGraph_eq_plainRunVisits (m : Modules) (circular : List (List String)) (cfg : Config) :
    plainBuildGraph m circular cfg = plainRunVisits m circular.flatten cfg (visitsOf m) := by
  unfold plainBuildGraph plainRunVisits visitsOf
  generalize BuildState.init = s
  have key : ∀ (ks : List String), (∀ k ∈ ks, k ∈ modKeys m) → ∀ s,
      ks.foldlM (plainVisitKey m circular.flatten cfg) s =
        (ks.flatMap (keyVisits m)).foldlM (plainStepVisit m circular.flatten cfg) s := by
    intro ks
    induction ks with
    | nil => intro _ s; rfl
    | cons k ks ih =>
      intro hk s
      rw [List.flatMap_cons, List.foldlM_append,
        plainStepVisit_keyVisits m _ cfg s k (hk k (List.mem_cons_self _ _))]
      simp only [List.foldlM]
      cases plainVisitKey m circular.flatten cfg s k with
      | none => rfl
      | some s1 =>
        exact ih (fun k' hk' => hk k' (List.mem_cons_of_mem _ hk')) s1
  exact key (modKeys m) (fun _ h => h) s

theorem wellFormed_init (m : Modules) (cyc : List String) (cfg : Config) :
    WellFormed m cyc cfg BuildState.init := by
  constructor <;> simp [BuildState.init, digraph, tblGet]

theorem history_init (m : Modules) (cyc : List String) :
    History m cyc [] BuildState.init := by
  constructor <;> simp [BuildState.init, digraph, firstSeen]

theorem append_singleton_eq_split {α : Type} (l p q : List α) (x y : α)
    (h : l ++ [x] = p ++ y :: q) :
    (q = [] ∧ p = l ∧ y = x) ∨ ∃ q', q = q' ++ [x] ∧ l = p ++ y :: q' := by
  rcases List.eq_nil_or_concat q with hq | ⟨q', z, hq⟩
  · subst hq
    left
    have h' : l ++ [x] = p ++ [y] := h
    have := List.append_inj' h' rfl
    exact ⟨rfl, this.1.symm, by simpa using this.2.symm⟩
  · right
    subst hq
    have h' : l ++ [x] = (p ++ y :: q') ++ [z] := by
      rw [h, List.concat_eq_append]
      simp
    have := List.append_inj' h' rfl
    have hz : x = z := by simpa using this.2
    exact ⟨q', by rw [hz, List.concat_eq_append], this.1⟩

theorem truthy_some (g : String) : truthy (some g) = true ↔ g ≠ "" := by
  simp [truthy]

theorem groupOf_ne_empty (a : Option AttrSet) (g : String) (h : groupOf a = some g) :
    g ≠ "" := by
  unfold groupOf at h
  cases a with
  | none => simp at h
  | some a =>
    simp only at h
    cases hg : attrGet a "group" with
    | none => simp [hg] at h
    | some grp =>
      simp only [hg] at h
      by_cases he : grp = ""
      · simp [he] at h
      · simp only [he, if_false, Option.some.injEq] at h
        exact h ▸ he

/-- The invariant survives the creation of a node for a new identifier. -/
theorem WellFormed.addNode {m : Modules} {cyc : List String} {cfg : Config} {s : BuildState}
    (hW : WellFormed m cyc cfg s) (x : String) (hx : x ∉ s.nodes) (attrs : AttrSet)
    (sgs : List String) (hsub : ∀ r ∈ s.g.subgraphs, r ∈ sgs) (hnd : sgs.Nodup)
    (grp : Option String) (ref : String) (href : grp.isSome = true → ref ∈ sgs)
    (hgc : grp = cfg.getNodeAttributes.bind fun f => groupOf (f s.calls x))
    (calls : List String)
    (hcalls : calls = if cfg.getNodeAttributes.isSome = true then s.nodes ++ [x] else [])
    (hattrs : attrs = baseAttrs cfg s.nodes x) :
    WellFormed m cyc cfg
      { g := ⟨sgs, s.g.nodes ++ [⟨x, grp.map fun _ => ref, attrs⟩], s.g.edges⟩
        nodes := s.nodes ++ [x]
        groups := bindGroup s.groups x grp
        subgraphs := bindSubgraph s.subgraphs ref grp
        calls := calls
        styled := s.styled } := by
  have hgx : tblGet s.groups x = none := by
    cases h : tblGet s.groups x with
    | none => rfl
    | some g => exact absurd (hW.groups_ok x g h).2.1 hx
  have hgrp_ne : ∀ g, grp = some g → g ≠ "" := by
    intro g hg
    rw [hgc] at hg
    cases hf : cfg.getNodeAttributes with
    | none => simp [hf] at hg
    | some f =>
      simp only [hf, Option.some_bind] at hg
      exact groupOf_ne_empty _ g hg
  -- group lookups of older identifiers are unchanged
  have hgold : ∀ id, id ≠ x →
      tblGet (bindGroup s.groups x grp) id = tblGet s.groups id := by
    intro id hid
    cases grp with
    | none => rfl
    | some g =>
      have : ¬ x = id := fun h => hid h.symm
      simp [bindGroup, tblGet, this]
  have hgnew : tblGet (bindGroup s.groups x grp) x = grp := by
    cases grp with
    | none => exact hgx
    | some g => simp [bindGroup, tblGet]
  have hsold : ∀ k r, tblGet s.subgraphs k = some r →
      ∃ r', tblGet (bindSubgraph s.subgraphs ref grp) k = some r' := by
    intro k r hk
    cases grp with
    | none => exact ⟨r, hk⟩
    | some g =>
      by_cases hgk : g = k
      · exact ⟨ref, by simp [bindSubgraph, tblGet, hgk]⟩
      · exact ⟨r, by simp [bindSubgraph, tblGet, hgk, hk]⟩
  constructor
  · -- nodes_nodup
    show (s.nodes ++ [x]).Nodup
    rw [List.nodup_append]
    refine ⟨hW.nodes_nodup, List.nodup_singleton x, ?_⟩
    intro a ha hb
    rw [List.mem_singleton] at hb
    exact hx (hb ▸ ha)
  · -- nodes_eq
    show (s.g.nodes ++ [_]).map (fun n : Node => n.id) = s.nodes ++ [x]
    rw [List.map_append, hW.nodes_eq]
    rfl
  · exact hnd
  · -- calls_eq
    exact hcalls
  · -- groups_ok
    intro id g hg
    by_cases hid : id = x
    · subst hid
      rw [hgnew] at hg
      refine ⟨hgrp_ne g hg, by simp, ?_⟩
      subst hg
      exact ⟨ref, by simp [bindSubgraph, tblGet]⟩
    · rw [hgold id hid] at hg
      obtain ⟨h1, h2, r, h3⟩ := hW.groups_ok id g hg
      exact ⟨h1, by simp [h2], hsold g r h3⟩
  · -- subgraphs_ok
    intro k r hk
    show r ∈ sgs
    cases grp with
    | none => exact hsub r (hW.subgraphs_ok k r hk)
    | some g =>
      simp only [bindSubgraph, tblGet] at hk
      by_cases hgk : g = k
      · simp only [hgk, if_true, Option.some.injEq] at hk
        exact hk ▸ href rfl
      · simp only [hgk, if_false] at hk
        exact hsub r (hW.subgraphs_ok k r hk)
  · -- node_cluster
    intro n hn
    simp only [List.mem_append, List.mem_singleton] at hn
    rcases hn with hn | hn
    · have hid : n.id ≠ x := by
        intro h
        apply hx
        rw [← hW.nodes_eq, ← h]
        exact List.mem_map.mpr ⟨n, hn, rfl⟩
      rw [hgold n.id hid]
      exact ⟨(hW.node_cluster n hn).1, fun r hr => hsub r ((hW.node_cluster n hn).2 r hr)⟩
    · subst hn
      show ((grp.map fun _ => ref) = none ↔ _) ∧ _
      rw [hgnew]
      refine ⟨by cases grp <;> simp, ?_⟩
      intro r hr
      cases grp with
      | none => simp at hr
      | some g =>
        simp only [Option.map_some', Option.some.injEq] at hr
        exact hr ▸ href rfl
  · -- edge_ends
    intro e he
    obtain ⟨h1, h2⟩ := hW.edge_ends e he
    exact ⟨by simp [h1], by simp [h2]⟩
  · -- edge_cluster
    intro e he
    obtain ⟨h1, h2⟩ := hW.edge_ends e he
    have hs : e.source ≠ x := fun h => hx (h ▸ h1)
    have ht : e.target ≠ x := fun h => hx (h ▸ h2)
    show (_ ↔ ¬ ∃ G, tblGet _ e.source = some G ∧ tblGet _ e.target = some G) ∧ _
    rw [hgold _ hs, hgold _ ht]
    exact ⟨(hW.edge_cluster e he).1, fun r hr => hsub r ((hW.edge_cluster e he).2 r hr)⟩
  · -- group_call
    intro p id q hsplit
    show tblGet _ id = _
    cases hf : cfg.getNodeAttributes with
    | none =>
      simp only [hf, Option.isSome_none, Bool.false_eq_true, if_false] at hcalls
      rw [hcalls] at hsplit
      simp at hsplit
    | some f =>
      have hc : s.calls = s.nodes := by simpa [hf] using hW.calls_eq
      simp only [hf, Option.isSome_some, if_true] at hcalls
      rw [hcalls] at hsplit
      rcases append_singleton_eq_split _ _ _ _ _ hsplit with ⟨_, hp, hy⟩ | ⟨q', _, hl⟩
      · subst hy
        rw [hgnew, hgc, hf, hc, hp]
      · have hid : id ≠ x := by
          intro h
          apply hx
          rw [hl, h]
          simp
        rw [hgold id hid]
        have := hW.group_call p id q' (by rw [hc]; exact hl)
        rw [this, hf]
  · -- groups_nocb
    intro hf
    have : grp = none := by rw [hgc, hf]; rfl
    subst this
    exact hW.groups_nocb hf
  · -- styled_mem
    intro id st h
    have := hW.styled_mem id st h
    simp [this]
  · exact hW.styled_noDep
  · exact hW.styled_cyclic
  · -- styled_color
    intro n hn st hst
    simp only [List.mem_append, List.mem_singleton] at hn
    rcases hn with hn | hn
    · exact hW.styled_color n hn st hst
    · subst hn
      exact absurd (hW.styled_mem _ st hst) hx
  · -- node_attrs
    intro n hn p q hsplit
    simp only [List.mem_append, List.mem_singleton] at hn
    have hsplit' : s.nodes ++ [x] = p ++ n.id :: q := hsplit
    rcases hn with hn | hn
    · have hid : n.id ≠ x := by
        intro h
        apply hx
        rw [← hW.nodes_eq, ← h]
        exact List.mem_map.mpr ⟨n, hn, rfl⟩
      rcases append_singleton_eq_split _ _ _ _ _ hsplit' with ⟨_, _, hy⟩ | ⟨q', _, hl⟩
      · exact absurd hy hid
      · exact hW.node_attrs n hn p q' hl
    · subst hn
      rcases append_singleton_eq_split _ _ _ _ _ hsplit' with ⟨_, hp, _⟩ | ⟨q', _, hl⟩
      · constructor
        · intro _
          show attrs = baseAttrs cfg p x
          rw [hp, hattrs]
        · intro st hst
          exact absurd (hW.styled_mem _ st hst) hx
      · exfalso
        apply hx
        rw [hl]
        simp

theorem subgraph_subgraphs_mem (g : Digraph) (name : String) :
    name ∈ (g.subgraph name).subgraphs := by
  unfold Digraph.subgraph
  by_cases h : name ∈ g.subgraphs <;> simp [h]

theorem subgraph_subgraphs_mono (g : Digraph) (name r : String) (h : r ∈ g.subgraphs) :
    r ∈ (g.subgraph name).subgraphs := by
  unfold Digraph.subgraph
  by_cases h' : name ∈ g.subgraphs <;> simp [h', h]

theorem subgraph_subgraphs_nodup (g : Digraph) (name : String) (h : g.subgraphs.Nodup) :
    (g.subgraph name).subgraphs.Nodup := by
  unfold Digraph.subgraph
  by_cases h' : name ∈ g.subgraphs
  · simpa [h'] using h
  · simp only [h', if_false]
    rw [List.nodup_append]
    refine ⟨h, List.nodup_singleton name, ?_⟩
    intro a ha hb
    rw [List.mem_singleton] at hb
    exact h' (hb ▸ ha)

theorem subgraph_nodes (g : Digraph) (name : String) : (g.subgraph name).nodes = g.nodes := by
  unfold Digraph.subgraph
  by_cases h' : name ∈ g.subgraphs <;> simp [h']

theorem subgraph_edges (g : Digraph) (name : String) : (g.subgraph name).edges = g.edges := by
  unfold Digraph.subgraph
  by_cases h' : name ∈ g.subgraphs <;> simp [h']

/-- Lines 95-105 and 114-124 never fail and keep the invariant; they add the
identifier to `nodes` when it is new and touch neither edges nor styles. -/
theorem plainCreateNodeFor_spec {m : Modules} {cyc : List String} {cfg : Config} {s : BuildState}
    (hW : WellFormed m cyc cfg s) (x who : String) :
    ∃ s', plainCreateNodeFor cfg s x who = some s' ∧ WellFormed m cyc cfg s' ∧
      s'.nodes = (if x ∈ s.nodes then s.nodes else s.nodes ++ [x]) ∧
      s'.g.edges = s.g.edges ∧ s'.styled = s.styled := by
  by_cases hx : x ∈ s.nodes
  · exact ⟨s, by simp [plainCreateNodeFor, hx], hW, by simp [hx], rfl, rfl⟩
  · have hgx : tblGet s.groups x = none := by
      cases h : tblGet s.groups x with
      | none => rfl
      | some g => exact absurd (hW.groups_ok x g h).2.1 hx
    cases hf : cfg.getNodeAttributes with
    | none =>
      have hc : s.calls = [] := by simpa [hf] using hW.calls_eq
      have := hW.addNode x hx [] s.g.subgraphs (fun _ h => h) hW.subgraphs_nodup none ""
        (by simp) (by simp [hf]) [] (by simp [hf]) (by simp [baseAttrs, hf])
      refine ⟨_, ?_, this, by simp [hx], rfl, rfl⟩
      simp [plainCreateNodeFor, hx, callGetNodeAttributes, hf, groupOf, Digraph.createNode,
        bindGroup, bindSubgraph, hc]
    | some f =>
      have hc : s.calls = s.nodes := by simpa [hf] using hW.calls_eq
      cases hg : groupOf (f s.calls x) with
      | none =>
        have := hW.addNode x hx ((f s.calls x).getD []) s.g.subgraphs (fun _ h => h)
          hW.subgraphs_nodup none "" (by simp) (by simp [hf, hg]) (s.calls ++ [x])
          (by simp [hf, hc]) (by simp [baseAttrs, hf, hc])
        refine ⟨_, ?_, this, by simp [hx], rfl, rfl⟩
        simp [plainCreateNodeFor, hx, callGetNodeAttributes, hf, hg, Digraph.createNode,
          bindGroup, bindSubgraph]
      | some grp =>
        have hkey : propKey (tblGet (tblSet s.groups x (jsOr (tblGet s.groups x) grp)) x)
            = grp := by
          simp [hgx, jsOr, tblSet, tblGet, propKey]
        cases hcons : tblGet s.subgraphs
            (propKey (tblGet (tblSet s.groups x (jsOr (tblGet s.groups x) grp)) who)) with
        | some ref =>
          have hr : ref ∈ s.g.subgraphs := hW.subgraphs_ok _ ref hcons
          have := hW.addNode x hx ((f s.calls x).getD []) s.g.subgraphs (fun _ h => h)
            hW.subgraphs_nodup (some grp) ref (fun _ => hr) (by simp [hf, hg])
            (s.calls ++ [x]) (by simp [hf, hc]) (by simp [baseAttrs, hf, hc])
          refine ⟨_, ?_, this, by simp [hx], rfl, rfl⟩
          simp only [plainCreateNodeFor, hx, if_false, callGetNodeAttributes, hf, hg, hcons, hkey]
          simp [tblSet, tblGet, hgx, jsOr, Digraph.createNode, bindGroup, bindSubgraph]
        | none =>
          have := hW.addNode x hx ((f s.calls x).getD []) (s.g.subgraph grp).subgraphs
            (fun r h => subgraph_subgraphs_mono _ _ r h)
            (subgraph_subgraphs_nodup _ _ hW.subgraphs_nodup) (some grp) grp
            (fun _ => subgraph_subgraphs_mem _ _) (by simp [hf, hg])
            (s.calls ++ [x]) (by simp [hf, hc]) (by simp [baseAttrs, hf, hc])
          refine ⟨_, ?_, this, by simp [hx], rfl, rfl⟩
          simp only [plainCreateNodeFor, hx, if_false, callGetNodeAttributes, hf, hg, hcons, hkey]
          simp [tblSet, tblGet, hgx, jsOr, Digraph.createNode, bindGroup, bindSubgraph,
            subgraph_nodes, subgraph_edges]

theorem attrSet_of_get (a : AttrSet) (k v : String) (h : attrGet a k = some v) :
    attrSet a k v = a := by
  induction a with
  | nil => simp [attrGet, tblGet] at h
  | cons hd tl ih =>
    obtain ⟨k0, v0⟩ := hd
    unfold attrGet at h ih
    by_cases h0 : k0 = k
    · simp only [tblGet, h0, if_true, Option.some.injEq] at h
      simp [attrSet, h0, h]
    · simp only [tblGet, h0, if_false] at h
      simp [attrSet, h0, ih h]

theorem highlighted_get (base : AttrSet) (c : String) :
    attrGet (highlighted base c) "color" = some c ∧
      attrGet (highlighted base c) "fontcolor" = some c := by
  simp [highlighted, attrGet_attrSet]

theorem highlighted_idem (base : AttrSet) (c : String) :
    highlighted (highlighted base c) c = highlighted base c := by
  have h := highlighted_get base c
  show attrSet (attrSet (highlighted base c) "color" c) "fontcolor" c = highlighted base c
  rw [attrSet_of_get _ _ _ h.1, attrSet_of_get _ _ _ h.2]

theorem highlighted_other (base : AttrSet) (c k : String) (h1 : k ≠ "color")
    (h2 : k ≠ "fontcolor") : attrGet (highlighted base c) k = attrGet base k := by
  simp [highlighted, attrGet_attrSet, h1.symm, h2.symm]

theorem styleAllowed_unique (m : Modules) (cyc : List String) (id : String) (a b : Style)
    (ha : styleAllowed m cyc id a) (hb : styleAllowed m cyc id b) : a = b := by
  have excl : (modGet m id = some [] ∨ modGet m id = none) →
      (id ∈ cyc ∧ ∃ deps, modGet m id = some deps ∧ deps ≠ []) → False := by
    rintro h ⟨_, d, hd, hne⟩
    rcases h with h | h <;> rw [h] at hd
    · exact hne (Option.some.inj hd).symm
    · cases hd
  cases a <;> cases b
  · rfl
  · exact (excl ha hb).elim
  · exact (excl hb ha).elim
  · rfl

theorem WellFormed.styled_allowed {m : Modules} {cyc : List String} {cfg : Config}
    {s : BuildState} (hW : WellFormed m cyc cfg s) (id : String) (st : Style)
    (h : (id, st) ∈ s.styled) : styleAllowed m cyc id st := by
  cases st
  · exact hW.styled_noDep id h
  · exact hW.styled_cyclic id h

/-- A `setNodeColor` call on an existing node never fails and keeps the
invariant; it is recorded and touches neither `nodes` nor the edges. -/
theorem applyStyle_spec {m : Modules} {cyc : List String} {cfg : Config} {s : BuildState}
    (hW : WellFormed m cyc cfg s) (id : String) (st : Style) (hid : id ∈ s.nodes)
    (hst : styleAllowed m cyc id st) :
    ∃ s', applyStyle cfg s id st = some s' ∧ WellFormed m cyc cfg s' ∧
      s'.nodes = s.nodes ∧ s'.g.edges = s.g.edges ∧ s'.styled = s.styled ++ [(id, st)] := by
  refine ⟨{ s with
      g := { s.g with
        nodes := s.g.nodes.map
          (fun n => if n.id = id then setNodeColor n (st.color cfg) else n) }
      styled := s.styled ++ [(id, st)] },
    by simp only [applyStyle, hid, if_true], ?_, rfl, rfl, rfl⟩
  have hmap : ∀ n' ∈ s.g.nodes.map
      (fun n => if n.id = id then setNodeColor n (st.color cfg) else n),
      ∃ n ∈ s.g.nodes, n'.id = n.id ∧ n'.cluster = n.cluster ∧
        ((n.id = id ∧ n' = setNodeColor n (st.color cfg)) ∨ (n.id ≠ id ∧ n' = n)) := by
    intro n' hn'
    obtain ⟨n, hn, rfl⟩ := List.mem_map.mp hn'
    refine ⟨n, hn, ?_⟩
    by_cases h : n.id = id
    · simp [h, setNodeColor]
    · simp [h]
  constructor
  · exact hW.nodes_nodup
  · show (s.g.nodes.map _).map (fun n : Node => n.id) = s.nodes
    rw [List.map_map, ← hW.nodes_eq]
    apply List.map_congr_left
    intro n _
    by_cases h : n.id = id <;> simp [h, setNodeColor]
  · exact hW.subgraphs_nodup
  · exact hW.calls_eq
  · exact hW.groups_ok
  · exact hW.subgraphs_ok
  · intro n' hn'
    obtain ⟨n, hn, h1, h2, _⟩ := hmap n' hn'
    rw [h1, h2]
    exact hW.node_cluster n hn
  · exact hW.edge_ends
  · exact hW.edge_cluster
  · exact hW.group_call
  · exact hW.groups_nocb
  · intro i st' h
    show i ∈ s.nodes
    have h' : (i, st') ∈ s.styled ++ [(id, st)] := h
    simp only [List.mem_append, List.mem_singleton, Prod.mk.injEq] at h'
    rcases h' with h' | ⟨h', _⟩
    · exact hW.styled_mem i st' h'
    · exact h' ▸ hid
  · intro i h
    have h' : (i, Style.noDependency) ∈ s.styled ++ [(id, st)] := h
    simp only [List.mem_append, List.mem_singleton, Prod.mk.injEq] at h'
    rcases h' with h' | ⟨h1, h2⟩
    · exact hW.styled_noDep i h'
    · subst h1 h2
      exact hst
  · intro i h
    have h' : (i, Style.cyclic) ∈ s.styled ++ [(id, st)] := h
    simp only [List.mem_append, List.mem_singleton, Prod.mk.injEq] at h'
    rcases h' with h' | ⟨h1, h2⟩
    · exact hW.styled_cyclic i h'
    · subst h1 h2
      exact hst
  · intro n' hn' st' h
    have h' : (n'.id, st') ∈ s.styled ++ [(id, st)] := h
    obtain ⟨n, hn, h1, _, h3⟩ := hmap n' hn'
    rcases h3 with ⟨hi, he⟩ | ⟨hi, he⟩
    · have hst' : st' = st := by
        simp only [List.mem_append, List.mem_singleton, Prod.mk.injEq] at h'
        rcases h' with h' | ⟨_, h'⟩
        · rw [h1, hi] at h'
          exact styleAllowed_unique m cyc id _ _ (hW.styled_allowed id st' h') hst
        · exact h'
      rw [he, hst']
      exact setNodeColor_color n _
    · subst he
      simp only [List.mem_append, List.mem_singleton, Prod.mk.injEq] at h'
      rcases h' with h' | ⟨h', _⟩
      · exact hW.styled_color n' hn st' h'
      · exact absurd h' hi
  · intro n' hn' p q hsplit
    obtain ⟨n, hn, h1, _, h3⟩ := hmap n' hn'
    have hsplit' : s.nodes = p ++ n.id :: q := by
      rw [← h1]
      exact hsplit
    obtain ⟨hun, hst0⟩ := hW.node_attrs n hn p q hsplit'
    rw [h1]
    rcases h3 with ⟨hi, he⟩ | ⟨hi, he⟩
    · have huniq : ∀ st', (n.id, st') ∈ s.styled → st' = st := by
        intro st' hst'
        rw [hi] at hst'
        exact styleAllowed_unique m cyc id _ _ (hW.styled_allowed id st' hst') hst
      have hattr : n'.attributes = highlighted (baseAttrs cfg p n.id) (st.color cfg) := by
        rw [he]
        show highlighted n.attributes (st.color cfg) = _
        by_cases hex : ∃ st', (n.id, st') ∈ s.styled
        · obtain ⟨st', hst'⟩ := hex
          rw [hst0 st' hst', huniq st' hst', highlighted_idem]
        · rw [hun (fun st' h => hex ⟨st', h⟩)]
      constructor
      · intro hno
        exfalso
        apply hno st
        show (n.id, st) ∈ s.styled ++ [(id, st)]
        rw [hi]
        simp
      · intro st' h'
        have h'' : (n.id, st') ∈ s.styled ++ [(id, st)] := h'
        have : st' = st := by
          simp only [List.mem_append, List.mem_singleton, Prod.mk.injEq] at h''
          rcases h'' with h'' | ⟨_, h''⟩
          · exact huniq st' h''
          · exact h''
        rw [this]
        exact hattr
    · subst he
      constructor
      · intro hno
        apply hun
        intro st' h
        exact hno st' (List.mem_append_left _ h)
      · intro st' h'
        have h'' : (n'.id, st') ∈ s.styled ++ [(id, st)] := h'
        simp only [List.mem_append, List.mem_singleton, Prod.mk.injEq] at h''
        rcases h'' with h'' | ⟨h'', _⟩
        · exact hst0 st' h''
        · exact absurd h'' hi

/-- Lines 130-134 never fail once both nodes exist and keep the invariant;
they append one edge from `id` to `depId`. -/
theorem plainEmitEdge_spec {m : Modules} {cyc : List String} {cfg : Config} {s : BuildState}
    (hW : WellFormed m cyc cfg s) (id depId : String) (hid : id ∈ s.nodes)
    (hdep : depId ∈ s.nodes) :
    ∃ s' c, plainEmitEdge s id depId = some s' ∧ WellFormed m cyc cfg s' ∧
      s'.nodes = s.nodes ∧ s'.g.edges = s.g.edges ++ [⟨c, id, depId⟩] ∧
      s'.styled = s.styled := by
  have build : ∀ c : Option String,
      ((c = none ↔ ¬ ∃ G, tblGet s.groups id = some G ∧ tblGet s.groups depId = some G) ∧
        ∀ r, c = some r → r ∈ s.g.subgraphs) →
      WellFormed m cyc cfg { s with g := s.g.createEdge c id depId } := by
    intro c hc
    constructor
    · exact hW.nodes_nodup
    · exact hW.nodes_eq
    · exact hW.subgraphs_nodup
    · exact hW.calls_eq
    · exact hW.groups_ok
    · exact hW.subgraphs_ok
    · exact hW.node_cluster
    · intro e he
      have he' : e ∈ s.g.edges ++ [⟨c, id, depId⟩] := he
      simp only [List.mem_append, List.mem_singleton] at he'
      rcases he' with he' | he'
      · exact hW.edge_ends e he'
      · subst he'
        exact ⟨hid, hdep⟩
    · intro e he
      have he' : e ∈ s.g.edges ++ [⟨c, id, depId⟩] := he
      simp only [List.mem_append, List.mem_singleton] at he'
      rcases he' with he' | he'
      · exact hW.edge_cluster e he'
      · subst he'
        exact hc
    · exact hW.group_call
    · exact hW.groups_nocb
    · exact hW.styled_mem
    · exact hW.styled_noDep
    · exact hW.styled_cyclic
    · exact hW.styled_color
    · exact hW.node_attrs
  by_cases hcond : truthy (tblGet s.groups id) = true ∧
      tblGet s.groups id = tblGet s.groups depId
  · obtain ⟨ht, heq⟩ := hcond
    cases hg : tblGet s.groups id with
    | none => simp [hg, truthy] at ht
    | some G =>
      obtain ⟨_, _, r, hr⟩ := hW.groups_ok id G hg
      refine ⟨_, some r, ?_, build (some r) ⟨?_, ?_⟩, rfl, rfl, rfl⟩
      · have ht' : truthy (some G) = true := hg ▸ ht
        simp only [plainEmitEdge, hid, hdep, and_self, if_true, heq.symm, hg, propKey, hr, ht']
      · exact ⟨fun h => Option.noConfusion h, fun h => absurd ⟨G, hg, heq ▸ hg⟩ h⟩
      · intro r' hr'
        have : r = r' := Option.some.inj hr'
        exact this ▸ hW.subgraphs_ok G r hr
  · refine ⟨_, none, ?_, build none ⟨?_, ?_⟩, rfl, rfl, rfl⟩
    · simp only [plainEmitEdge, hid, hdep, and_self, if_true, hcond, if_false]
    · simp only [true_iff]
      rintro ⟨G, h1, h2⟩
      apply hcond
      refine ⟨?_, by rw [h1, h2]⟩
      rw [h1, truthy_some]
      exact (hW.groups_ok id G h1).1
    · intro r hr
      cases hr

theorem history_nodes_step {m : Modules} {cyc : List String} {pre : List Visit}
    {s : BuildState} (hH : History m cyc pre s) (v : Visit) (nodes : List String)
    (h : nodes = if v.ident ∈ s.nodes then s.nodes else s.nodes ++ [v.ident]) :
    nodes = firstSeen ((pre ++ [v]).map Visit.ident) := by
  rw [List.map_append, List.map_singleton, firstSeen_append_singleton, ← hH.nodes_hist]
  exact h

/-- On own properties, the outer loop body up to the styling of the key never
fails and keeps the invariant. -/
theorem plainStepVisit_key_spec {m : Modules} {cyc : List String} {cfg : Config}
    {pre : List Visit} {s : BuildState} (hW : WellFormed m cyc cfg s)
    (hH : History m cyc pre s) (id : String) (hk : id ∈ modKeys m) :
    ∃ s', plainStepVisit m cyc cfg s (.key id) = some s' ∧ WellFormed m cyc cfg s' ∧
      History m cyc (pre ++ [.key id]) s' := by
  obtain ⟨s1, h1, hW1, hn1, he1, hs1⟩ := plainCreateNodeFor_spec hW id id
  obtain ⟨deps, hdeps⟩ := modGet_of_mem_keys m id hk
  have hid1 : id ∈ s1.nodes := by
    rw [hn1]
    by_cases h : id ∈ s.nodes <;> simp [h]
  have hedges : ∀ s2 : BuildState, s2.g.edges = s.g.edges →
      s2.g.edges.map (fun e => (e.source, e.target)) =
        (pre ++ [Visit.key id]).filterMap Visit.edge := by
    intro s2 h2
    rw [h2, hH.edges_hist, List.filterMap_append]
    simp [Visit.edge]
  by_cases hempty : deps = []
  · -- the key has no dependency: no-dependency style
    subst hempty
    obtain ⟨s2, h2, hW2, hn2, he2, hs2⟩ :=
      applyStyle_spec hW1 id .noDependency hid1 (Or.inl hdeps)
    refine ⟨s2, ?_, hW2, ?_⟩
    · simp [plainStepVisit, h1, styleKey, hdeps, h2]
    · constructor
      · exact history_nodes_step hH (.key id) _ (by rw [hn2, hn1]; rfl)
      · exact hedges s2 (by rw [he2, he1])
      · intro i
        rw [hs2, hs1]
        simp only [List.mem_append, List.mem_singleton, Prod.mk.injEq, and_true,
          hH.noDep_hist i, Visit.key.injEq, reduceCtorEq, or_false]
        constructor
        · rintro ((h | h) | h)
          · exact Or.inl ⟨Or.inl h.1, h.2⟩
          · exact Or.inr h
          · exact Or.inl ⟨Or.inr h, h ▸ hdeps⟩
        · rintro (⟨h | h, h'⟩ | h)
          · exact Or.inl (Or.inl ⟨h, h'⟩)
          · exact Or.inr h
          · exact Or.inl (Or.inr h)
      · intro i
        rw [hs2, hs1]
        simp only [List.mem_append, List.mem_singleton, Prod.mk.injEq, reduceCtorEq,
          and_false, or_false, hH.cyclic_hist i, Visit.key.injEq]
        constructor
        · rintro ⟨h, h'⟩
          exact ⟨Or.inl h, h'⟩
        · rintro ⟨h | h, h'⟩
          · exact ⟨h, h'⟩
          · obtain ⟨_, d, hd, hne⟩ := h'
            rw [h, hdeps] at hd
            exact absurd (Option.some.inj hd).symm hne
  · by_cases hcyc : id ∈ cyc
    · -- the key is in a cycle: cyclic style
      obtain ⟨s2, h2, hW2, hn2, he2, hs2⟩ :=
        applyStyle_spec hW1 id .cyclic hid1 ⟨hcyc, deps, hdeps, hempty⟩
      refine ⟨s2, ?_, hW2, ?_⟩
      · simp [plainStepVisit, h1, styleKey, hdeps, h2, hempty, hcyc]
      · constructor
        · exact history_nodes_step hH (.key id) _ (by rw [hn2, hn1]; rfl)
        · exact hedges s2 (by rw [he2, he1])
        · intro i
          rw [hs2, hs1]
          simp only [List.mem_append, List.mem_singleton, Prod.mk.injEq, reduceCtorEq,
            and_false, or_false, hH.noDep_hist i, Visit.key.injEq]
          constructor
          · rintro (h | h)
            · exact Or.inl ⟨Or.inl h.1, h.2⟩
            · exact Or.inr h
          · rintro (⟨h | h, h'⟩ | h)
            · exact Or.inl ⟨h, h'⟩
            · rw [h, hdeps] at h'
              exact absurd (Option.some.inj h') hempty
            · exact Or.inr h
        · intro i
          rw [hs2, hs1]
          simp only [List.mem_append, List.mem_singleton, Prod.mk.injEq, and_true,
            hH.cyclic_hist i, Visit.key.injEq]
          constructor
          · rintro (h | h)
            · exact ⟨Or.inl h.1, h.2⟩
            · exact ⟨Or.inr h, h ▸ hcyc, deps, h ▸ hdeps, hempty⟩
          · rintro ⟨h | h, h'⟩
            · exact Or.inl ⟨h, h'⟩
            · exact Or.inr h
    · -- neither: no style
      refine ⟨s1, ?_, hW1, ?_⟩
      · simp [plainStepVisit, h1, styleKey, hdeps, hempty, hcyc]
      · constructor
        · exact history_nodes_step hH (.key id) _ (by rw [hn1]; rfl)
        · exact hedges s1 he1
        · intro i
          rw [hs1]
          simp only [List.mem_append, List.mem_singleton, reduceCtorEq, or_false,
            hH.noDep_hist i, Visit.key.injEq]
          constructor
          · rintro (h | h)
            · exact Or.inl ⟨Or.inl h.1, h.2⟩
            · exact Or.inr h
          · rintro (⟨h | h, h'⟩ | h)
            · exact Or.inl ⟨h, h'⟩
            · rw [h, hdeps] at h'
              exact absurd (Option.some.inj h') hempty
            · exact Or.inr h
        · intro i
          rw [hs1]
          simp only [List.mem_append, List.mem_singleton, hH.cyclic_hist i, Visit.key.injEq]
          constructor
          · rintro ⟨h, h'⟩
            exact ⟨Or.inl h, h'⟩
          · rintro ⟨h | h, h'⟩
            · exact ⟨h, h'⟩
            · exact absurd (h ▸ h'.1) hcyc

/-- On own properties, the inner loop body never fails once the key has been
visited, and keeps the invariant. -/
theorem plainStepVisit_dep_spec {m : Modules} {cyc : List String} {cfg : Config}
    {pre : List Visit} {s : BuildState} (hW : WellFormed m cyc cfg s)
    (hH : History m cyc pre s) (id depId : String) (hk : Visit.key id ∈ pre) :
    ∃ s', plainStepVisit m cyc cfg s (.dep id depId) = some s' ∧ WellFormed m cyc cfg s' ∧
      History m cyc (pre ++ [.dep id depId]) s' := by
  obtain ⟨s1, h1, hW1, hn1, he1, hs1⟩ := plainCreateNodeFor_spec hW depId id
  have hid : id ∈ s.nodes := by
    rw [hH.nodes_hist, mem_firstSeen]
    exact List.mem_map.mpr ⟨_, hk, rfl⟩
  have hid1 : id ∈ s1.nodes := by
    rw [hn1]
    by_cases h : depId ∈ s.nodes <;> simp [h, hid]
  have hdep1 : depId ∈ s1.nodes := by
    rw [hn1]
    by_cases h : depId ∈ s.nodes <;> simp [h]
  have hcyclic : ∀ s3 : BuildState, s3.styled = s.styled ∨
      s3.styled = s.styled ++ [(depId, Style.noDependency)] →
      ∀ i, (i, Style.cyclic) ∈ s3.styled ↔
        Visit.key i ∈ pre ++ [Visit.dep id depId] ∧ i ∈ cyc ∧
          ∃ deps, modGet m i = some deps ∧ deps ≠ [] := by
    intro s3 h3 i
    have : (i, Style.cyclic) ∈ s3.styled ↔ (i, Style.cyclic) ∈ s.styled := by
      rcases h3 with h3 | h3 <;> rw [h3]
      simp
    rw [this, hH.cyclic_hist i]
    simp
  have hedges : ∀ (s3 : BuildState) (c : Option String),
      s3.g.edges = s.g.edges ++ [⟨c, id, depId⟩] →
      s3.g.edges.map (fun e => (e.source, e.target)) =
        (pre ++ [Visit.dep id depId]).filterMap Visit.edge := by
    intro s3 c h3
    rw [h3, List.map_append, hH.edges_hist, List.filterMap_append]
    simp [Visit.edge]
  cases hmod : modGet m depId with
  | none =>
    obtain ⟨s2, h2, hW2, hn2, he2, hs2⟩ :=
      applyStyle_spec hW1 depId .noDependency hdep1 (Or.inr hmod)
    obtain ⟨s3, c, h3, hW3, hn3, he3, hs3⟩ :=
      plainEmitEdge_spec hW2 id depId (hn2 ▸ hid1) (hn2 ▸ hdep1)
    refine ⟨s3, ?_, hW3, ?_⟩
    · simp [plainStepVisit, plainVisitDep, h1, plainStyleDep, hmod, h2, h3]
    · constructor
      · exact history_nodes_step hH (.dep id depId) _ (by rw [hn3, hn2, hn1]; rfl)
      · exact hedges s3 c (by rw [he3, he2, he1])
      · intro i
        rw [hs3, hs2, hs1]
        simp only [List.mem_append, List.mem_singleton, Prod.mk.injEq, and_true,
          hH.noDep_hist i, reduceCtorEq, or_false, Visit.dep.injEq]
        constructor
        · rintro ((h | ⟨p, h⟩) | h)
          · exact Or.inl h
          · exact Or.inr ⟨p, Or.inl h.1, h.2⟩
          · exact Or.inr ⟨id, Or.inr ⟨rfl, h⟩, h ▸ hmod⟩
        · rintro (h | ⟨p, h | h, h'⟩)
          · exact Or.inl (Or.inl h)
          · exact Or.inl (Or.inr ⟨p, h, h'⟩)
          · exact Or.inr h.2
      · exact hcyclic s3 (Or.inr (by rw [hs3, hs2, hs1]))
  | some deps =>
    obtain ⟨s3, c, h3, hW3, hn3, he3, hs3⟩ := plainEmitEdge_spec hW1 id depId hid1 hdep1
    refine ⟨s3, ?_, hW3, ?_⟩
    · simp [plainStepVisit, plainVisitDep, h1, plainStyleDep, hmod, h3]
    · constructor
      · exact history_nodes_step hH (.dep id depId) _ (by rw [hn3, hn1]; rfl)
      · exact hedges s3 c (by rw [he3, he1])
      · intro i
        rw [hs3, hs1]
        simp only [List.mem_append, List.mem_singleton, hH.noDep_hist i, reduceCtorEq,
          or_false, Visit.dep.injEq]
        constructor
        · rintro (h | ⟨p, h⟩)
          · exact Or.inl h
          · exact Or.inr ⟨p, Or.inl h.1, h.2⟩
        · rintro (h | ⟨p, h | h, h'⟩)
          · exact Or.inl h
          · exact Or.inr ⟨p, h, h'⟩
          · rw [h.2, hmod] at h'
            cases h'
      · exact hcyclic s3 (Or.inl (by rw [hs3, hs1]))

/-- In the visiting order a key is one of the mapping and every dependency
visit comes after the visit of its key. -/
theorem visits_valid (m : Modules) (ks : List String) (hks : ∀ k ∈ ks, k ∈ modKeys m) :
    ∀ (pre : List Visit) (v : Visit) (post : List Visit),
      ks.flatMap (keyVisits m) = pre ++ v :: post →
      match v with
      | .key id => id ∈ modKeys m
      | .dep id _ => Visit.key id ∈ pre := by
  induction ks with
  | nil =>
    intro pre v post h
    simp at h
  | cons k ks ih =>
    intro pre v post h
    rw [List.flatMap_cons] at h
    rcases List.append_eq_append_iff.mp h with ⟨a, hpre, hrest⟩ | ⟨c, hkv, hrest⟩
    · have := ih (fun k' hk' => hks k' (List.mem_cons_of_mem _ hk')) a v post hrest
      cases v with
      | key id => exact this
      | dep id d =>
        simp only at this ⊢
        rw [hpre]
        exact List.mem_append_right _ this
    · cases c with
      | nil =>
        simp only [List.nil_append] at hrest
        have := ih (fun k' hk' => hks k' (List.mem_cons_of_mem _ hk')) [] v post hrest.symm
        cases v with
        | key id => exact this
        | dep id d => simp at this
      | cons v' c' =>
        simp only [List.cons_append, List.cons.injEq] at hrest
        obtain ⟨hv, _⟩ := hrest
        subst hv
        unfold keyVisits at hkv
        cases pre with
        | nil =>
          simp only [List.nil_append, List.cons.injEq] at hkv
          rw [← hkv.1]
          exact hks k (List.mem_cons_self _ _)
        | cons p pre' =>
          simp only [List.cons_append, List.cons.injEq] at hkv
          obtain ⟨hp, htl⟩ := hkv
          have hv : v ∈ (depsOf m k).map (Visit.dep k) := by
            rw [htl]
            simp
          obtain ⟨d, _, hd⟩ := List.mem_map.mp hv
          subst hd
          simp only
          rw [← hp]
          exact List.mem_cons_self _ _

/-- After any initial part of the visits the loop on own properties has not
failed and the invariant holds. -/
theorem plainRunVisits_spec (m : Modules) (cyc : List String) (cfg : Config)
    (pre post : List Visit) (h : visitsOf m = pre ++ post) :
    ∃ s, plainRunVisits m cyc cfg pre = some s ∧ WellFormed m cyc cfg s ∧ History m cyc pre s := by
  have := foldlM_prefix_inv (plainStepVisit m cyc cfg)
    (fun p s => WellFormed m cyc cfg s ∧ History m cyc p s) pre
    (by
      intro p x q s hsplit ⟨hW, hH⟩
      have hvalid := visits_valid m (modKeys m) (fun _ hk => hk) p x (q ++ post)
        (by
          show visitsOf m = _
          rw [h, hsplit]
          simp)
      cases x with
      | key id => exact plainStepVisit_key_spec hW hH id hvalid
      | dep id d => exact plainStepVisit_dep_spec hW hH id d hvalid)
    pre [] BuildState.init (by simp) ⟨wellFormed_init m cyc cfg, history_init m cyc⟩
  exact this

/-- The loop on own properties ends without failure, in a state where the
invariant holds for the whole visiting order. -/
theorem plainBuildGraph_spec (m : Modules) (circular : List (List String)) (cfg : Config) :
    ∃ s, plainBuildGraph m circular cfg = some s ∧ WellFormed m circular.flatten cfg s ∧
      History m circular.flatten (visitsOf m) s := by
  rw [plainBuildGraph_eq_plainRunVisits]
  exact plainRunVisits_spec m circular.flatten cfg (visitsOf m) [] (by simp)

/-! ## The visiting order -/

theorem key_mem_visitsOf (m : Modules) (id : String) :
    Visit.key id ∈ visitsOf m ↔ id ∈ modKeys m := by
  simp only [visitsOf, List.mem_flatMap, keyVisits, List.mem_cons, Visit.key.injEq,
    List.mem_map, reduceCtorEq, and_false, exists_false, or_false]
  constructor
  · rintro ⟨k, hk, h⟩
    exact h ▸ hk
  · intro h
    exact ⟨id, h, rfl⟩

theorem dep_mem_visitsOf (m : Modules) (id depId : String) :
    Visit.dep id depId ∈ visitsOf m ↔ id ∈ modKeys m ∧ depId ∈ depsOf m id := by
  simp only [visitsOf, List.mem_flatMap, keyVisits, List.mem_cons, reduceCtorEq,
    List.mem_map, Visit.dep.injEq, false_or]
  constructor
  · rintro ⟨k, hk, d, hd, h1, h2⟩
    subst h1 h2
    exact ⟨hk, hd⟩
  · rintro ⟨hk, hd⟩
    exact ⟨id, hk, depId, hd, rfl, rfl⟩

theorem mem_depTargets (m : Modules) (x : String) :
    x ∈ depTargets m ↔ ∃ id, Visit.dep id x ∈ visitsOf m := by
  simp only [depTargets, List.mem_flatMap, dep_mem_visitsOf]

theorem mem_visit_idents (m : Modules) (x : String) :
    x ∈ (visitsOf m).map Visit.ident ↔ x ∈ modKeys m ∨ x ∈ depTargets m := by
  rw [mem_depTargets, ← key_mem_visitsOf]
  simp only [List.mem_map]
  constructor
  · rintro ⟨v, hv, h⟩
    cases v with
    | key id => exact Or.inl (by simpa [Visit.ident] using h ▸ hv)
    | dep id d =>
      simp only [Visit.ident] at h
      exact Or.inr ⟨id, h ▸ hv⟩
  · rintro (h | ⟨id, h⟩)
    · exact ⟨_, h, rfl⟩
    · exact ⟨_, h, rfl⟩

theorem visit_idents_eq (m : Modules) :
    (visitsOf m).map Visit.ident = (modKeys m).flatMap fun id => id :: depsOf m id := by
  unfold visitsOf
  induction modKeys m with
  | nil => rfl
  | cons k ks ih =>
    rw [List.flatMap_cons, List.flatMap_cons, List.map_append, ih]
    simp [keyVisits, Visit.ident, Function.comp_def]

theorem visit_edges_eq (m : Modules) :
    (visitsOf m).filterMap Visit.edge = dependencyPairs m := by
  unfold visitsOf dependencyPairs
  induction modKeys m with
  | nil => rfl
  | cons k ks ih =>
    rw [List.flatMap_cons, List.flatMap_cons, List.filterMap_append, ih]
    congr 1
    simp only [keyVisits, List.filterMap_cons, Visit.edge]
    induction depsOf m k with
    | nil => rfl
    | cons d ds ihd => simp [Visit.edge, ihd]

theorem length_dependencyPairs (m : Modules) :
    (dependencyPairs m).length = ((modKeys m).map fun id => (depsOf m id).length).sum := by
  unfold dependencyPairs
  induction modKeys m with
  | nil => rfl
  | cons k ks ih => simp [List.flatMap_cons, ih]

/-! ## Clusters -/

theorem mem_allNodes_iff (g : Digraph)
    (hcl : ∀ n ∈ g.nodes, ∀ r, n.cluster = some r → r ∈ g.subgraphs) (n : Node) :
    n ∈ g.allNodes ↔ n ∈ g.nodes := by
  simp only [Digraph.allNodes, Digraph.nodesIn, List.mem_append, List.mem_filter,
    List.mem_flatMap, decide_eq_true_eq]
  constructor
  · rintro (h | ⟨_, _, h⟩)
    · exact h.1
    · exact h.1
  · intro h
    cases hc : n.cluster with
    | none => exact Or.inl ⟨h, rfl⟩
    | some r => exact Or.inr ⟨r, hcl n h r hc, h, rfl⟩

theorem mem_allEdges_iff (g : Digraph)
    (hcl : ∀ e ∈ g.edges, ∀ r, e.cluster = some r → r ∈ g.subgraphs) (e : Edge) :
    e ∈ g.allEdges ↔ e ∈ g.edges := by
  simp only [Digraph.allEdges, Digraph.edgesIn, List.mem_append, List.mem_filter,
    List.mem_flatMap, decide_eq_true_eq]
  constructor
  · rintro (h | ⟨_, _, h⟩)
    · exact h.1
    · exact h.1
  · intro h
    cases hc : e.cluster with
    | none => exact Or.inl ⟨h, rfl⟩
    | some r => exact Or.inr ⟨r, hcl e h r hc, h, rfl⟩

theorem nodup_allNodes (g : Digraph) (hn : g.nodes.Nodup) (hs : g.subgraphs.Nodup) :
    g.allNodes.Nodup := by
  unfold Digraph.allNodes Digraph.nodesIn
  rw [List.nodup_append]
  refine ⟨hn.filter _, ?_, ?_⟩
  · rw [List.nodup_flatMap]
    refine ⟨fun _ _ => hn.filter _, ?_⟩
    refine List.Pairwise.imp ?_ hs
    intro a b hab n h1 h2
    simp only [List.mem_filter, decide_eq_true_eq] at h1 h2
    rw [h1.2] at h2
    exact hab (Option.some.inj h2.2)
  · intro n h1 h2
    simp only [List.mem_filter, List.mem_flatMap, decide_eq_true_eq] at h1 h2
    obtain ⟨r, _, _, hr⟩ := h2
    rw [h1.2] at hr
    cases hr

theorem nodup_allNodes_ids (g : Digraph) (hn : (g.nodes.map fun n => n.id).Nodup)
    (hs : g.subgraphs.Nodup) : (g.allNodes.map fun n => n.id).Nodup := by
  refine List.Nodup.map_on ?_ (nodup_allNodes g (List.Nodup.of_map _ hn) hs)
  intro x hx y hy hxy
  have sub : ∀ z, z ∈ g.allNodes → z ∈ g.nodes := by
    intro z hz
    simp only [Digraph.allNodes, Digraph.nodesIn, List.mem_append, List.mem_filter,
      List.mem_flatMap] at hz
    rcases hz with h | ⟨_, _, h⟩
    · exact h.1
    · exact h.1
  exact List.inj_on_of_nodup_map hn (sub x hx) (sub y hy) hxy

theorem WellFormed.mem_allNodes {m : Modules} {cyc : List String} {cfg : Config}
    {s : BuildState} (hW : WellFormed m cyc cfg s) (n : Node) :
    n ∈ s.g.allNodes ↔ n ∈ s.g.nodes :=
  mem_allNodes_iff s.g (fun n hn => (hW.node_cluster n hn).2) n

theorem split_takeWhile (l : List String) (id : String) (h : id ∈ l) :
    ∃ q, l = (l.takeWhile fun y => y != id) ++ id :: q := by
  induction l with
  | nil => simp at h
  | cons a l ih =>
    by_cases ha : a = id
    · subst ha
      exact ⟨l, by simp [List.takeWhile]⟩
    · have hl : id ∈ l := by
        rcases List.mem_cons.mp h with h | h
        · exact absurd h.symm ha
        · exact h
      obtain ⟨q, hq⟩ := ih hl
      refine ⟨q, ?_⟩
      have : (a != id) = true := by simpa using ha
      simp only [List.takeWhile, this, List.cons_append, List.cons.injEq, true_and]
      exact hq

theorem WellFormed.groups_eq_firstGroup {m : Modules} {cyc : List String} {cfg : Config}
    {s : BuildState} (hW : WellFormed m cyc cfg s) (id : String) (hid : id ∈ s.nodes) :
    tblGet s.groups id = firstGroup cfg s.calls id := by
  cases hf : cfg.getNodeAttributes with
  | none =>
    rw [hW.groups_nocb hf]
    simp [firstGroup, hf, tblGet]
  | some f =>
    have hc : s.calls = s.nodes := by simpa [hf] using hW.calls_eq
    obtain ⟨q, hq⟩ := split_takeWhile s.calls id (hc ▸ hid)
    have := hW.group_call _ id q hq
    rw [this, hf]
    simp [firstGroup, hf]

theorem WellFormed.mem_allNodes_ids {m : Modules} {cyc : List String} {cfg : Config}
    {s : BuildState} (hW : WellFormed m cyc cfg s) (x : String) :
    x ∈ s.g.allNodes.map (fun n => n.id) ↔ x ∈ s.nodes := by
  rw [← hW.nodes_eq]
  simp only [List.mem_map, hW.mem_allNodes]

/-! ## The loop and its steps on own properties -/

theorem readTable_eq_ownSlot (t : Table) (k : String)
    (h : k ∉ inheritedNames ∨ ∃ v, tblGet t k = some v) :
    readTable t k = ownSlot (tblGet t k) := by
  unfold readTable
  cases hg : tblGet t k with
  | some v => rfl
  | none =>
    rcases h with h | ⟨v, h⟩
    · simp [h, ownSlot]
    · rw [hg] at h
      cases h

theorem ownSlot_truthy (o : Option String) : (ownSlot o).truthy = truthy o := by
  cases o <;> rfl

theorem ownSlot_propKey (o : Option String) : (ownSlot o).propKey = propKey o := by
  cases o <;> rfl

theorem ownSlot_inj (a b : Option String) : ownSlot a = ownSlot b ↔ a = b := by
  cases a <;> cases b <;> simp [ownSlot]

theorem undefined_not_inherited : "undefined" ∉ inheritedNames := by decide

theorem proto_inherited : "__proto__" ∈ inheritedNames := by decide

theorem callGetNodeAttributes_fields (cfg : Config) (s : BuildState) (x : String) :
    (callGetNodeAttributes cfg s x).2.g = s.g ∧
    (callGetNodeAttributes cfg s x).2.nodes = s.nodes ∧
    (callGetNodeAttributes cfg s x).2.groups = s.groups ∧
    (callGetNodeAttributes cfg s x).2.subgraphs = s.subgraphs := by
  unfold callGetNodeAttributes
  cases cfg.getNodeAttributes <;> simp

theorem readTable_tblSet_self (t : Table) (k v : String) :
    readTable (tblSet t k v) k = .own v := by
  simp [readTable, tblSet, tblGet]

theorem subgraphOr_own (g : Digraph) (t : Table) (k grp ref : String)
    (h : tblGet t k = some ref) : subgraphOr g t k grp = some (g, ref) := by
  simp [subgraphOr, readTable, h]

theorem subgraphOr_absent (g : Digraph) (t : Table) (k grp : String)
    (h : tblGet t k = none) (hk : k ∉ inheritedNames) :
    subgraphOr g t k grp = some (g.subgraph grp, grp) := by
  simp [subgraphOr, readTable, h, hk]

theorem subgraphOr_inherited (g : Digraph) (t : Table) (k grp : String)
    (h : tblGet t k = none) (hk : k ∈ inheritedNames) :
    subgraphOr g t k grp = none := by
  simp [subgraphOr, readTable, h, hk]

/-- A node creation that is done has taken the steps on own properties, when
the identifier is no inherited name and the identifier whose group is
consulted is the same or no inherited name either. -/
theorem createNodeFor_done {cfg : Config} {s s' : BuildState} {x who : String}
    (hx : x ∉ inheritedNames) (hwho : who = x ∨ who ∉ inheritedNames)
    (h : createNodeFor cfg s x who = .done s') :
    plainCreateNodeFor cfg s x who = some s' := by
  unfold createNodeFor at h
  unfold plainCreateNodeFor
  by_cases hn : x ∈ s.nodes
  · simp only [readNode, hn, if_true, Run.done.injEq] at h
    subst h
    simp [hn]
  · simp only [readNode, hn, hx, if_false] at h
    simp only [hn, if_false]
    generalize callGetNodeAttributes cfg s x = r at h ⊢
    obtain ⟨attr, s1⟩ := r
    simp only at h ⊢
    cases hg : groupOf attr with
    | none =>
      simp only [hg, Run.done.injEq] at h
      simp [h]
    | some grp =>
      simp only [hg] at h
      simp only []
      generalize jsOr (tblGet s1.groups x) grp = gv at h ⊢
      have hkx : tblGet (tblSet s1.groups x gv) x = some gv := by simp [tblSet, tblGet]
      have hkey : (readTable (tblSet s1.groups x gv) who).propKey =
          propKey (tblGet (tblSet s1.groups x gv) who) := by
        rw [readTable_eq_ownSlot, ownSlot_propKey]
        rcases hwho with hw | hw
        · right
          subst hw
          exact ⟨_, hkx⟩
        · exact Or.inl hw
      have hkx' : propKey (tblGet (tblSet s1.groups x gv) x) = gv := by
        rw [hkx]
        rfl
      rw [hkey] at h
      simp only [hkx'] at h ⊢
      generalize propKey (tblGet (tblSet s1.groups x gv) who) = K at h ⊢
      by_cases hp : gv = "__proto__"
      · cases hso : subgraphOr s1.g s1.subgraphs K grp with
        | none => simp [hso] at h
        | some made => simp [hso, hp] at h
      · cases hs : tblGet s1.subgraphs K with
        | some ref =>
          simp only [subgraphOr_own _ _ _ _ _ hs, hp, if_false, readTable_tblSet_self,
            Run.done.injEq] at h
          simp [tblGet_tblSet, h]
        | none =>
          by_cases hK : K ∈ inheritedNames
          · simp [subgraphOr_inherited _ _ _ _ hs hK] at h
          · simp only [subgraphOr_absent _ _ _ _ hs hK, hp, if_false, readTable_tblSet_self,
              Run.done.injEq] at h
            simp [tblGet_tblSet, h]

theorem createNodeFor_nodes {cfg : Config} {s s' : BuildState} {x who : String}
    (h : createNodeFor cfg s x who = .done s') :
    s'.nodes = s.nodes ∨ (s'.nodes = s.nodes ++ [x] ∧ x ∉ inheritedNames) := by
  by_cases hn : x ∈ s.nodes
  · simp only [createNodeFor, readNode, hn, if_true, Run.done.injEq] at h
    subst h
    exact Or.inl rfl
  · by_cases hx : x ∈ inheritedNames
    · simp only [createNodeFor, readNode, hn, hx, if_true, if_false, Run.done.injEq] at h
      subst h
      exact Or.inl rfl
    · right
      unfold createNodeFor at h
      simp only [readNode, hn, hx, if_false] at h
      have hf := callGetNodeAttributes_fields cfg s x
      generalize callGetNodeAttributes cfg s x = r at h hf
      obtain ⟨attr, s1⟩ := r
      simp only at h hf
      refine ⟨?_, hx⟩
      cases hg : groupOf attr with
      | none =>
        simp only [hg, Run.done.injEq] at h
        subst h
        simp [hf.2.1]
      | some grp =>
        simp only [hg] at h
        cases hso : subgraphOr s1.g s1.subgraphs
            (readTable (tblSet s1.groups x (jsOr (tblGet s1.groups x) grp)) who).propKey grp with
        | none => simp [hso] at h
        | some made =>
          simp only [hso] at h
          split at h
          · cases h
          · rw [readTable_tblSet_self] at h
            simp only [Run.done.injEq] at h
            subst h
            simp [hf.2.1]

theorem applyStyle_fields {cfg : Config} {s s' : BuildState} {id : String} {st : Style}
    (h : applyStyle cfg s id st = some s') :
    id ∈ s.nodes ∧ s'.nodes = s.nodes ∧ s'.groups = s.groups ∧
      s'.subgraphs = s.subgraphs := by
  unfold applyStyle at h
  by_cases hn : id ∈ s.nodes
  · simp only [hn, if_true, Option.some.injEq] at h
    subst h
    exact ⟨hn, rfl, rfl, rfl⟩
  · simp [hn] at h

theorem styleKey_fields {m : Modules} {cyc : List String} {cfg : Config} {s s' : BuildState}
    {id : String} (h : styleKey m cyc cfg s id = some s') :
    s'.nodes = s.nodes ∧ s'.groups = s.groups ∧ s'.subgraphs = s.subgraphs := by
  unfold styleKey at h
  cases hd : modGet m id with
  | none => simp [hd] at h
  | some deps =>
    simp only [hd] at h
    split at h
    · exact (applyStyle_fields h).2
    · split at h
      · exact (applyStyle_fields h).2
      · simp only [Option.some.injEq] at h
        subst h
        exact ⟨rfl, rfl, rfl⟩

theorem styleDep_eq (m : Modules) (cfg : Config) (s : BuildState) (d : String)
    (hd : d ∉ inheritedNames) :
    styleDep m cfg s d = Run.ofOption (plainStyleDep m cfg s d) := by
  unfold styleDep plainStyleDep readModule
  cases modGet m d with
  | none => simp [hd]
  | some deps => rfl

theorem styleDep_fields {m : Modules} {cfg : Config} {s s' : BuildState} {d : String}
    (h : styleDep m cfg s d = .done s') :
    s'.nodes = s.nodes ∧ s'.groups = s.groups ∧ s'.subgraphs = s.subgraphs := by
  unfold styleDep at h
  cases hr : readModule m d with
  | absent =>
    simp only [hr] at h
    cases ha : applyStyle cfg s d .noDependency with
    | none => simp [ha, Run.ofOption] at h
    | some s2 =>
      simp only [ha, Run.ofOption, Run.done.injEq] at h
      subst h
      exact (applyStyle_fields ha).2
  | inherited n =>
    simp only [hr, Run.done.injEq] at h
    subst h
    exact ⟨rfl, rfl, rfl⟩
  | own v =>
    simp only [hr, Run.done.injEq] at h
    subst h
    exact ⟨rfl, rfl, rfl⟩

theorem emitEdge_eq (s : BuildState) (id d : String) (hid : id ∉ inheritedNames)
    (hd : d ∉ inheritedNames) :
    emitEdge s id d = Run.ofOption (plainEmitEdge s id d) := by
  unfold emitEdge plainEmitEdge
  rw [readTable_eq_ownSlot s.groups id (Or.inl hid),
    readTable_eq_ownSlot s.groups d (Or.inl hd)]
  simp only [ownSlot_truthy, ownSlot_inj, ownSlot_propKey]
  by_cases hn : id ∈ s.nodes ∧ d ∈ s.nodes
  · simp only [hn, and_self, if_true]
    split
    · unfold readTable
      cases tblGet s.subgraphs (propKey (tblGet s.groups id)) with
      | none =>
        simp only [Run.ofOption]
        by_cases hk : propKey (tblGet s.groups id) ∈ inheritedNames <;> simp [hk]
      | some ref => rfl
    · rfl
  · simp only [hn, if_false]
    split
    · cases readTable s.subgraphs (propKey (tblGet s.groups id)) <;> rfl
    · rfl

theorem emitEdge_fields {s s' : BuildState} {id d : String}
    (h : emitEdge s id d = .done s') :
    id ∈ s.nodes ∧ d ∈ s.nodes ∧ s'.nodes = s.nodes ∧ s'.groups = s.groups ∧
      s'.subgraphs = s.subgraphs := by
  unfold emitEdge at h
  split at h
  · split at h
    · split at h
      · rename_i hn
        simp only [Run.done.injEq] at h
        subst h
        exact ⟨hn.1, hn.2, rfl, rfl, rfl⟩
      · cases h
    · cases h
  · split at h
    · rename_i hn
      simp only [Run.done.injEq] at h
      subst h
      exact ⟨hn.1, hn.2, rfl, rfl, rfl⟩
    · cases h

theorem Run.bind_done {α β : Type} {r : Run α} {k : α → Run β} {b : β}
    (h : r.bind k = .done b) : ∃ a, r = .done a ∧ k a = .done b := by
  cases r with
  | done a => exact ⟨a, rfl, h⟩
  | typeError => cases h
  | protoWrite => cases h

theorem Run.ofOption_done {α : Type} {o : Option α} {a : α}
    (h : Run.ofOption o = .done a) : o = some a := by
  cases o with
  | none => cases h
  | some b =>
    simp only [Run.ofOption, Run.done.injEq] at h
    rw [h]

theorem Run.map_done {α β : Type} {f : α → β} {r : Run α} {b : β}
    (h : r.map f = .done b) : ∃ a, r = .done a ∧ f a = b := by
  cases r with
  | done a =>
    simp only [Run.map, Run.done.injEq] at h
    exact ⟨a, rfl, h⟩
  | typeError => cases h
  | protoWrite => cases h

theorem createNodeFor_keeps {cfg : Config} {s s' : BuildState} {x who : String}
    (hI : ∀ y ∈ s.nodes, y ∉ inheritedNames) (h : createNodeFor cfg s x who = .done s') :
    ∀ y ∈ s'.nodes, y ∉ inheritedNames := by
  rcases createNodeFor_nodes h with hn | ⟨hn, hx⟩ <;> rw [hn]
  · exact hI
  · intro y hy
    rcases List.mem_append.mp hy with hy | hy
    · exact hI y hy
    · simp only [List.mem_singleton] at hy
      subst hy
      exact hx

/-- A pass of the inner loop body that is done has met no inherited name and
has taken the steps on own properties. -/
theorem visitDep_done {m : Modules} {cfg : Config} {id d : String} {s s' : BuildState}
    (hI : ∀ y ∈ s.nodes, y ∉ inheritedNames) (h : visitDep m cfg id s d = .done s') :
    id ∉ inheritedNames ∧ d ∉ inheritedNames ∧ plainVisitDep m cfg id s d = some s' ∧
      ∀ y ∈ s'.nodes, y ∉ inheritedNames := by
  unfold visitDep at h
  obtain ⟨s1, h1, h⟩ := Run.bind_done h
  obtain ⟨s2, h2, h3⟩ := Run.bind_done h
  have hI1 := createNodeFor_keeps hI h1
  have f2 := styleDep_fields h2
  have f3 := emitEdge_fields h3
  have hid : id ∉ inheritedNames := hI1 id (f2.1 ▸ f3.1)
  have hd : d ∉ inheritedNames := hI1 d (f2.1 ▸ f3.2.1)
  refine ⟨hid, hd, ?_, ?_⟩
  · unfold plainVisitDep
    rw [createNodeFor_done hd (Or.inr hid) h1]
    rw [styleDep_eq _ _ _ _ hd] at h2
    rw [emitEdge_eq _ _ _ hid hd] at h3
    simp [Run.ofOption_done h2, Run.ofOption_done h3]
  · rw [f3.2.2.1, f2.1]
    exact hI1

theorem forEach_visitDep_done {m : Modules} {cfg : Config} {id : String} (ds : List String) :
    ∀ {s s' : BuildState}, (∀ y ∈ s.nodes, y ∉ inheritedNames) →
      Run.forEach (visitDep m cfg id) s ds = .done s' →
      (ds ≠ [] → id ∉ inheritedNames) ∧ (∀ d ∈ ds, d ∉ inheritedNames) ∧
        ds.foldlM (plainVisitDep m cfg id) s = some s' ∧
        ∀ y ∈ s'.nodes, y ∉ inheritedNames := by
  induction ds with
  | nil =>
    intro s s' hI h
    simp only [Run.forEach, Run.done.injEq] at h
    subst h
    exact ⟨fun h => absurd rfl h, by simp, rfl, hI⟩
  | cons d ds ih =>
    intro s s' hI h
    simp only [Run.forEach] at h
    obtain ⟨s1, h1, h2⟩ := Run.bind_done h
    obtain ⟨hid, hd, hp, hI1⟩ := visitDep_done hI h1
    obtain ⟨_, hds, hps, hI'⟩ := ih hI1 h2
    refine ⟨fun _ => hid, ?_, ?_, hI'⟩
    · intro y hy
      rcases List.mem_cons.mp hy with hy | hy
      · exact hy ▸ hd
      · exact hds y hy
    · simp [List.foldlM, hp, hps]

/-- A pass of the outer loop body that is done has met no inherited name and
has taken the steps on own properties. -/
theorem visitKey_done {m : Modules} {cyc : List String} {cfg : Config} {id : String}
    {s s' : BuildState} (hI : ∀ y ∈ s.nodes, y ∉ inheritedNames)
    (h : visitKey m cyc cfg s id = .done s') :
    id ∉ inheritedNames ∧ (∀ d ∈ depsOf m id, d ∉ inheritedNames) ∧
      plainVisitKey m cyc cfg s id = some s' ∧ ∀ y ∈ s'.nodes, y ∉ inheritedNames := by
  unfold visitKey at h
  obtain ⟨s1, h1, h⟩ := Run.bind_done h
  obtain ⟨s2, h2, h3⟩ := Run.bind_done h
  have h2' := Run.ofOption_done h2
  have hI1 := createNodeFor_keeps hI h1
  have f2 := styleKey_fields h2'
  have hI2 : ∀ y ∈ s2.nodes, y ∉ inheritedNames := by
    rw [f2.1]
    exact hI1
  cases hd : modGet m id with
  | none => simp [hd] at h3
  | some deps =>
    simp only [hd] at h3
    obtain ⟨hne, hds, hps, hI'⟩ := forEach_visitDep_done deps hI2 h3
    have hid : id ∉ inheritedNames := by
      cases deps with
      | cons d ds => exact hne (by simp)
      | nil =>
        unfold styleKey at h2'
        simp only [hd, List.length_nil, if_true] at h2'
        exact hI1 id (applyStyle_fields h2').1
    refine ⟨hid, ?_, ?_, hI'⟩
    · simpa [depsOf, hd] using hds
    · unfold plainVisitKey
      rw [createNodeFor_done hid (Or.inl rfl) h1]
      simp [h2', hd, hps]

theorem forEach_visitKey_done {m : Modules} {cyc : List String} {cfg : Config}
    (ks : List String) :
    ∀ {s s' : BuildState}, (∀ y ∈ s.nodes, y ∉ inheritedNames) →
      Run.forEach (visitKey m cyc cfg) s ks = .done s' →
      (∀ k ∈ ks, k ∉ inheritedNames ∧ ∀ d ∈ depsOf m k, d ∉ inheritedNames) ∧
        ks.foldlM (plainVisitKey m cyc cfg) s = some s' := by
  induction ks with
  | nil =>
    intro s s' _ h
    simp only [Run.forEach, Run.done.injEq] at h
    subst h
    exact ⟨by simp, rfl⟩
  | cons k ks ih =>
    intro s s' hI h
    simp only [Run.forEach] at h
    obtain ⟨s1, h1, h2⟩ := Run.bind_done h
    obtain ⟨hk, hd, hp, hI1⟩ := visitKey_done hI h1
    obtain ⟨hks, hps⟩ := ih hI1 h2
    refine ⟨?_, ?_⟩
    · intro y hy
      rcases List.mem_cons.mp hy with hy | hy
      · subst hy
        exact ⟨hk, hd⟩
      · exact hks y hy
    · simp [List.foldlM, hp, hps]

/-- A loop that is done has met no inherited name among the keys and the
dependency targets, and has taken the steps on own properties. -/
theorem buildGraph_done {m : Modules} {circular : List (List String)} {cfg : Config}
    {s : BuildState} (h : buildGraph m circular cfg = .done s) :
    OwnNames m ∧ plainBuildGraph m circular cfg = some s := by
  unfold buildGraph at h
  obtain ⟨hks, hp⟩ := forEach_visitKey_done (modKeys m)
    (by simp [BuildState.init]) h
  refine ⟨?_, hp⟩
  intro x hx
  rcases List.mem_append.mp hx with hx | hx
  · exact (hks x hx).1
  · simp only [depTargets, List.mem_flatMap] at hx
    obtain ⟨k, hk, hd⟩ := hx
    exact (hks k hk).2 x hd

theorem own_group_of_call {cfg : Config} (hG : OwnGroups cfg) (s : BuildState)
    (x grp : String) (h : groupOf (callGetNodeAttributes cfg s x).1 = some grp) :
    grp ∉ inheritedNames := by
  unfold callGetNodeAttributes at h
  cases hf : cfg.getNodeAttributes with
  | none => simp [hf, groupOf] at h
  | some f =>
    simp only [hf] at h
    exact hG f hf _ _ _ h

theorem jsOr_cases (a : Option String) (b : String) : jsOr a b = b ∨ a = some (jsOr a b) := by
  cases a with
  | none => exact Or.inl rfl
  | some v =>
    by_cases hv : v = ""
    · left
      simp [jsOr, hv]
    · right
      simp [jsOr, hv]

/-- When no inherited name is involved, a node creation takes the steps on
own properties, and the groups recorded stay free of inherited names. -/
theorem createNodeFor_of_plain {cfg : Config} {s s' : BuildState} {x who : String}
    (hG : OwnGroups cfg) (hJ : ∀ id g, tblGet s.groups id = some g → g ∉ inheritedNames)
    (hx : x ∉ inheritedNames) (hwho : who ∉ inheritedNames)
    (h : plainCreateNodeFor cfg s x who = some s') :
    createNodeFor cfg s x who = .done s' ∧
      ∀ id g, tblGet s'.groups id = some g → g ∉ inheritedNames := by
  unfold plainCreateNodeFor at h
  unfold createNodeFor
  by_cases hn : x ∈ s.nodes
  · simp only [hn, if_true, Option.some.injEq] at h
    subst h
    exact ⟨by simp [readNode, hn], hJ⟩
  · simp only [hn, if_false] at h
    simp only [readNode, hn, hx, if_false]
    have hcb := own_group_of_call hG s x
    have hf := callGetNodeAttributes_fields cfg s x
    generalize callGetNodeAttributes cfg s x = r at h hf hcb ⊢
    obtain ⟨attr, s1⟩ := r
    simp only at h hf hcb ⊢
    have hJ1 : ∀ id g, tblGet s1.groups id = some g → g ∉ inheritedNames := by
      rw [hf.2.2.1]
      exact hJ
    cases hg : groupOf attr with
    | none =>
      simp only [hg, Option.some.injEq] at h
      subst h
      exact ⟨rfl, hJ1⟩
    | some grp =>
      simp only [hg] at h
      simp only []
      have hgv : jsOr (tblGet s1.groups x) grp ∉ inheritedNames := by
        rcases jsOr_cases (tblGet s1.groups x) grp with e | e
        · rw [e]
          exact hcb grp hg
        · exact hJ1 _ _ e
      generalize jsOr (tblGet s1.groups x) grp = gv at h hgv ⊢
      have hJ2 : ∀ id g, tblGet (tblSet s1.groups x gv) id = some g → g ∉ inheritedNames := by
        intro id g hid
        rw [tblGet_tblSet] at hid
        by_cases hxi : x = id
        · simp only [hxi, if_true, Option.some.injEq] at hid
          exact hid ▸ hgv
        · simp only [hxi, if_false] at hid
          exact hJ1 _ _ hid
      have hkx : tblGet (tblSet s1.groups x gv) x = some gv := by simp [tblSet, tblGet]
      have hkx' : propKey (tblGet (tblSet s1.groups x gv) x) = gv := by
        rw [hkx]
        rfl
      have hkey : (readTable (tblSet s1.groups x gv) who).propKey =
          propKey (tblGet (tblSet s1.groups x gv) who) := by
        rw [readTable_eq_ownSlot _ _ (Or.inl hwho), ownSlot_propKey]
      have hK : propKey (tblGet (tblSet s1.groups x gv) who) ∉ inheritedNames := by
        cases hw : tblGet (tblSet s1.groups x gv) who with
        | none => exact undefined_not_inherited
        | some g => exact hJ2 _ _ hw
      have hp : gv ≠ "__proto__" := fun e => hgv (e ▸ proto_inherited)
      rw [hkey]
      simp only [hkx'] at h ⊢
      generalize propKey (tblGet (tblSet s1.groups x gv) who) = K at h hK ⊢
      cases hs : tblGet s1.subgraphs K with
      | some ref =>
        simp only [hs, tblGet_tblSet, if_true, Option.some.injEq] at h
        subst h
        simp only [subgraphOr_own _ _ _ _ _ hs, hp, if_false, readTable_tblSet_self]
        exact ⟨trivial, hJ2⟩
      | none =>
        simp only [hs, tblGet_tblSet, if_true, Option.some.injEq] at h
        subst h
        simp only [subgraphOr_absent _ _ _ _ hs hK, hp, if_false, readTable_tblSet_self]
        exact ⟨trivial, hJ2⟩

theorem plainStyleDep_groups {m : Modules} {cfg : Config} {s s' : BuildState} {d : String}
    (h : plainStyleDep m cfg s d = some s') : s'.groups = s.groups := by
  unfold plainStyleDep at h
  cases hd : modGet m d with
  | none =>
    simp only [hd] at h
    exact (applyStyle_fields h).2.2.1
  | some deps =>
    simp only [hd, Option.some.injEq] at h
    subst h
    rfl

theorem plainEmitEdge_groups {s s' : BuildState} {id d : String}
    (h : plainEmitEdge s id d = some s') : s'.groups = s.groups := by
  unfold plainEmitEdge at h
  split at h
  · split at h
    · split at h
      · cases h
      · simp only [Option.some.injEq] at h
        subst h
        rfl
    · simp only [Option.some.injEq] at h
      subst h
      rfl
  · cases h

/-- When no inherited name is involved, a visit takes the steps on own
properties. -/
theorem stepVisit_of_plain {m : Modules} {cyc : List String} {cfg : Config}
    {s s' : BuildState} {v : Visit} (hG : OwnGroups cfg)
    (hJ : ∀ id g, tblGet s.groups id = some g → g ∉ inheritedNames)
    (hv : v.ident ∉ inheritedNames) (hsrc : ∀ id d, v = Visit.dep id d → id ∉ inheritedNames)
    (h : plainStepVisit m cyc cfg s v = some s') :
    stepVisit m cyc cfg s v = .done s' ∧
      ∀ id g, tblGet s'.groups id = some g → g ∉ inheritedNames := by
  cases v with
  | key id =>
    have hv' : id ∉ inheritedNames := hv
    simp only [plainStepVisit, Option.bind_eq_some] at h
    obtain ⟨s1, h1, h2⟩ := h
    obtain ⟨e1, hJ1⟩ := createNodeFor_of_plain hG hJ hv' hv' h1
    refine ⟨?_, ?_⟩
    · simp [stepVisit, e1, Run.bind, h2, Run.ofOption]
    · rw [(styleKey_fields h2).2.1]
      exact hJ1
  | dep id d =>
    have hid := hsrc id d rfl
    have hv' : d ∉ inheritedNames := hv
    simp only [plainStepVisit, plainVisitDep, Option.bind_eq_some] at h
    obtain ⟨s1, h1, s2, h2, h3⟩ := h
    obtain ⟨e1, hJ1⟩ := createNodeFor_of_plain hG hJ hv' hid h1
    refine ⟨?_, ?_⟩
    · simp [stepVisit, visitDep, e1, Run.bind, styleDep_eq _ _ _ _ hv', h2, Run.ofOption,
        emitEdge_eq _ _ _ hid hv', h3]
    · rw [plainEmitEdge_groups h3, plainStyleDep_groups h2]
      exact hJ1

theorem forEach_stepVisit_of_plain {m : Modules} {cyc : List String} {cfg : Config}
    (hG : OwnGroups cfg) (vs : List Visit) :
    (∀ v ∈ vs, v.ident ∉ inheritedNames ∧ ∀ id d, v = Visit.dep id d → id ∉ inheritedNames) →
    ∀ {s s' : BuildState}, (∀ id g, tblGet s.groups id = some g → g ∉ inheritedNames) →
      vs.foldlM (plainStepVisit m cyc cfg) s = some s' →
      Run.forEach (stepVisit m cyc cfg) s vs = .done s' := by
  induction vs with
  | nil =>
    intro _ s s' _ h
    simp only [List.foldlM, pure, Option.some.injEq] at h
    subst h
    rfl
  | cons v vs ih =>
    intro hvs s s' hJ h
    simp only [List.foldlM, Option.bind_eq_bind, Option.bind_eq_some] at h
    obtain ⟨s1, h1, h2⟩ := h
    obtain ⟨e1, hJ1⟩ := stepVisit_of_plain hG hJ (hvs v (List.mem_cons_self _ _)).1
      (hvs v (List.mem_cons_self _ _)).2 h1
    have := ih (fun w hw => hvs w (List.mem_cons_of_mem _ hw)) hJ1 h2
    simp [Run.forEach, e1, Run.bind, this]

theorem visits_own {m : Modules} (hN : OwnNames m) (v : Visit) (hv : v ∈ visitsOf m) :
    v.ident ∉ inheritedNames ∧ ∀ id d, v = Visit.dep id d → id ∉ inheritedNames := by
  refine ⟨?_, ?_⟩
  · apply hN
    rw [List.mem_append]
    exact (mem_visit_idents m _).mp (List.mem_map.mpr ⟨v, hv, rfl⟩)
  · intro id d hvd
    subst hvd
    apply hN
    rw [List.mem_append]
    exact Or.inl ((dep_mem_visitsOf m id d).mp hv).1

/-- When no key, no dependency target and no group returned by the callback
is an inherited name, the visits of the loop are done one after the other, and
each leaves the state its steps on own properties leave. -/
theorem runVisits_own {m : Modules} {cfg : Config} (cyc : List String) (hN : OwnNames m)
    (hG : OwnGroups cfg) (pre post : List Visit) (hsplit : visitsOf m = pre ++ post) :
    ∃ s, runVisits m cyc cfg pre = .done s ∧ plainRunVisits m cyc cfg pre = some s ∧
      WellFormed m cyc cfg s ∧ History m cyc pre s := by
  obtain ⟨s, hs, hW, hH⟩ := plainRunVisits_spec m cyc cfg pre post hsplit
  refine ⟨s, ?_, hs, hW, hH⟩
  unfold runVisits
  unfold plainRunVisits at hs
  apply forEach_stepVisit_of_plain hG pre _ _ hs
  · intro v hv
    exact visits_own hN v (by rw [hsplit]; exact List.mem_append_left _ hv)
  · simp [BuildState.init, tblGet]

theorem Run.forEach_append {α σ : Type} (body : σ → α → Run σ) (l1 l2 : List α) :
    ∀ s, Run.forEach body s (l1 ++ l2) =
      (Run.forEach body s l1).bind fun s1 => Run.forEach body s1 l2 := by
  induction l1 with
  | nil => intro s; rfl
  | cons a l1 ih =>
    intro s
    simp only [List.cons_append, Run.forEach]
    cases body s a with
    | done s1 => exact ih s1
    | typeError => rfl
    | protoWrite => rfl

theorem stepVisit_depVisits (m : Modules) (cyc : List String) (cfg : Config)
    (id : String) (deps : List String) (s : BuildState) :
    Run.forEach (stepVisit m cyc cfg) s (deps.map (Visit.dep id)) =
      Run.forEach (visitDep m cfg id) s deps := by
  induction deps generalizing s with
  | nil => rfl
  | cons d ds ih =>
    simp only [List.map_cons, Run.forEach, stepVisit]
    cases visitDep m cfg id s d with
    | done s3 => exact ih s3
    | typeError => rfl
    | protoWrite => rfl

theorem stepVisit_keyVisits (m : Modules) (cyc : List String) (cfg : Config)
    (s : BuildState) (id : String) (h : id ∈ modKeys m) :
    Run.forEach (stepVisit m cyc cfg) s (keyVisits m id) = visitKey m cyc cfg s id := by
  obtain ⟨deps, hdeps⟩ := modGet_of_mem_keys m id h
  have hd : depsOf m id = deps := by simp [depsOf, hdeps]
  simp only [keyVisits, hd, Run.forEach, stepVisit, visitKey, hdeps, stepVisit_depVisits]
  cases createNodeFor cfg s id id with
  | done s1 =>
    simp only [Run.bind]
  | typeError => rfl
  | protoWrite => rfl

/-- The loop of `createGraph` is the sequence of its visits. -/
theorem buildGraph_eq_runVisits (m : Modules) (circular : List (List String)) (cfg : Config) :
    buildGraph m circular cfg = runVisits m circular.flatten cfg (visitsOf m) := by
  unfold buildGraph runVisits visitsOf
  generalize BuildState.init = s
  have key : ∀ (ks : List String), (∀ k ∈ ks, k ∈ modKeys m) → ∀ s,
      Run.forEach (visitKey m circular.flatten cfg) s ks =
        Run.forEach (stepVisit m circular.flatten cfg) s (ks.flatMap (keyVisits m)) := by
    intro ks
    induction ks with
    | nil => intro _ s; rfl
    | cons k ks ih =>
      intro hk s
      rw [List.flatMap_cons, Run.forEach_append,
        stepVisit_keyVisits m _ cfg s k (hk k (List.mem_cons_self _ _))]
      simp only [Run.forEach]
      cases visitKey m circular.flatten cfg s k with
      | done s1 => exact ih (fun k' hk' => hk k' (List.mem_cons_of_mem _ hk')) s1
      | typeError => rfl
      | protoWrite => rfl
  exact key (modKeys m) (fun _ h => h) s

theorem runVisits_snoc (m : Modules) (cyc : List String) (cfg : Config) (pre : List Visit)
    (v : Visit) :
    runVisits m cyc cfg (pre ++ [v]) =
      (runVisits m cyc cfg pre).bind fun s => stepVisit m cyc cfg s v := by
  unfold runVisits
  rw [Run.forEach_append]
  cases Run.forEach (stepVisit m cyc cfg) BuildState.init pre with
  | done s =>
    simp only [Run.bind, Run.forEach]
    cases stepVisit m cyc cfg s v <;> rfl
  | typeError => rfl
  | protoWrite => rfl

/-- What a finished build is: no key and no dependency target is an inherited
name, and the invariant of the loop holds of the result for the whole visiting
order. -/
theorem createGraph_done_spec {m : Modules} {circular : List (List String)} {cfg : Config}
    {options : GraphvizOptions} {r : GraphResult}
    (h : createGraph m circular cfg options = .done r) :
    OwnNames m ∧ WellFormed m circular.flatten cfg r.built ∧
      History m circular.flatten (visitsOf m) r.built ∧
      r.options = options ∧ r.written = ["temp.dot"] ∧
      buildGraph m circular cfg = .done r.built := by
  unfold createGraph at h
  obtain ⟨s, hs, hr⟩ := Run.map_done h
  subst hr
  obtain ⟨hN, hp⟩ := buildGraph_done hs
  obtain ⟨s', hs', hW, hH⟩ := plainBuildGraph_spec m circular cfg
  rw [hp] at hs'
  cases hs'
  exact ⟨hN, hW, hH, rfl, rfl, hs⟩

/-- A build finishes when no key, no dependency target and no group returned
by the callback is an inherited name. -/
theorem createGraph_of_own {m : Modules} {cfg : Config} (circular : List (List String))
    (options : GraphvizOptions) (hN : OwnNames m) (hG : OwnGroups cfg) :
    ∃ r, createGraph m circular cfg options = .done r ∧
      runVisits m circular.flatten cfg (visitsOf m) = .done r.built := by
  obtain ⟨s, hs, _⟩ := runVisits_own circular.flatten hN hG (visitsOf m) [] (by simp)
  refine ⟨⟨s, ["temp.dot"], options⟩, ?_, hs⟩
  unfold createGraph
  rw [buildGraph_eq_runVisits, hs]
  rfl

/-- A visit that is done and meets no inherited name has taken the steps on
own properties. -/
theorem stepVisit_done {m : Modules} {cyc : List String} {cfg : Config}
    {s s' : BuildState} {v : Visit}
    (hv : v.ident ∉ inheritedNames) (hsrc : ∀ id d, v = Visit.dep id d → id ∉ inheritedNames)
    (h : stepVisit m cyc cfg s v = .done s') : plainStepVisit m cyc cfg s v = some s' := by
  cases v with
  | key id =>
    have hv' : id ∉ inheritedNames := hv
    simp only [stepVisit] at h
    obtain ⟨s1, h1, h2⟩ := Run.bind_done h
    simp [plainStepVisit, createNodeFor_done hv' (Or.inl rfl) h1, Run.ofOption_done h2]
  | dep id d =>
    have hid := hsrc id d rfl
    have hv' : d ∉ inheritedNames := hv
    simp only [stepVisit, visitDep] at h
    obtain ⟨s1, h1, h⟩ := Run.bind_done h
    obtain ⟨s2, h2, h3⟩ := Run.bind_done h
    rw [styleDep_eq _ _ _ _ hv'] at h2
    rw [emitEdge_eq _ _ _ hid hv'] at h3
    simp [plainStepVisit, plainVisitDep, createNodeFor_done hv' (Or.inr hid) h1,
      Run.ofOption_done h2, Run.ofOption_done h3]

theorem forEach_stepVisit_done {m : Modules} {cyc : List String} {cfg : Config}
    (vs : List Visit) :
    (∀ v ∈ vs, v.ident ∉ inheritedNames ∧ ∀ id d, v = Visit.dep id d → id ∉ inheritedNames) →
    ∀ {s s' : BuildState}, Run.forEach (stepVisit m cyc cfg) s vs = .done s' →
      vs.foldlM (plainStepVisit m cyc cfg) s = some s' := by
  induction vs with
  | nil =>
    intro _ s s' h
    simp only [Run.forEach, Run.done.injEq] at h
    subst h
    rfl
  | cons v vs ih =>
    intro hvs s s' h
    simp only [Run.forEach] at h
    obtain ⟨s1, h1, h2⟩ := Run.bind_done h
    have e1 := stepVisit_done (hvs v (List.mem_cons_self _ _)).1
      (hvs v (List.mem_cons_self _ _)).2 h1
    have e2 := ih (fun w hw => hvs w (List.mem_cons_of_mem _ hw)) h2
    simp [List.foldlM, e1, e2]

/-- In a finished build every initial part of the visits is done, and leaves
a state in which the invariant of the loop holds. -/
theorem runVisits_done_prefix {m : Modules} {circular : List (List String)} {cfg : Config}
    {options : GraphvizOptions} {r : GraphResult}
    (h : createGraph m circular cfg options = .done r) (pre post : List Visit)
    (hsplit : visitsOf m = pre ++ post) :
    ∃ s, runVisits m circular.flatten cfg pre = .done s ∧
      WellFormed m circular.flatten cfg s ∧ History m circular.flatten pre s := by
  obtain ⟨hN, _, _, _, _, hb⟩ := createGraph_done_spec h
  rw [buildGraph_eq_runVisits] at hb
  unfold runVisits at hb
  rw [hsplit, Run.forEach_append] at hb
  obtain ⟨s, hs, _⟩ := Run.bind_done hb
  obtain ⟨s', hs', hW, hH⟩ := plainRunVisits_spec m circular.flatten cfg pre post hsplit
  have hp := forEach_stepVisit_done pre
    (fun v hv => visits_own hN v (by rw [hsplit]; exact List.mem_append_left _ hv)) hs
  unfold plainRunVisits at hs'
  rw [hp] at hs'
  cases hs'
  exact ⟨s, hs, hW, hH⟩

theorem ownGroups_of_no_callback {cfg : Config} (h : cfg.getNodeAttributes = none) :
    OwnGroups cfg := by
  intro f hf
  rw [h] at hf
  cases hf

theorem ownGroups_exampleConfig : OwnGroups exampleConfig :=
  ownGroups_of_no_callback rfl

theorem ownGroups_twoGroupsConfig : OwnGroups twoGroupsConfig := by
  intro f hf asked id grp h
  have hf' : f = twoGroups := (Option.some.inj hf).symm
  subst hf'
  by_cases hA : id = "A"
  · simp [twoGroups, groupOf, attrGet, tblGet, hA] at h
    subst h
    decide
  · simp [twoGroups, groupOf, attrGet, tblGet, hA] at h
    subst h
    decide

theorem ownGroups_fickleConfig : OwnGroups fickleConfig := by
  intro f hf asked id grp h
  have hf' : f = fickle := (Option.some.inj hf).symm
  subst hf'
  by_cases hA : id ∈ asked
  · simp [fickle, groupOf, attrGet, tblGet, hA] at h
    subst h
    decide
  · simp [fickle, groupOf, attrGet, tblGet, hA] at h
    subst h
    decide

theorem ownGroups_paintBlueConfig : OwnGroups paintBlueConfig := by
  intro f hf asked id grp h
  have hf' : f = paintBlue := (Option.some.inj hf).symm
  subst hf'
  simp [paintBlue, groupOf, attrGet, tblGet] at h
/-! ## Theorems -/

/-- C1 fails at the mapping {constructor: []}: `nodes["constructor"]` reads
the inherited function, so no node is created and no callback is asked, the
`setNodeColor` call has no node object, and the build ends in a `TypeError`
with no graph.  It fails too when the callback names the group of a key
"constructor": the entry `subgraphs["constructor"]` that is consulted is the
inherited function. -/
theorem createGraph_inherited_key_no_node :
    createNodeFor exampleConfig BuildState.init "constructor" "constructor" =
      .done BuildState.init ∧
    applyStyle exampleConfig BuildState.init "constructor" .noDependency = none ∧
    (createGraph [("constructor", [])] [] exampleConfig exampleOptions).map
      (fun r => r.built.g.nodes) = .typeError ∧
    (createGraph [("A", ["B"])] [] constructorGroupConfig exampleOptions).map
      (fun r => r.built.g.nodes) = .typeError := by
  decide

/-- C1, amended: every build that `createGraph` finishes has exactly one node
for each identifier that is a mapping key or an element of a dependency list,
and no other node: the identifiers of the nodes stored in the root graph and
in all subgraphs together have no duplicates, and an identifier is among them
exactly when it is a key or a dependency target; the same holds of the
`createNode` calls made.  The build finishes when no key, no dependency target
and no group returned by the callback is a name inherited from
`Object.prototype`. -/
theorem createGraph_one_node_per_identifier (modules : Modules)
    (circular : List (List String)) (config : Config) (options : GraphvizOptions) :
    (∀ r, createGraph modules circular config options = .done r →
      (r.built.g.allNodes.map fun n => n.id).Nodup ∧
      (∀ x, x ∈ (r.built.g.allNodes.map fun n => n.id) ↔
        x ∈ modKeys modules ∨ x ∈ depTargets modules) ∧
      (r.built.g.nodes.map fun n => n.id).Nodup ∧
      (∀ n, n ∈ r.built.g.allNodes ↔ n ∈ r.built.g.nodes)) ∧
    (OwnNames modules → OwnGroups config →
      ∃ r, createGraph modules circular config options = .done r) := by
  refine ⟨?_, ?_⟩
  · intro r hr
    obtain ⟨_, hW, hH, _⟩ := createGraph_done_spec hr
    have hn : (r.built.g.nodes.map fun n => n.id).Nodup := by
      rw [hW.nodes_eq]
      exact hW.nodes_nodup
    refine ⟨nodup_allNodes_ids _ hn hW.subgraphs_nodup, ?_, hn, hW.mem_allNodes⟩
    intro x
    rw [hW.mem_allNodes_ids, hH.nodes_hist, mem_firstSeen, mem_visit_idents]
  · intro hN hG
    obtain ⟨r, hr, _⟩ := createGraph_of_own circular options hN hG
    exact ⟨r, hr⟩

/-- C1, at the mapping {A: [B, B], B: [A], C: []}: the build finishes with the
three nodes A, B, C. -/
theorem createGraph_one_node_per_identifier_witness :
    OwnNames [("A", ["B", "B"]), ("B", ["A"]), ("C", [])] ∧
    (∃ r, createGraph [("A", ["B", "B"]), ("B", ["A"]), ("C", [])] [] exampleConfig
        exampleOptions = .done r ∧
      (r.built.g.allNodes.map fun n => n.id).Nodup) ∧
    (createGraph [("A", ["B", "B"]), ("B", ["A"]), ("C", [])] [] exampleConfig
        exampleOptions).map (fun r => r.built.g.allNodes.map fun n => n.id) =
      .done ["A", "B", "C"] := by
  have hN : OwnNames [("A", ["B", "B"]), ("B", ["A"]), ("C", [])] := by
    unfold OwnNames
    decide
  refine ⟨hN, ?_, by decide⟩
  obtain ⟨h1, h2⟩ := createGraph_one_node_per_identifier
    [("A", ["B", "B"]), ("B", ["A"]), ("C", [])] [] exampleConfig exampleOptions
  obtain ⟨r, hr⟩ := h2 hN ownGroups_exampleConfig
  exact ⟨r, hr, (h1 r hr).1⟩

/-- C2 fails at the mapping {A: [toString]}: the target "toString" is no key,
but `nodes["toString"]` and `modules["toString"]` read the inherited function,
so no node is created for it and it is not styled; the edge has no node object
at its end and the build ends in a `TypeError`.  It fails too at the mapping
{hasOwnProperty: []}, a key with an empty list. -/
theorem createGraph_inherited_target_unstyled :
    ("toString" ∈ depTargets [("A", ["toString"])] ∧
      "toString" ∉ modKeys [("A", ["toString"])]) ∧
    styleDep [("A", ["toString"])] exampleConfig BuildState.init "toString" =
      .done BuildState.init ∧
    (createGraph [("A", ["toString"])] [] exampleConfig exampleOptions).map
      (fun r => r.built.g.nodes) = .typeError ∧
    modGet [("hasOwnProperty", [])] "hasOwnProperty" = some [] ∧
    (createGraph [("hasOwnProperty", [])] [] exampleConfig exampleOptions).map
      (fun r => r.built.g.nodes) = .typeError := by
  decide

/-- C2, amended: for an identifier that is a key with an empty dependency
list, or a dependency target that is not a key, the node a finished build
leaves for it has its color and its fontcolor equal to
`config.noDependencyColor`.  The build finishes when no key, no dependency
target and no group returned by the callback is a name inherited from
`Object.prototype`. -/
theorem createGraph_noDependency_style (modules : Modules) (circular : List (List String))
    (config : Config) (options : GraphvizOptions) (id : String)
    (h : modGet modules id = some [] ∨ (id ∈ depTargets modules ∧ id ∉ modKeys modules)) :
    (∀ r, createGraph modules circular config options = .done r →
      (∃ n ∈ r.built.g.allNodes, n.id = id) ∧
      ∀ n ∈ r.built.g.allNodes, n.id = id →
        attrGet n.attributes "color" = some config.noDependencyColor ∧
        attrGet n.attributes "fontcolor" = some config.noDependencyColor) ∧
    (OwnNames modules → OwnGroups config →
      ∃ r, createGraph modules circular config options = .done r) := by
  refine ⟨?_, ?_⟩
  · intro r hr
    obtain ⟨_, hW, hH, _⟩ := createGraph_done_spec hr
    have hst : (id, Style.noDependency) ∈ r.built.styled := by
      rw [hH.noDep_hist]
      rcases h with h | ⟨h1, h2⟩
      · exact Or.inl ⟨(key_mem_visitsOf _ _).mpr (mem_keys_of_modGet _ _ _ h), h⟩
      · obtain ⟨p, hp⟩ := (mem_depTargets _ _).mp h1
        exact Or.inr ⟨p, hp, (modGet_eq_none_iff _ _).mpr h2⟩
    refine ⟨?_, ?_⟩
    · have := (hW.mem_allNodes_ids id).mpr (hW.styled_mem _ _ hst)
      obtain ⟨n, hn, hid⟩ := List.mem_map.mp this
      exact ⟨n, hn, hid⟩
    · intro n hn hid
      exact hW.styled_color n ((hW.mem_allNodes n).mp hn) .noDependency (hid ▸ hst)
  · intro hN hG
    obtain ⟨r, hr, _⟩ := createGraph_of_own circular options hN hG
    exact ⟨r, hr⟩

/-- C2, at the mapping {A: [B], B: [], C: [A]} without cycles: B is styled
no-dependency. -/
theorem createGraph_noDependency_style_witness :
    (modGet [("A", ["B"]), ("B", []), ("C", ["A"])] "B" = some [] ∨
      ("B" ∈ depTargets [("A", ["B"]), ("B", []), ("C", ["A"])] ∧
        "B" ∉ modKeys [("A", ["B"]), ("B", []), ("C", ["A"])])) ∧
    OwnNames [("A", ["B"]), ("B", []), ("C", ["A"])] ∧
    (∃ r, createGraph [("A", ["B"]), ("B", []), ("C", ["A"])] [] exampleConfig
        exampleOptions = .done r ∧
      (∃ n ∈ r.built.g.allNodes, n.id = "B") ∧
      ∀ n ∈ r.built.g.allNodes, n.id = "B" →
        attrGet n.attributes "color" = some exampleConfig.noDependencyColor ∧
        attrGet n.attributes "fontcolor" = some exampleConfig.noDependencyColor) ∧
    (createGraph [("A", ["B"]), ("B", []), ("C", ["A"])] [] exampleConfig
        exampleOptions).map (fun r => r.built.g.nodes) =
      .done [⟨"A", none, []⟩,
        ⟨"B", none, [("color", "#cfffac"), ("fontcolor", "#cfffac")]⟩,
        ⟨"C", none, []⟩] := by
  have hN : OwnNames [("A", ["B"]), ("B", []), ("C", ["A"])] := by
    unfold OwnNames
    decide
  refine ⟨by decide, hN, ?_, by decide⟩
  obtain ⟨h1, h2⟩ := createGraph_noDependency_style [("A", ["B"]), ("B", []), ("C", ["A"])]
    [] exampleConfig exampleOptions "B" (by decide)
  obtain ⟨r, hr⟩ := h2 hN ownGroups_exampleConfig
  exact ⟨r, hr, h1 r hr⟩

/-- C3 fails at the mapping {constructor: [A], A: [constructor]} with the
cycle [constructor, A]: the key "constructor" is in a cycle and has a
non-empty dependency list, but `nodes["constructor"]` is the inherited
function, the `setNodeColor` call for the cyclic style has no node object and
the build ends in a `TypeError`. -/
theorem createGraph_inherited_key_in_cycle :
    (∃ c ∈ [["constructor", "A"]], "constructor" ∈ c) ∧
    modGet [("constructor", ["A"]), ("A", ["constructor"])] "constructor" = some ["A"] ∧
    applyStyle exampleConfig BuildState.init "constructor" .cyclic = none ∧
    (createGraph [("constructor", ["A"]), ("A", ["constructor"])] [["constructor", "A"]]
      exampleConfig exampleOptions).map (fun r => r.built.styled) = .typeError := by
  decide

/-- C3, amended: a finished build has applied the cyclic style to the node of
an identifier exactly when the identifier occurs in some cycle and is a
mapping key with a non-empty dependency list; for an identifier that has a
node this is: occurs in some cycle and is not styled no-dependency.  A node so
styled ends with color and fontcolor `config.cyclicNodeColor`.  With an empty
cycle list no node receives the cyclic style.  The build finishes when no key,
no dependency target and no group returned by the callback is a name inherited
from `Object.prototype`. -/
theorem createGraph_cyclic_style (modules : Modules) (circular : List (List String))
    (config : Config) (options : GraphvizOptions) :
    (∀ r, createGraph modules circular config options = .done r →
      (∀ id, (id, Style.cyclic) ∈ r.built.styled ↔
        (∃ c ∈ circular, id ∈ c) ∧ ∃ deps, modGet modules id = some deps ∧ deps ≠ []) ∧
      (∀ id, id ∈ modKeys modules ∨ id ∈ depTargets modules →
        ((id, Style.cyclic) ∈ r.built.styled ↔
          (∃ c ∈ circular, id ∈ c) ∧ (id, Style.noDependency) ∉ r.built.styled)) ∧
      (∀ n ∈ r.built.g.allNodes, (n.id, Style.cyclic) ∈ r.built.styled →
        attrGet n.attributes "color" = some config.cyclicNodeColor ∧
        attrGet n.attributes "fontcolor" = some config.cyclicNodeColor) ∧
      (circular = [] → ∀ id, (id, Style.cyclic) ∉ r.built.styled)) ∧
    (OwnNames modules → OwnGroups config →
      ∃ r, createGraph modules circular config options = .done r) := by
  refine ⟨?_, ?_⟩
  · intro r hr
    obtain ⟨_, hW, hH, _⟩ := createGraph_done_spec hr
    have hcyc : ∀ id, (id, Style.cyclic) ∈ r.built.styled ↔
        (∃ c ∈ circular, id ∈ c) ∧ ∃ deps, modGet modules id = some deps ∧ deps ≠ [] := by
      intro id
      rw [hH.cyclic_hist, key_mem_visitsOf, List.mem_flatten]
      constructor
      · rintro ⟨_, h2, h3⟩
        exact ⟨h2, h3⟩
      · rintro ⟨h2, d, hd, hne⟩
        exact ⟨mem_keys_of_modGet _ _ _ hd, h2, d, hd, hne⟩
    refine ⟨hcyc, ?_, ?_, ?_⟩
    · intro id hid
      rw [hcyc, hH.noDep_hist, key_mem_visitsOf]
      constructor
      · rintro ⟨h1, d, hd, hne⟩
        refine ⟨h1, ?_⟩
        rintro (⟨_, h⟩ | ⟨_, _, h⟩) <;> rw [h] at hd
        · exact hne (Option.some.inj hd).symm
        · cases hd
      · rintro ⟨h1, h2⟩
        refine ⟨h1, ?_⟩
        cases hd : modGet modules id with
        | none =>
          exfalso
          apply h2
          have hk : id ∉ modKeys modules := (modGet_eq_none_iff _ _).mp hd
          rcases hid with hid | hid
          · exact absurd hid hk
          · obtain ⟨p, hp⟩ := (mem_depTargets _ _).mp hid
            exact Or.inr ⟨p, hp, hd⟩
        | some d =>
          refine ⟨d, rfl, ?_⟩
          intro hne
          apply h2
          exact Or.inl ⟨mem_keys_of_modGet _ _ _ hd, by rw [hd, hne]⟩
    · intro n hn hst
      exact hW.styled_color n ((hW.mem_allNodes n).mp hn) .cyclic hst
    · intro hnil id hst
      obtain ⟨⟨c, hc, _⟩, _⟩ := (hcyc id).mp hst
      rw [hnil] at hc
      cases hc
  · intro hN hG
    obtain ⟨r, hr, _⟩ := createGraph_of_own circular options hN hG
    exact ⟨r, hr⟩

/-- C3, at the mapping {A: [B], B: [A]} with the cycle [A, B]: both A and B
end with the cyclic style. -/
theorem createGraph_cyclic_style_witness :
    OwnNames [("A", ["B"]), ("B", ["A"])] ∧
    (∃ r, createGraph [("A", ["B"]), ("B", ["A"])] [["A", "B"]] exampleConfig
        exampleOptions = .done r ∧
      (("A", Style.cyclic) ∈ r.built.styled ∧ ("B", Style.cyclic) ∈ r.built.styled)) ∧
    (createGraph [("A", ["B"]), ("B", ["A"])] [["A", "B"]] exampleConfig
        exampleOptions).map (fun r => r.built.g.nodes) =
      .done [⟨"A", none, [("color", "#ff6c60"), ("fontcolor", "#ff6c60")]⟩,
        ⟨"B", none, [("color", "#ff6c60"), ("fontcolor", "#ff6c60")]⟩] := by
  have hN : OwnNames [("A", ["B"]), ("B", ["A"])] := by
    unfold OwnNames
    decide
  refine ⟨hN, ?_, by decide⟩
  obtain ⟨h1, h2⟩ :=
    createGraph_cyclic_style [("A", ["B"]), ("B", ["A"])] [["A", "B"]] exampleConfig
      exampleOptions
  obtain ⟨r, hr⟩ := h2 hN ownGroups_exampleConfig
  obtain ⟨h, _⟩ := h1 r hr
  exact ⟨r, hr, (h "A").mpr (by decide), (h "B").mpr (by decide)⟩

/-- C4 fails at the mapping {constructor: [], A: [B]}: the pair (A, B) is to
be emitted, but the build ends in a `TypeError` at the first key, before any
edge; and at the mapping {A: [valueOf]} the edge from A has the inherited
function at its end and `createEdge` fails. -/
theorem createGraph_inherited_key_no_edge :
    dependencyPairs [("constructor", []), ("A", ["B"])] = [("A", "B")] ∧
    (createGraph [("constructor", []), ("A", ["B"])] [] exampleConfig exampleOptions).map
      (fun r => r.built.g.edges) = .typeError ∧
    dependencyPairs [("A", ["valueOf"])] = [("A", "valueOf")] ∧
    (runVisits [("A", ["valueOf"])] [] exampleConfig [Visit.key "A"]).bind
      (fun s => emitEdge s "A" "valueOf") = .typeError ∧
    (createGraph [("A", ["valueOf"])] [] exampleConfig exampleOptions).map
      (fun r => r.built.g.edges) = .typeError := by
  decide

/-- C4, amended: the edges a finished build has emitted, in emission order,
are exactly the pairs (id, depId) obtained by visiting the keys in mapping
order and each key's dependency list in list order; their number is the sum of
the lengths of the dependency lists; every emitted edge is stored in the root
graph or in a subgraph; a key that is in its own dependency list gets an edge
from its node to itself.  The build finishes when no key, no dependency target
and no group returned by the callback is a name inherited from
`Object.prototype`. -/
theorem createGraph_edges_in_order (modules : Modules) (circular : List (List String))
    (config : Config) (options : GraphvizOptions) :
    (∀ r, createGraph modules circular config options = .done r →
      r.built.g.edges.map (fun e => (e.source, e.target)) =
        (modKeys modules).flatMap
          (fun id => (depsOf modules id).map fun depId => (id, depId)) ∧
      r.built.g.edges.length =
        ((modKeys modules).map fun id => (depsOf modules id).length).sum ∧
      (∀ e, e ∈ r.built.g.allEdges ↔ e ∈ r.built.g.edges) ∧
      (∀ id ∈ modKeys modules, id ∈ depsOf modules id →
        ∃ e ∈ r.built.g.edges, e.source = id ∧ e.target = id)) ∧
    (OwnNames modules → OwnGroups config →
      ∃ r, createGraph modules circular config options = .done r) := by
  refine ⟨?_, ?_⟩
  · intro r hr
    obtain ⟨_, hW, hH, _⟩ := createGraph_done_spec hr
    have hpairs : r.built.g.edges.map (fun e => (e.source, e.target)) =
        dependencyPairs modules := by
      rw [hH.edges_hist, visit_edges_eq]
    refine ⟨hpairs, ?_, ?_, ?_⟩
    · have := congrArg List.length hpairs
      rw [List.length_map, length_dependencyPairs] at this
      exact this
    · exact mem_allEdges_iff _ (fun e he => (hW.edge_cluster e he).2)
    · intro id hk hself
      have hmem : (id, id) ∈ r.built.g.edges.map (fun e => (e.source, e.target)) := by
        rw [hH.edges_hist]
        simp only [List.mem_filterMap]
        exact ⟨Visit.dep id id, (dep_mem_visitsOf _ _ _).mpr ⟨hk, hself⟩, rfl⟩
      obtain ⟨e, he, heq⟩ := List.mem_map.mp hmem
      simp only [Prod.mk.injEq] at heq
      exact ⟨e, he, heq.1, heq.2⟩
  · intro hN hG
    obtain ⟨r, hr, _⟩ := createGraph_of_own circular options hN hG
    exact ⟨r, hr⟩

/-- C4, at the mapping {A: [B, B, A]}: the repeated target gives two edges
and the self-dependency an edge from A to A. -/
theorem createGraph_edges_in_order_witness :
    OwnNames [("A", ["B", "B", "A"])] ∧
    (∃ r, createGraph [("A", ["B", "B", "A"])] [] exampleConfig exampleOptions = .done r ∧
      r.built.g.edges.map (fun e => (e.source, e.target)) =
        [("A", "B"), ("A", "B"), ("A", "A")]) ∧
    (createGraph [("A", ["B", "B", "A"])] [] exampleConfig exampleOptions).map
        (fun r => r.built.g.edges) =
      .done [⟨none, "A", "B"⟩, ⟨none, "A", "B"⟩, ⟨none, "A", "A"⟩] := by
  have hN : OwnNames [("A", ["B", "B", "A"])] := by
    unfold OwnNames
    decide
  refine ⟨hN, ?_, by decide⟩
  obtain ⟨h1, h2⟩ :=
    createGraph_edges_in_order [("A", ["B", "B", "A"])] [] exampleConfig exampleOptions
  obtain ⟨r, hr⟩ := h2 hN ownGroups_exampleConfig
  exact ⟨r, hr, (h1 r hr).1.trans (by decide)⟩

/-- C5: an edge emitted by a build that `createGraph` finishes is created
inside a subgraph exactly when both its end identifiers have a first-assigned
group and the two groups are equal; otherwise it is created at the root graph.
The first-assigned group of an identifier is the truthy group the callback
returned at its single call.  The build finishes when no key, no dependency
target and no group returned by the callback is a name inherited from
`Object.prototype`. -/
theorem createGraph_edge_placement (modules : Modules) (circular : List (List String))
    (config : Config) (options : GraphvizOptions) :
    (∀ r, createGraph modules circular config options = .done r →
      ∀ e ∈ r.built.g.edges,
        ((∃ name, e.cluster = some name) ↔
          ∃ G, firstGroup config r.built.calls e.source = some G ∧
            firstGroup config r.built.calls e.target = some G) ∧
        (e.cluster = none ↔
          ¬ ∃ G, firstGroup config r.built.calls e.source = some G ∧
            firstGroup config r.built.calls e.target = some G) ∧
        (∀ name, e.cluster = some name →
          name ∈ r.built.g.subgraphs ∧ e ∈ r.built.g.edgesIn (some name)) ∧
        (e.cluster = none → e ∈ r.built.g.edgesIn none)) ∧
    (OwnNames modules → OwnGroups config →
      ∃ r, createGraph modules circular config options = .done r) := by
  refine ⟨?_, ?_⟩
  · intro r hr e he
    obtain ⟨_, hW, hH, _⟩ := createGraph_done_spec hr
    obtain ⟨hs, ht⟩ := hW.edge_ends e he
    obtain ⟨hnone, hsub⟩ := hW.edge_cluster e he
    rw [hW.groups_eq_firstGroup _ hs, hW.groups_eq_firstGroup _ ht] at hnone
    refine ⟨?_, hnone, ?_, ?_⟩
    · constructor
      · rintro ⟨name, hname⟩
        by_contra hcon
        rw [hnone.mpr hcon] at hname
        cases hname
      · intro hG
        cases hc : e.cluster with
        | none => exact absurd hG (hnone.mp hc)
        | some name => exact ⟨name, rfl⟩
    · intro name hname
      refine ⟨hsub name hname, ?_⟩
      simp [Digraph.edgesIn, he, hname]
    · intro hc
      simp [Digraph.edgesIn, he, hc]
  · intro hN hG
    obtain ⟨r, hr, _⟩ := createGraph_of_own circular options hN hG
    exact ⟨r, hr⟩

/-- C5, at the mapping {A: [B], B: [C]} with A in group g1 and B, C in group
g2: the edge from A to B is at the root graph and the edge from B to C inside
a subgraph. -/
theorem createGraph_edge_placement_witness :
    OwnNames [("A", ["B"]), ("B", ["C"])] ∧
    (∃ r, createGraph [("A", ["B"]), ("B", ["C"])] [] twoGroupsConfig exampleOptions
        = .done r ∧
      r.built.g.edges.map (fun e => (e.source, e.target, e.cluster.isSome)) =
        [("A", "B", false), ("B", "C", true)]) ∧
    firstGroup twoGroupsConfig ["A", "B", "C"] "A" = some "g1" ∧
    firstGroup twoGroupsConfig ["A", "B", "C"] "B" = some "g2" ∧
    firstGroup twoGroupsConfig ["A", "B", "C"] "C" = some "g2" := by
  have hN : OwnNames [("A", ["B"]), ("B", ["C"])] := by
    unfold OwnNames
    decide
  refine ⟨hN, ?_, by decide, by decide, by decide⟩
  obtain ⟨_, h2⟩ :=
    createGraph_edge_placement [("A", ["B"]), ("B", ["C"])] [] twoGroupsConfig exampleOptions
  obtain ⟨r, hr⟩ := h2 hN ownGroups_twoGroupsConfig
  refine ⟨r, hr, ?_⟩
  have : (createGraph [("A", ["B"]), ("B", ["C"])] [] twoGroupsConfig exampleOptions).map
      (fun r => r.built.g.edges.map (fun e => (e.source, e.target, e.cluster.isSome))) =
      .done [("A", "B", false), ("B", "C", true)] := by decide
  rw [hr] at this
  exact Run.done.inj this

/-- C6 fails at the mapping {A: [B]} with A in group g1 and B in group g2:
the callback gives B the group g2 on first sight, but the node of B is created
inside the subgraph named g1, and no subgraph named g2 exists. -/
theorem createGraph_dep_node_in_key_subgraph :
    firstGroup twoGroupsConfig ["A", "B"] "B" = some "g2" ∧
    (createGraph [("A", ["B"])] [] twoGroupsConfig exampleOptions).map
        (fun r => (r.built.calls, r.built.g.subgraphs,
          r.built.g.nodes.map fun n => (n.id, n.cluster))) =
      .done (["A", "B"], ["g1"], [("A", some "g1"), ("B", some "g1")]) := by
  decide

/-- C7 fails at the mapping {A: [B], B: [C]} with A in group g1 and B, C in
group g2: both ends of the edge from B to C have the first-assigned group g2,
but the edge is placed inside the subgraph named g1. -/
theorem createGraph_edge_in_other_subgraph :
    firstGroup twoGroupsConfig ["A", "B", "C"] "B" = some "g2" ∧
    firstGroup twoGroupsConfig ["A", "B", "C"] "C" = some "g2" ∧
    (createGraph [("A", ["B"]), ("B", ["C"])] [] twoGroupsConfig exampleOptions).map
        (fun r => (r.built.calls, r.built.g.subgraphs, r.built.g.edges)) =
      .done (["A", "B", "C"], ["g1"], [⟨none, "A", "B"⟩, ⟨some "g1", "B", "C"⟩]) := by
  decide

/-- C8 fails at the mapping {X: [], A: [B], B: [X]} with A in group g1 and
X, B in group g2: the edge from B to X is stored in the subgraph g1 while the
node of X is stored in the subgraph g2, and the nodes of X and B, which share
the first-assigned group g2, are stored in different subgraphs. -/
theorem createGraph_subgraph_edge_leaves_subgraph :
    firstGroup twoGroupsConfig ["X", "A", "B"] "X" = some "g2" ∧
    firstGroup twoGroupsConfig ["X", "A", "B"] "B" = some "g2" ∧
    (createGraph [("X", []), ("A", ["B"]), ("B", ["X"])] [] twoGroupsConfig
        exampleOptions).map
        (fun r => (r.built.calls, (r.built.g.edgesIn (some "g1")),
          (r.built.g.nodesIn (some "g1")).map (fun n => n.id),
          (r.built.g.nodesIn (some "g2")).map (fun n => n.id))) =
      .done (["X", "A", "B"], [⟨some "g1", "B", "X"⟩], ["A", "B"], ["X"]) := by
  decide

/-- C9 fails at the mapping {constructor: []}: the identifier "constructor" is
encountered as a key, but `nodes["constructor"]` reads the inherited function,
the callback is not called for it (the record of calls stays empty) and the
build ends in a `TypeError`.  It fails too when the single call for a key
returns the group "constructor": the build ends in a `TypeError`. -/
theorem createGraph_inherited_key_not_asked :
    (createNodeFor fickleConfig BuildState.init "constructor" "constructor").map
      (fun s => s.calls) = .done [] ∧
    (createGraph [("constructor", [])] [] fickleConfig exampleOptions).map
      (fun r => r.built.calls) = .typeError ∧
    (createGraph [("A", [])] [] constructorGroupConfig exampleOptions).map
      (fun r => r.built.calls) = .typeError := by
  decide

/-- C9, amended: during a build that `createGraph` finishes the callback is
called exactly once for each identifier that is a key or a dependency target,
in the order in which the identifiers are first encountered, and for no other
identifier; the group recorded for an identifier is the truthy group that
single call returned (the callback being given the identifiers asked before),
and after any part of the visits the calls made so far are an initial part of
the final record and the group recorded for an identifier already asked about
is the final one.  The build finishes when no key, no dependency target and no
group returned by the callback is a name inherited from `Object.prototype`. -/
theorem createGraph_callback_once (modules : Modules) (circular : List (List String))
    (config : Config) (options : GraphvizOptions)
    (f : List String → String → Option AttrSet) (hf : config.getNodeAttributes = some f) :
    (∀ r, createGraph modules circular config options = .done r →
      r.built.calls = firstSeen ((modKeys modules).flatMap fun id => id :: depsOf modules id) ∧
      r.built.calls.Nodup ∧
      (∀ x, x ∈ r.built.calls ↔ x ∈ modKeys modules ∨ x ∈ depTargets modules) ∧
      (∀ x, x ∈ modKeys modules ∨ x ∈ depTargets modules → r.built.calls.count x = 1) ∧
      (∀ p id q, r.built.calls = p ++ id :: q →
        tblGet r.built.groups id = groupOf (f p id)) ∧
      (∀ pre post, visitsOf modules = pre ++ post →
        ∃ s, runVisits modules circular.flatten config pre = .done s ∧
          s.calls = firstSeen (pre.map Visit.ident) ∧
          s.calls <+: r.built.calls ∧
          ∀ id ∈ s.calls, tblGet s.groups id = tblGet r.built.groups id)) ∧
    (OwnNames modules → OwnGroups config →
      ∃ r, createGraph modules circular config options = .done r) := by
  refine ⟨?_, ?_⟩
  · intro r hr
    obtain ⟨_, hW, hH, _⟩ := createGraph_done_spec hr
    have hc : r.built.calls = r.built.nodes := by simpa [hf] using hW.calls_eq
    have hcalls : r.built.calls = firstSeen ((visitsOf modules).map Visit.ident) := by
      rw [hc, hH.nodes_hist]
    have hmem : ∀ x, x ∈ r.built.calls ↔ x ∈ modKeys modules ∨ x ∈ depTargets modules := by
      intro x
      rw [hcalls, mem_firstSeen, mem_visit_idents]
    have hgroup : ∀ p id q, r.built.calls = p ++ id :: q →
        tblGet r.built.groups id = groupOf (f p id) := by
      intro p id q hsplit
      rw [hW.group_call p id q hsplit, hf]
      rfl
    refine ⟨?_, ?_, hmem, ?_, hgroup, ?_⟩
    · rw [hcalls, visit_idents_eq]
    · rw [hc]
      exact hW.nodes_nodup
    · intro x hx
      exact List.count_eq_one_of_mem (hc ▸ hW.nodes_nodup) ((hmem x).mpr hx)
    · intro pre post hsplit
      obtain ⟨s, hs, hWs, hHs⟩ := runVisits_done_prefix hr pre post hsplit
      have hcs : s.calls = s.nodes := by simpa [hf] using hWs.calls_eq
      have hpre : s.calls <+: r.built.calls := by
        rw [hcs, hHs.nodes_hist, hcalls, hsplit, List.map_append]
        exact firstSeen_prefix _ _
      refine ⟨s, hs, by rw [hcs, hHs.nodes_hist], hpre, ?_⟩
      intro id hid
      obtain ⟨p, q, hpq⟩ := List.append_of_mem hid
      obtain ⟨t, ht⟩ := hpre
      have h1 := hWs.group_call p id q hpq
      have h2 := hW.group_call p id (q ++ t) (by rw [← ht, hpq]; simp)
      rw [h1, h2]
  · intro hN hG
    obtain ⟨r, hr, _⟩ := createGraph_of_own circular options hN hG
    exact ⟨r, hr⟩

/-- C9, at the mapping {A: [B], B: [A]} with a callback that would answer
"late" on a second call: it is called once for A and once for B and both
recorded groups are "early". -/
theorem createGraph_callback_once_witness :
    fickleConfig.getNodeAttributes = some fickle ∧
    OwnNames [("A", ["B"]), ("B", ["A"])] ∧
    (∃ r, createGraph [("A", ["B"]), ("B", ["A"])] [] fickleConfig exampleOptions = .done r ∧
      r.built.calls = ["A", "B"] ∧
      tblGet r.built.groups "A" = some "early" ∧
      tblGet r.built.groups "B" = some "early") ∧
    fickle ["A", "B"] "A" = some [("group", "late")] := by
  have hN : OwnNames [("A", ["B"]), ("B", ["A"])] := by
    unfold OwnNames
    decide
  refine ⟨rfl, hN, ?_, by decide⟩
  obtain ⟨h1, h2⟩ :=
    createGraph_callback_once [("A", ["B"]), ("B", ["A"])] [] fickleConfig exampleOptions
      fickle rfl
  obtain ⟨r, hr⟩ := h2 hN ownGroups_fickleConfig
  obtain ⟨hcalls, _, _, _, hgroup, _⟩ := h1 r hr
  have hc : r.built.calls = ["A", "B"] := hcalls.trans (by decide)
  refine ⟨r, hr, hc, ?_, ?_⟩
  · rw [hgroup [] "A" ["B"] hc]
    decide
  · rw [hgroup ["A"] "B" [] hc]
    decide

/-! ## `Object.assign` -/

theorem objGet_objPut (o : Obj) (k : String) (v : Value) (k' : String) :
    objGet (objPut o k v) k' = if k = k' then some v else objGet o k' := by
  induction o with
  | nil => simp [objPut, objGet]
  | cons hd tl ih =>
    obtain ⟨k0, v0⟩ := hd
    by_cases h0 : k0 = k
    · subst h0
      by_cases h1 : k0 = k' <;> simp [objPut, objGet, h1]
    · by_cases h1 : k0 = k'
      · subst h1
        have h2 : ¬ k = k0 := fun h => h0 h.symm
        simp [objPut, objGet, h0, h2]
      · simp [objPut, objGet, h0, h1, ih]

theorem objGet_objSet_of_ne (o : Obj) (k : String) (v : Value) (k' : String) (h : k ≠ k') :
    objGet (objSet o k v) k' = objGet o k' := by
  unfold objSet
  split
  · rfl
  · rw [objGet_objPut]
    simp [h]

theorem objGet_objSet_self (o : Obj) (k : String) (v : Value) (hk : k ≠ "__proto__") :
    objGet (objSet o k v) k = some v := by
  unfold objSet
  rw [if_neg (fun h => hk h.1), objGet_objPut]
  simp

theorem objGet_objSet_proto (o : Obj) (k : String) (v : Value)
    (h : objGet o "__proto__" = none) : objGet (objSet o k v) "__proto__" = none := by
  by_cases hk : k = "__proto__"
  · subst hk
    simp [objSet, h]
  · rw [objGet_objSet_of_ne _ _ _ _ hk]
    exact h

theorem objGet_eq_none_of_not_mem (o : Obj) (k : String) (h : k ∉ o.map Prod.fst) :
    objGet o k = none := by
  induction o with
  | nil => rfl
  | cons hd tl ih =>
    obtain ⟨k0, v0⟩ := hd
    simp only [List.map_cons, List.mem_cons, not_or] at h
    have h0 : ¬ k0 = k := fun e => h.1 e.symm
    simp [objGet, h0, ih h.2]

theorem foldl_objSet_get_default (src : Obj) (target : Obj) (k : String)
    (h : objGet src k = none) :
    objGet (src.foldl (fun acc kv => objSet acc kv.1 kv.2) target) k = objGet target k := by
  induction src generalizing target with
  | nil => rfl
  | cons hd tl ih =>
    obtain ⟨k0, v0⟩ := hd
    by_cases h0 : k0 = k
    · simp [objGet, h0] at h
    · simp only [objGet, h0, if_false] at h
      rw [List.foldl_cons, ih _ h, objGet_objSet_of_ne _ _ _ _ h0]

theorem foldl_objSet_get_override (src : Obj) (target : Obj) (k : String) (v : Value)
    (hd : DistinctKeys src) (hk : k ≠ "__proto__") (h : objGet src k = some v) :
    objGet (src.foldl (fun acc kv => objSet acc kv.1 kv.2) target) k = some v := by
  induction src generalizing target with
  | nil => simp [objGet] at h
  | cons e tl ih =>
    obtain ⟨k0, v0⟩ := e
    unfold DistinctKeys at hd
    simp only [List.map_cons, List.nodup_cons] at hd
    by_cases h0 : k0 = k
    · simp only [objGet, h0, if_true, Option.some.injEq] at h
      subst h0 h
      rw [List.foldl_cons, foldl_objSet_get_default tl _ k0
        (objGet_eq_none_of_not_mem tl k0 hd.1), objGet_objSet_self _ _ _ hk]
    · simp only [objGet, h0, if_false] at h
      rw [List.foldl_cons]
      exact ih _ hd.2 h

theorem foldl_objSet_get_proto (src : Obj) (target : Obj)
    (h : objGet target "__proto__" = none) :
    objGet (src.foldl (fun acc kv => objSet acc kv.1 kv.2) target) "__proto__" = none := by
  induction src generalizing target with
  | nil => exact h
  | cons e tl ih =>
    rw [List.foldl_cons]
    exact ih _ (objGet_objSet_proto _ _ _ h)

theorem objectAssign_override (target : Obj) (source : Option Obj)
    (hd : DistinctKeys (source.getD [])) (k : String) (v : Value) (hk : k ≠ "__proto__")
    (h : objGet (source.getD []) k = some v) :
    objGet (objectAssign target source) k = some v := by
  cases source with
  | none => simp [objGet] at h
  | some src => exact foldl_objSet_get_override src target k v hd hk h

theorem objectAssign_default (target : Obj) (source : Option Obj) (k : String)
    (h : objGet (source.getD []) k = none) :
    objGet (objectAssign target source) k = objGet target k := by
  cases source with
  | none => rfl
  | some src => exact foldl_objSet_get_default src target k h

theorem objectAssign_proto (target : Obj) (source : Option Obj)
    (h : objGet target "__proto__" = none) :
    objGet (objectAssign target source) "__proto__" = none := by
  cases source with
  | none => exact h
  | some src => exact foldl_objSet_get_proto src target h

/-- C10 fails at an override object for the graph that has the own property
`__proto__` with the value "x" (the object `JSON.parse` makes of the text
`{"__proto__": "x", "splines": "ortho"}`): `Object.assign` assigns to
`__proto__` of the target, which is the inherited setter and ignores a string,
so the returned graph attributes have no own property `__proto__`, while the
key "splines" of the same override is taken over. -/
theorem createGraphvizOptions_proto_key :
    DistinctKeys (overrideOf protoOverrideConfig GraphVizOverrides.G) ∧
    objGet (overrideOf protoOverrideConfig GraphVizOverrides.G) "__proto__" =
      some (.str "x") ∧
    objGet (createGraphvizOptions examplePathJoin protoOverrideConfig).graph "__proto__" =
      none ∧
    objGet (createGraphvizOptions examplePathJoin protoOverrideConfig).graph "__proto__" ≠
      some (.str "x") ∧
    objGet (createGraphvizOptions examplePathJoin protoOverrideConfig).graph "splines" =
      some (.str "ortho") := by
  refine ⟨?_, by decide, by decide, by decide, by decide⟩
  unfold DistinctKeys
  decide

/-- C10, amended: in the attribute sets `createGraphvizOptions` returns, for
each of the three element kinds a key other than `__proto__` that is present
in the override object has the override's value, and a key absent from it has
the built-in value; the returned sets have no own property `__proto__`;
without `graphVizOptions` the three sets are exactly the built-in defaults. -/
theorem createGraphvizOptions_overrides (pathJoin : String → String → String)
    (config : Config)
    (hG : DistinctKeys (overrideOf config GraphVizOverrides.G))
    (hE : DistinctKeys (overrideOf config GraphVizOverrides.E))
    (hN : DistinctKeys (overrideOf config GraphVizOverrides.N)) :
    (∀ k v, k ≠ "__proto__" → objGet (overrideOf config GraphVizOverrides.G) k = some v →
      objGet (createGraphvizOptions pathJoin config).graph k = some v) ∧
    (∀ k v, k ≠ "__proto__" → objGet (overrideOf config GraphVizOverrides.E) k = some v →
      objGet (createGraphvizOptions pathJoin config).edge k = some v) ∧
    (∀ k v, k ≠ "__proto__" → objGet (overrideOf config GraphVizOverrides.N) k = some v →
      objGet (createGraphvizOptions pathJoin config).node k = some v) ∧
    (∀ k, objGet (overrideOf config GraphVizOverrides.G) k = none →
      objGet (createGraphvizOptions pathJoin config).graph k =
        objGet [("overlap", .bool false), ("pad", .num (3 / 10)), ("rankdir", config.rankdir),
          ("layout", config.layout), ("bgcolor", config.backgroundColor)] k) ∧
    (∀ k, objGet (overrideOf config GraphVizOverrides.E) k = none →
      objGet (createGraphvizOptions pathJoin config).edge k =
        objGet [("color", config.edgeColor)] k) ∧
    (∀ k, objGet (overrideOf config GraphVizOverrides.N) k = none →
      objGet (createGraphvizOptions pathJoin config).node k =
        objGet [("fontname", config.fontName), ("fontsize", config.fontSize),
          ("color", config.nodeColor), ("shape", config.nodeShape),
          ("style", config.nodeStyle), ("height", .num 0),
          ("fontcolor", config.nodeColor)] k) ∧
    (objGet (createGraphvizOptions pathJoin config).graph "__proto__" = none ∧
      objGet (createGraphvizOptions pathJoin config).edge "__proto__" = none ∧
      objGet (createGraphvizOptions pathJoin config).node "__proto__" = none) ∧
    (config.graphVizOptions = none →
      (createGraphvizOptions pathJoin config).graph =
        [("overlap", .bool false), ("pad", .num (3 / 10)), ("rankdir", config.rankdir),
          ("layout", config.layout), ("bgcolor", config.backgroundColor)] ∧
      (createGraphvizOptions pathJoin config).edge = [("color", config.edgeColor)] ∧
      (createGraphvizOptions pathJoin config).node =
        [("fontname", config.fontName), ("fontsize", config.fontSize),
          ("color", config.nodeColor), ("shape", config.nodeShape),
          ("style", config.nodeStyle), ("height", .num 0),
          ("fontcolor", config.nodeColor)]) := by
  refine ⟨?_, ?_, ?_, ?_, ?_, ?_, ⟨?_, ?_, ?_⟩, ?_⟩
  · intro k v hk h
    exact objectAssign_override _ _ hG k v hk h
  · intro k v hk h
    exact objectAssign_override _ _ hE k v hk h
  · intro k v hk h
    exact objectAssign_override _ _ hN k v hk h
  · intro k h
    exact objectAssign_default _ _ k h
  · intro k h
    exact objectAssign_default _ _ k h
  · intro k h
    exact objectAssign_default _ _ k h
  · exact objectAssign_proto _ _ (by simp [defaultGraphAttributes, objGet])
  · exact objectAssign_proto _ _ (by simp [defaultEdgeAttributes, objGet])
  · exact objectAssign_proto _ _ (by simp [defaultNodeAttributes, objGet])
  · intro h
    simp [createGraphvizOptions, h, objectAssign, defaultGraphAttributes,
      defaultEdgeAttributes, defaultNodeAttributes]

/-- C10, at a configuration that overrides rankdir and height: the overrides
win, the other keys keep their built-in values. -/
theorem createGraphvizOptions_overrides_witness :
    DistinctKeys (overrideOf overrideConfig GraphVizOverrides.G) ∧
    DistinctKeys (overrideOf overrideConfig GraphVizOverrides.E) ∧
    DistinctKeys (overrideOf overrideConfig GraphVizOverrides.N) ∧
    objGet (createGraphvizOptions examplePathJoin overrideConfig).graph "rankdir" =
      some (.str "TB") ∧
    objGet (createGraphvizOptions examplePathJoin overrideConfig).graph "layout" =
      some (.str "dot") ∧
    objGet (createGraphvizOptions examplePathJoin overrideConfig).node "height" =
      some (.str "1") ∧
    objGet (createGraphvizOptions examplePathJoin overrideConfig).edge "color" =
      some (.str "#757575") := by
  have hG : DistinctKeys (overrideOf overrideConfig GraphVizOverrides.G) := by
    unfold DistinctKeys
    decide
  have hE : DistinctKeys (overrideOf overrideConfig GraphVizOverrides.E) := by
    unfold DistinctKeys
    decide
  have hN : DistinctKeys (overrideOf overrideConfig GraphVizOverrides.N) := by
    unfold DistinctKeys
    decide
  obtain ⟨h1, _, h3, h4, h5, _⟩ :=
    createGraphvizOptions_overrides examplePathJoin overrideConfig hG hE hN
  refine ⟨hG, hE, hN, h1 _ _ (by decide) (by decide), ?_, h3 _ _ (by decide) (by decide), ?_⟩
  · rw [h4 "layout" (by decide)]
    decide
  · rw [h5 "color" (by decide)]
    decide

/-! ## Totality, cycles and attributes -/

theorem styleKey_congr (m : Modules) (cyc1 cyc2 : List String) (cfg : Config)
    (h : ∀ x, x ∈ cyc1 ↔ x ∈ cyc2) (s : BuildState) (id : String) :
    styleKey m cyc1 cfg s id = styleKey m cyc2 cfg s id := by
  unfold styleKey
  cases modGet m id with
  | none => rfl
  | some deps =>
    by_cases h1 : id ∈ cyc1
    · simp [h1, (h id).mp h1]
    · have h2 : id ∉ cyc2 := fun h' => h1 ((h id).mpr h')
      simp [h1, h2]

theorem buildGraph_congr (m : Modules) (c1 c2 : List (List String)) (cfg : Config)
    (h : ∀ x, x ∈ c1.flatten ↔ x ∈ c2.flatten) :
    buildGraph m c1 cfg = buildGraph m c2 cfg := by
  have hk : visitKey m c1.flatten cfg = visitKey m c2.flatten cfg := by
    funext s id
    unfold visitKey
    simp only [styleKey_congr m _ _ cfg h]
  unfold buildGraph
  rw [hk]

/-- C15 fails at the mapping {A: [isPrototypeOf]}: the build does not return,
the edge to the target has the inherited function at its end and `createEdge`
ends in a `TypeError`; at the mapping {constructor: [constructor]} the edge is
looked for in a subgraph that does not exist; and with a callback that names
the group of the key A "constructor" the `createNode` call is made on the
inherited function. -/
theorem createGraph_inherited_name_throws :
    (createGraph [("A", ["isPrototypeOf"])] [] exampleConfig exampleOptions).map
      (fun r => r.built) = .typeError ∧
    emitEdge BuildState.init "constructor" "constructor" = .typeError ∧
    (createGraph [("constructor", ["constructor"])] [] exampleConfig exampleOptions).map
      (fun r => r.built) = .typeError ∧
    createNodeFor constructorGroupConfig BuildState.init "A" "A" = .typeError ∧
    (createGraph [("A", ["B"]), ("B", [])] [] constructorGroupConfig exampleOptions).map
      (fun r => r.built) = .typeError := by
  decide

/-- C15, amended: a build that `createGraph` finishes has met no name
inherited from `Object.prototype` among the keys and the dependency targets.
When no key, no dependency target and no group returned by the callback is
such a name, the loop is total: the build returns a result, and at every visit
of the loop the state before it exists, the visit does not fail (no step
dereferences a missing entry), the node of the visited identifier exists after
it, and every identifier with a recorded group has an entry in the table
`subgraphs` for that group, which is a subgraph of the digraph. -/
theorem createGraph_total (modules : Modules) (circular : List (List String))
    (config : Config) (options : GraphvizOptions) :
    (∀ r, createGraph modules circular config options = .done r → OwnNames modules) ∧
    (OwnNames modules → OwnGroups config →
      (∃ r, createGraph modules circular config options = .done r ∧
        runVisits modules circular.flatten config (visitsOf modules) = .done r.built) ∧
      ∀ pre v post, visitsOf modules = pre ++ v :: post →
        ∃ s s', runVisits modules circular.flatten config pre = .done s ∧
          stepVisit modules circular.flatten config s v = .done s' ∧
          v.ident ∈ s'.nodes ∧ (∃ n ∈ s'.g.nodes, n.id = v.ident) ∧
          (∀ id st, (id, st) ∈ s'.styled → ∃ n ∈ s'.g.nodes, n.id = id) ∧
          (∀ id grp, tblGet s'.groups id = some grp →
            ∃ ref, tblGet s'.subgraphs grp = some ref ∧ ref ∈ s'.g.subgraphs)) := by
  refine ⟨?_, ?_⟩
  · intro r hr
    exact (createGraph_done_spec hr).1
  · intro hN hG
    refine ⟨createGraph_of_own circular options hN hG, ?_⟩
    intro pre v post hsplit
    obtain ⟨s, hs, _, _, _⟩ :=
      runVisits_own circular.flatten hN hG pre (v :: post) hsplit
    obtain ⟨s', hs', _, hW', hH'⟩ :=
      runVisits_own circular.flatten hN hG (pre ++ [v]) post (by simp [hsplit])
    rw [runVisits_snoc, hs] at hs'
    have hnode : ∀ id, id ∈ s'.nodes → ∃ n ∈ s'.g.nodes, n.id = id := by
      intro id hid
      rw [← hW'.nodes_eq] at hid
      obtain ⟨n, hn, h⟩ := List.mem_map.mp hid
      exact ⟨n, hn, h⟩
    have hv : v.ident ∈ s'.nodes := by
      rw [hH'.nodes_hist, mem_firstSeen]
      simp
    refine ⟨s, s', hs, hs', hv, hnode _ hv, ?_, ?_⟩
    · intro id st hst
      exact hnode id (hW'.styled_mem id st hst)
    · intro id grp hg
      obtain ⟨_, _, ref, href⟩ := hW'.groups_ok id grp hg
      exact ⟨ref, href, hW'.subgraphs_ok grp ref href⟩

/-- C15, at the mapping {A: [B, C], C: [D]} whose targets B and D have no
entry of their own: the build returns and creates four nodes. -/
theorem createGraph_total_witness :
    OwnNames [("A", ["B", "C"]), ("C", ["D"])] ∧
    (∃ r, createGraph [("A", ["B", "C"]), ("C", ["D"])] [] exampleConfig exampleOptions
      = .done r) ∧
    (createGraph [("A", ["B", "C"]), ("C", ["D"])] [] exampleConfig exampleOptions).map
        (fun r => r.built.nodes) = .done ["A", "B", "C", "D"] := by
  have hN : OwnNames [("A", ["B", "C"]), ("C", ["D"])] := by
    unfold OwnNames
    decide
  refine ⟨hN, ?_, by decide⟩
  obtain ⟨⟨r, hr, _⟩, _⟩ :=
    (createGraph_total [("A", ["B", "C"]), ("C", ["D"])] [] exampleConfig exampleOptions).2
      hN ownGroups_exampleConfig
  exact ⟨r, hr⟩

/-- C16: the build depends on the cycle list only through the identifiers it
contains: two cycle lists with the same members give the same result (nodes,
attributes, subgraphs, edges and tables). -/
theorem createGraph_cycle_members_only (modules : Modules) (c1 c2 : List (List String))
    (config : Config) (options : GraphvizOptions)
    (h : ∀ x, (∃ c ∈ c1, x ∈ c) ↔ (∃ c ∈ c2, x ∈ c)) :
    createGraph modules c1 config options = createGraph modules c2 config options := by
  unfold createGraph
  rw [buildGraph_congr modules c1 c2 config (by simpa [List.mem_flatten] using h)]

/-- C16, at the mapping {A: [B], B: [A]}: the cycle list [[A, B]] and the list
[[B], [A, A], [B, A]] give the same build. -/
theorem createGraph_cycle_members_only_witness :
    (∀ x, (∃ c ∈ [["A", "B"]], x ∈ c) ↔ (∃ c ∈ [["B"], ["A", "A"], ["B", "A"]], x ∈ c)) ∧
    createGraph [("A", ["B"]), ("B", ["A"])] [["A", "B"]] exampleConfig exampleOptions =
      createGraph [("A", ["B"]), ("B", ["A"])] [["B"], ["A", "A"], ["B", "A"]] exampleConfig
        exampleOptions ∧
    (createGraph [("A", ["B"]), ("B", ["A"])] [["B"], ["A", "A"], ["B", "A"]] exampleConfig
        exampleOptions).map (fun r => r.built.styled) =
      .done [("A", Style.cyclic), ("B", Style.cyclic)] := by
  have h : ∀ x : String,
      (∃ c ∈ [["A", "B"]], x ∈ c) ↔ (∃ c ∈ [["B"], ["A", "A"], ["B", "A"]], x ∈ c) := by
    intro x
    simp only [List.mem_cons, List.mem_singleton, exists_eq_or_imp, exists_eq_left,
      List.not_mem_nil, or_false, exists_false]
    tauto
  exact ⟨h, createGraph_cycle_members_only _ _ _ exampleConfig exampleOptions h, by decide⟩

/-- C17: in a build that `createGraph` finishes no identifier receives both
highlight styles; the cyclic style is applied only to mapping keys with a
non-empty dependency list, the no-dependency style only to keys with an empty
list and to dependency targets that are not keys; a key with an empty list or
a target that is not a key gets the no-dependency style and not the cyclic
one, also when it is a member of a cycle.  The build finishes when no key, no
dependency target and no group returned by the callback is a name inherited
from `Object.prototype`. -/
theorem createGraph_styles_exclusive (modules : Modules) (circular : List (List String))
    (config : Config) (options : GraphvizOptions) :
    (∀ r, createGraph modules circular config options = .done r →
      (∀ id, ¬ ((id, Style.noDependency) ∈ r.built.styled ∧
        (id, Style.cyclic) ∈ r.built.styled)) ∧
      (∀ id, (id, Style.cyclic) ∈ r.built.styled →
        ∃ deps, modGet modules id = some deps ∧ deps ≠ []) ∧
      (∀ id, (id, Style.noDependency) ∈ r.built.styled →
        modGet modules id = some [] ∨ (id ∈ depTargets modules ∧ id ∉ modKeys modules)) ∧
      (∀ id, modGet modules id = some [] ∨ (id ∈ depTargets modules ∧ id ∉ modKeys modules) →
        (id, Style.noDependency) ∈ r.built.styled ∧ (id, Style.cyclic) ∉ r.built.styled)) ∧
    (OwnNames modules → OwnGroups config →
      ∃ r, createGraph modules circular config options = .done r) := by
  refine ⟨?_, ?_⟩
  · intro r hr
    obtain ⟨_, hW, hH, _⟩ := createGraph_done_spec hr
    have excl : ∀ id, ¬ ((id, Style.noDependency) ∈ r.built.styled ∧
        (id, Style.cyclic) ∈ r.built.styled) := by
      rintro id ⟨h1, h2⟩
      have := styleAllowed_unique modules circular.flatten id _ _
        (hW.styled_allowed id _ h1) (hW.styled_allowed id _ h2)
      cases this
    refine ⟨excl, ?_, ?_, ?_⟩
    · intro id h
      exact (hW.styled_cyclic id h).2
    · intro id h
      rcases (hH.noDep_hist id).mp h with ⟨_, h'⟩ | ⟨p, hp, h'⟩
      · exact Or.inl h'
      · exact Or.inr ⟨(mem_depTargets _ _).mpr ⟨p, hp⟩, (modGet_eq_none_iff _ _).mp h'⟩
    · intro id h
      have hst : (id, Style.noDependency) ∈ r.built.styled := by
        rw [hH.noDep_hist]
        rcases h with h | ⟨h1, h2⟩
        · exact Or.inl ⟨(key_mem_visitsOf _ _).mpr (mem_keys_of_modGet _ _ _ h), h⟩
        · obtain ⟨p, hp⟩ := (mem_depTargets _ _).mp h1
          exact Or.inr ⟨p, hp, (modGet_eq_none_iff _ _).mpr h2⟩
      exact ⟨hst, fun hc => excl id ⟨hst, hc⟩⟩
  · intro hN hG
    obtain ⟨r, hr, _⟩ := createGraph_of_own circular options hN hG
    exact ⟨r, hr⟩

/-- C17, at the mapping {A: [B, C], B: []} with the cycle [A, B, C]: B (empty
list) and C (no key) are in the cycle and get the no-dependency style only, A
gets the cyclic style only. -/
theorem createGraph_styles_exclusive_witness :
    OwnNames [("A", ["B", "C"]), ("B", [])] ∧
    (∃ r, createGraph [("A", ["B", "C"]), ("B", [])] [["A", "B", "C"]] exampleConfig
        exampleOptions = .done r ∧
      ¬ (("B", Style.noDependency) ∈ r.built.styled ∧ ("B", Style.cyclic) ∈ r.built.styled)) ∧
    (createGraph [("A", ["B", "C"]), ("B", [])] [["A", "B", "C"]] exampleConfig
        exampleOptions).map (fun r => r.built.styled) =
      .done [("A", Style.cyclic), ("C", Style.noDependency), ("B", Style.noDependency)] := by
  have hN : OwnNames [("A", ["B", "C"]), ("B", [])] := by
    unfold OwnNames
    decide
  refine ⟨hN, ?_, by decide⟩
  obtain ⟨h1, h2⟩ :=
    createGraph_styles_exclusive [("A", ["B", "C"]), ("B", [])] [["A", "B", "C"]]
      exampleConfig exampleOptions
  obtain ⟨r, hr⟩ := h2 hN ownGroups_exampleConfig
  exact ⟨r, hr, (h1 r hr).1 "B"⟩

/-- C18: in a build that `createGraph` finishes the final attribute object of
each node is the one the callback returned for its identifier (given the
identifiers asked before; empty when there is no callback or it returns
nothing), changed in at most the keys color and fontcolor: a styled node has
both keys overwritten with the highlight colour, an unstyled node, in
particular a mapping key with a non-empty dependency list that is in no cycle,
has the returned attributes unchanged.  The build finishes when no key, no
dependency target and no group returned by the callback is a name inherited
from `Object.prototype`. -/
theorem createGraph_node_attributes (modules : Modules) (circular : List (List String))
    (config : Config) (options : GraphvizOptions) :
    (∀ r, createGraph modules circular config options = .done r →
      (config.getNodeAttributes.isSome = true → r.built.calls = r.built.nodes) ∧
      ∀ n ∈ r.built.g.allNodes, ∃ p q, r.built.nodes = p ++ n.id :: q ∧
        (∀ k, k ≠ "color" → k ≠ "fontcolor" →
          attrGet n.attributes k = attrGet (baseAttrs config p n.id) k) ∧
        (∀ st, (n.id, st) ∈ r.built.styled →
          n.attributes =
            attrSet (attrSet (baseAttrs config p n.id) "color" (st.color config))
              "fontcolor" (st.color config) ∧
          attrGet n.attributes "color" = some (st.color config) ∧
          attrGet n.attributes "fontcolor" = some (st.color config)) ∧
        ((∀ st, (n.id, st) ∉ r.built.styled) → n.attributes = baseAttrs config p n.id) ∧
        ((∃ deps, modGet modules n.id = some deps ∧ deps ≠ []) →
          (¬ ∃ c ∈ circular, n.id ∈ c) → n.attributes = baseAttrs config p n.id)) ∧
    (OwnNames modules → OwnGroups config →
      ∃ r, createGraph modules circular config options = .done r) := by
  refine ⟨?_, ?_⟩
  · intro r hr
    obtain ⟨_, hW, hH, _⟩ := createGraph_done_spec hr
    refine ⟨?_, ?_⟩
    · intro hf
      simpa [hf] using hW.calls_eq
    · intro n hn
      have hn' : n ∈ r.built.g.nodes := (hW.mem_allNodes n).mp hn
      have hid : n.id ∈ r.built.nodes := by
        rw [← hW.nodes_eq]
        exact List.mem_map.mpr ⟨n, hn', rfl⟩
      obtain ⟨p, q, hpq⟩ := List.append_of_mem hid
      obtain ⟨hun, hst⟩ := hW.node_attrs n hn' p q hpq
      refine ⟨p, q, hpq, ?_, ?_, hun, ?_⟩
      · intro k h1 h2
        by_cases hex : ∃ st, (n.id, st) ∈ r.built.styled
        · obtain ⟨st, h⟩ := hex
          rw [hst st h, highlighted_other _ _ _ h1 h2]
        · rw [hun (fun st h => hex ⟨st, h⟩)]
      · intro st h
        exact ⟨hst st h, hW.styled_color n hn' st h⟩
      · rintro ⟨deps, hd, hne⟩ hcyc
        apply hun
        intro st h
        cases st with
        | noDependency =>
          rcases hW.styled_noDep _ h with h' | h' <;> rw [h'] at hd
          · exact hne (Option.some.inj hd).symm
          · cases hd
        | cyclic =>
          apply hcyc
          have := (hW.styled_cyclic _ h).1
          simpa [List.mem_flatten] using this
  · intro hN hG
    obtain ⟨r, hr, _⟩ := createGraph_of_own circular options hN hG
    exact ⟨r, hr⟩

/-- C18, at the mapping {A: [B], B: []} with a callback that returns color,
shape and fontcolor: A keeps the returned attributes, B keeps its shape and
has color and fontcolor replaced by the no-dependency colour. -/
theorem createGraph_node_attributes_witness :
    OwnNames [("A", ["B"]), ("B", [])] ∧
    (∃ r, createGraph [("A", ["B"]), ("B", [])] [] paintBlueConfig exampleOptions = .done r) ∧
    (createGraph [("A", ["B"]), ("B", [])] [] paintBlueConfig exampleOptions).map
        (fun r => r.built.g.nodes) =
      .done [⟨"A", none, [("color", "blue"), ("shape", "oval"), ("fontcolor", "white")]⟩,
        ⟨"B", none, [("color", "#cfffac"), ("shape", "oval"), ("fontcolor", "#cfffac")]⟩] := by
  have hN : OwnNames [("A", ["B"]), ("B", [])] := by
    unfold OwnNames
    decide
  refine ⟨hN, ?_, by decide⟩
  exact (createGraph_node_attributes [("A", ["B"]), ("B", [])] [] paintBlueConfig
    exampleOptions).2 hN ownGroups_paintBlueConfig

/-! ## `path.extname` -/

theorem extnameLoop_plain (xs rest : List Char) (st : ExtnameState)
    (hd : ∀ c ∈ xs, c ≠ '.') (hs : ∀ c ∈ xs, c ≠ '/') (h1 : st.startDot = none)
    (h2 : st.endPos ≠ none) :
    extnameLoop (xs ++ rest) st = extnameLoop rest st := by
  induction xs with
  | nil => rfl
  | cons x xs ih =>
    have hx1 : x ≠ '.' := hd x (List.mem_cons_self _ _)
    have hx2 : x ≠ '/' := hs x (List.mem_cons_self _ _)
    simp only [List.cons_append, extnameLoop, hx1, hx2, if_false, h1, h2, ne_eq,
      not_true_eq_false]
    exact ih (fun c hc => hd c (List.mem_cons_of_mem _ hc))
      (fun c hc => hs c (List.mem_cons_of_mem _ hc))

/-- The state of the loop of `path.extname` right after the last dot of a path
`before ++ '.' :: ext`, where `ext` has neither a dot nor a slash. -/
theorem extnameLoop_to_dot (before ext : List Char)
    (hd : ∀ c ∈ ext, c ≠ '.') (hs : ∀ c ∈ ext, c ≠ '/') :
    extnameLoop (before ++ '.' :: ext).reverse ExtnameState.init =
      extnameLoop before.reverse
        ⟨some before.length, 0, some (before.length + 1 + ext.length), false, 0⟩ := by
  have hrev : (before ++ '.' :: ext).reverse = ext.reverse ++ '.' :: before.reverse := by
    simp
  rw [hrev]
  rcases List.eq_nil_or_concat ext with he | ⟨ext', x, he⟩
  · subst he
    simp [extnameLoop, ExtnameState.init]
  · subst he
    have hx1 : x ≠ '.' := hd x (by simp)
    have hx2 : x ≠ '/' := hs x (by simp)
    have hd' : ∀ c ∈ ext'.reverse, c ≠ '.' := fun c hc => hd c (by simp [List.mem_reverse.mp hc])
    have hs' : ∀ c ∈ ext'.reverse, c ≠ '/' := fun c hc => hs c (by simp [List.mem_reverse.mp hc])
    rw [List.concat_eq_append, List.reverse_append, List.reverse_singleton,
      List.singleton_append, List.cons_append]
    simp only [extnameLoop, hx1, hx2, if_false, ExtnameState.init, if_true, ne_eq,
      not_true_eq_false]
    rw [extnameLoop_plain _ _ _ hd' hs' rfl (by simp)]
    simp only [extnameLoop, if_true, if_false]
    have : ('.' : Char) ≠ '/' := by decide
    simp only [this, if_false]
    simp only [reduceCtorEq, if_false, if_true]
    congr 2
    · simp
    · simp
      omega

theorem extnameLoop_settled (rest : List Char) (st : ExtnameState) (sd e : Nat)
    (h1 : st.startDot = some sd) (h2 : st.endPos = some e) :
    (extnameLoop rest st).startDot = some sd ∧ (extnameLoop rest st).endPos = some e ∧
      (st.preDotState ≠ 0 → (extnameLoop rest st).preDotState ≠ 0) := by
  induction rest generalizing st with
  | nil => exact ⟨h1, h2, fun h => h⟩
  | cons c rest ih =>
    obtain ⟨sd0, sp, ep, ms, pd⟩ := st
    simp only at h1 h2
    subst h1 h2
    unfold extnameLoop
    by_cases hc : c = '/'
    · by_cases hm : ms = true
      · simp only [hc, if_true, hm]
        exact ih _ rfl rfl
      · simp only [hc, if_true, hm]
        exact ⟨rfl, rfl, fun h => h⟩
    · simp only [hc, if_false, reduceCtorEq, ne_eq, not_false_eq_true, if_true]
      by_cases hdot : c = '.'
      · by_cases hp : pd = 1
        · simp only [hdot, if_true, hp, not_true_eq_false, if_false]
          obtain ⟨a, b, c'⟩ := ih ⟨some sd, sp, some e, ms, 1⟩ rfl rfl
          exact ⟨a, b, fun _ => c' (by simp)⟩
        · simp only [hdot, if_true, hp, not_false_eq_true]
          obtain ⟨a, b, c'⟩ := ih ⟨some sd, sp, some e, ms, 1⟩ rfl rfl
          exact ⟨a, b, fun _ => c' (by simp)⟩
      · simp only [hdot, if_false]
        obtain ⟨a, b, c'⟩ := ih ⟨some sd, sp, some e, ms, -1⟩ rfl rfl
        exact ⟨a, b, fun _ => c' (by simp)⟩

theorem extnameLoop_no_dot (xs : List Char) (st : ExtnameState)
    (hd : ∀ c ∈ xs, c ≠ '.') (h1 : st.startDot = none) :
    (extnameLoop xs st).startDot = none := by
  induction xs generalizing st with
  | nil => exact h1
  | cons c rest ih =>
    have hc : c ≠ '.' := hd c (List.mem_cons_self _ _)
    have hrest : ∀ c ∈ rest, c ≠ '.' := fun c h => hd c (List.mem_cons_of_mem _ h)
    unfold extnameLoop
    by_cases hsl : c = '/'
    · by_cases hm : st.matchedSlash = true
      · simp only [hsl, if_true, hm]
        exact ih st hrest h1
      · simp only [hsl, if_true, hm]
        exact h1
    · simp only [hsl, if_false, hc]
      apply ih _ hrest
      by_cases he : st.endPos = none <;> simp [he, h1]

theorem slice_ext (before ext : List Char) :
    ((before ++ '.' :: ext).drop before.length).take
      (before.length + 1 + ext.length - before.length) = '.' :: ext := by
  rw [List.drop_left]
  have : before.length + 1 + ext.length - before.length = ('.' :: ext).length := by
    simp
    omega
  rw [this, List.take_length]

/-- The extension of a path that ends in a dot followed by characters other
than dot and slash is empty or that ending. -/
theorem extnameChars_suffix (before ext : List Char)
    (hd : ∀ c ∈ ext, c ≠ '.') (hs : ∀ c ∈ ext, c ≠ '/') :
    extnameChars (before ++ '.' :: ext) = [] ∨
      extnameChars (before ++ '.' :: ext) = '.' :: ext := by
  unfold extnameChars
  rw [extnameLoop_to_dot before ext hd hs]
  obtain ⟨h1, h2, _⟩ := extnameLoop_settled before.reverse
    ⟨some before.length, 0, some (before.length + 1 + ext.length), false, 0⟩ _ _ rfl rfl
  unfold extnameResult
  rw [h1, h2]
  simp only
  split
  · exact Or.inl rfl
  · exact Or.inr (slice_ext before ext)

/-- The extension of a path whose last dot follows a character other than a
slash and is followed by at least one character, none a dot or a slash. -/
theorem extnameChars_ext (p : List Char) (c : Char) (ext : List Char) (hc : c ≠ '/')
    (hne : ext ≠ []) (hd : ∀ c ∈ ext, c ≠ '.') (hs : ∀ c ∈ ext, c ≠ '/') :
    extnameChars (p ++ c :: '.' :: ext) = '.' :: ext := by
  have hpath : p ++ c :: '.' :: ext = (p ++ [c]) ++ '.' :: ext := by simp
  unfold extnameChars
  rw [hpath, extnameLoop_to_dot (p ++ [c]) ext hd hs, List.reverse_append,
    List.reverse_singleton, List.singleton_append]
  have hstep : extnameLoop (c :: p.reverse)
      ⟨some (p ++ [c]).length, 0, some ((p ++ [c]).length + 1 + ext.length), false, 0⟩ =
      extnameLoop p.reverse
        ⟨some (p ++ [c]).length, 0, some ((p ++ [c]).length + 1 + ext.length), false,
          if c = '.' then 1 else -1⟩ := by
    by_cases hdot : c = '.'
    · subst hdot
      simp [extnameLoop]
    · simp [extnameLoop, hc, hdot]
  rw [hstep]
  obtain ⟨h1, h2, h3⟩ := extnameLoop_settled p.reverse
    ⟨some (p ++ [c]).length, 0, some ((p ++ [c]).length + 1 + ext.length), false,
      if c = '.' then 1 else -1⟩ _ _ rfl rfl
  have h3' := h3 (by by_cases hdot : c = '.' <;> simp [hdot])
  unfold extnameResult
  rw [h1, h2]
  have hlen : ext.length ≠ 0 := by
    intro h
    exact hne (List.length_eq_zero.mp h)
  have hnot : ¬ ((p ++ [c]).length = (p ++ [c]).length + 1 + ext.length - 1) := by
    omega
  simp only [h3', false_or, hnot, false_and, and_false, if_false]
  exact slice_ext (p ++ [c]) ext

/-- The name of a dot-file has no extension. -/
theorem extnameChars_dotfile (name : List Char)
    (hd : ∀ c ∈ name, c ≠ '.') (hs : ∀ c ∈ name, c ≠ '/') (dir : List Char) :
    extnameChars ('.' :: name) = [] ∧ extnameChars (dir ++ '/' :: '.' :: name) = [] := by
  constructor
  · have := extnameLoop_to_dot [] name hd hs
    simp only [List.nil_append, List.reverse_nil, List.length_nil, extnameLoop] at this
    unfold extnameChars
    rw [this]
    simp [extnameResult]
  · have hpath : dir ++ '/' :: '.' :: name = (dir ++ ['/']) ++ '.' :: name := by simp
    unfold extnameChars
    rw [hpath, extnameLoop_to_dot (dir ++ ['/']) name hd hs, List.reverse_append,
      List.reverse_singleton, List.singleton_append]
    simp [extnameLoop, extnameResult]

theorem extnameChars_no_dot (path : List Char) (hd : ∀ c ∈ path, c ≠ '.') :
    extnameChars path = [] := by
  unfold extnameChars
  have := extnameLoop_no_dot path.reverse ExtnameState.init
    (fun c hc => hd c (List.mem_reverse.mp hc)) rfl
  unfold extnameResult
  rw [this]

theorem extnameLoop_dot_inv (rev : List Char) :
    ∀ (suf : List Char) (st : ExtnameState),
      (∀ sd, st.startDot = some sd →
        ((rev.reverse ++ suf).drop sd).head? = some '.' ∧ ∃ e, st.endPos = some e ∧ sd < e) →
      (∀ e, st.endPos = some e → rev.length ≤ e) →
      ∀ sd, (extnameLoop rev st).startDot = some sd →
        ((rev.reverse ++ suf).drop sd).head? = some '.' ∧
          ∃ e, (extnameLoop rev st).endPos = some e ∧ sd < e := by
  induction rev with
  | nil =>
    intro suf st hinv _ sd hsd
    exact hinv sd hsd
  | cons c rest ih =>
    intro suf st hinv hend
    have hpath : (c :: rest).reverse ++ suf = rest.reverse ++ (c :: suf) := by simp
    rw [hpath] at hinv ⊢
    obtain ⟨sd0, sp, ep, ms, pd⟩ := st
    simp only at hinv hend
    unfold extnameLoop
    by_cases hc : c = '/'
    · by_cases hm : ms = true
      · simp only [hc, if_true, hm]
        apply ih
        · rw [← hc]
          exact hinv
        · intro e he
          have := hend e he
          simp only [List.length_cons] at this
          omega
      · simp only [hc, if_true, hm]
        rw [← hc]
        exact hinv
    · simp only [hc, if_false]
      have hdrop : ((rest.reverse ++ c :: suf).drop rest.length).head? = some c := by
        have : rest.length = rest.reverse.length := by simp
        rw [this, List.drop_left]
        rfl
      cases hep : ep with
      | none =>
        have hsd0 : sd0 = none := by
          cases h : sd0 with
          | none => rfl
          | some sd =>
            obtain ⟨_, e, he, _⟩ := hinv sd h
            rw [hep] at he
            cases he
        subst hsd0
        by_cases hdot : c = '.'
        · subst hdot
          simp only [if_true]
          apply ih
          · intro sd hsd
            simp only [Option.some.injEq] at hsd
            subst hsd
            refine ⟨?_, rest.length + 1, rfl, by omega⟩
            exact hdrop
          · intro e he
            simp only [Option.some.injEq] at he
            omega
        · simp only [hdot, if_false, if_true, ne_eq, not_true_eq_false]
          apply ih
          · intro sd hsd
            cases hsd
          · intro e he
            simp only [Option.some.injEq] at he
            omega
      | some e0 =>
        have he0 : rest.length + 1 ≤ e0 := by
          have := hend e0 hep
          simpa using this
        simp only [reduceCtorEq, if_false]
        by_cases hdot : c = '.'
        · subst hdot
          cases hsd0 : sd0 with
          | none =>
            simp only [if_true]
            apply ih
            · intro sd hsd
              simp only [Option.some.injEq] at hsd
              subst hsd
              refine ⟨?_, e0, rfl, by omega⟩
              exact hdrop
            · intro e he
              simp only [Option.some.injEq] at he
              omega
          | some sd1 =>
            have hold := hinv sd1 hsd0
            rw [hep] at hold
            by_cases hp : pd = 1
            · simp only [if_true, reduceCtorEq, if_false, hp, ne_eq, not_true_eq_false]
              apply ih
              · intro sd hsd
                simp only [Option.some.injEq] at hsd
                subst hsd
                exact hold
              · intro e he
                simp only [Option.some.injEq] at he
                omega
            · simp only [if_true, reduceCtorEq, if_false, hp, ne_eq, not_false_eq_true]
              apply ih
              · intro sd hsd
                simp only [Option.some.injEq] at hsd
                subst hsd
                exact hold
              · intro e he
                simp only [Option.some.injEq] at he
                omega
        · cases hsd0 : sd0 with
          | none =>
            simp only [hdot, if_false, ne_eq, not_true_eq_false]
            apply ih
            · intro sd hsd
              cases hsd
            · intro e he
              simp only [Option.some.injEq] at he
              omega
          | some sd1 =>
            have hold := hinv sd1 hsd0
            rw [hep] at hold
            simp only [hdot, if_false, ne_eq, reduceCtorEq, not_false_eq_true, if_true]
            apply ih
            · intro sd hsd
              simp only [Option.some.injEq] at hsd
              subst hsd
              exact hold
            · intro e he
              simp only [Option.some.injEq] at he
              omega

/-- A non-empty result of `path.extname` begins with a dot. -/
theorem extnameChars_leading_dot (path : List Char) :
    extnameChars path = [] ∨ ∃ ext, extnameChars path = '.' :: ext := by
  unfold extnameChars extnameResult
  have hinv := extnameLoop_dot_inv path.reverse [] ExtnameState.init
    (by intro sd h; cases h) (by intro e h; cases h)
  rw [List.reverse_reverse, List.append_nil] at hinv
  cases hsd : (extnameLoop path.reverse ExtnameState.init).startDot with
  | none => exact Or.inl rfl
  | some sd =>
    obtain ⟨hhead, e, he, hlt⟩ := hinv sd hsd
    rw [he]
    simp only
    split
    · exact Or.inl rfl
    · right
      cases hdrop : path.drop sd with
      | nil => simp [hdrop] at hhead
      | cons x xs =>
        rw [hdrop] at hhead
        simp only [List.head?_cons, Option.some.injEq] at hhead
        subst hhead
        obtain ⟨k, hk⟩ : ∃ k, e - sd = k + 1 := ⟨e - sd - 1, by omega⟩
        rw [hk, List.take_succ_cons]
        exact ⟨_, rfl⟩

/-! ## The image format -/

theorem string_mk_eq_empty (l : List Char) : (String.mk l = "") ↔ l = [] := by
  rw [String.ext_iff]

theorem imageFormat_of_chars (p : String) (l : List Char)
    (h : (extnameChars p.data).erase '.' = l) :
    imageFormat p = if l = [] then "png" else ⟨l⟩ := by
  unfold imageFormat removeFirstDot extname
  simp only [h, string_mk_eq_empty]

theorem imageFormat_of_extname_nil (p : String) (h : extnameChars p.data = []) :
    imageFormat p = "png" := by
  rw [imageFormat_of_chars p [] (by rw [h]; rfl)]
  rfl

theorem imageFormat_png (p : String) : imageFormat (p ++ ".png") = "png" := by
  have hdata : (p ++ ".png").data = p.data ++ '.' :: ['p', 'n', 'g'] := rfl
  rcases extnameChars_suffix p.data ['p', 'n', 'g'] (by decide) (by decide) with h | h
  · exact imageFormat_of_extname_nil _ (hdata ▸ h)
  · rw [imageFormat_of_chars _ ['p', 'n', 'g'] (by rw [hdata, h]; rfl)]
    rfl

theorem imageFormat_bare_dot (p : String) : imageFormat (p ++ ".") = "png" := by
  have hdata : (p ++ ".").data = p.data ++ '.' :: [] := rfl
  rcases extnameChars_suffix p.data [] (by simp) (by simp) with h | h
  · exact imageFormat_of_extname_nil _ (hdata ▸ h)
  · rw [imageFormat_of_chars _ [] (by rw [hdata, h]; rfl)]
    rfl

theorem imageFormat_svg (p : String) (c : Char) (hc : c ≠ '/') :
    imageFormat (p.push c ++ ".svg") = "svg" := by
  have hdata : (p.push c ++ ".svg").data = p.data ++ c :: '.' :: ['s', 'v', 'g'] := by
    show (p.data ++ [c]) ++ ['.', 's', 'v', 'g'] = _
    simp
  have h := extnameChars_ext p.data c ['s', 'v', 'g'] hc (by simp) (by decide) (by decide)
  rw [imageFormat_of_chars _ ['s', 'v', 'g'] (by rw [hdata, h]; rfl)]
  rfl

theorem imageFormat_no_dot (p : String) (h : ∀ c ∈ p.data, c ≠ '.') :
    imageFormat p = "png" :=
  imageFormat_of_extname_nil _ (extnameChars_no_dot p.data h)

theorem imageFormat_dotfile (name : String) (h : ∀ c ∈ name.data, c ≠ '.' ∧ c ≠ '/') :
    imageFormat ("." ++ name) = "png" ∧
      ∀ dir : String, imageFormat (dir ++ "/." ++ name) = "png" := by
  have hd : ∀ c ∈ name.data, c ≠ '.' := fun c hc => (h c hc).1
  have hs : ∀ c ∈ name.data, c ≠ '/' := fun c hc => (h c hc).2
  refine ⟨?_, fun dir => ?_⟩
  · have hdata : ("." ++ name).data = '.' :: name.data := rfl
    exact imageFormat_of_extname_nil _ (hdata ▸ (extnameChars_dotfile name.data hd hs []).1)
  · have hdata : (dir ++ "/." ++ name).data = dir.data ++ '/' :: '.' :: name.data := by
      show (dir.data ++ ['/', '.']) ++ name.data = _
      simp
    exact imageFormat_of_extname_nil _
      (hdata ▸ (extnameChars_dotfile name.data hd hs dir.data).2)

theorem extname_leading_dot (p : String) :
    extname p = "" ∨ ∃ ext, extname p = "." ++ ext ∧ removeFirstDot (extname p) = ext := by
  rcases extnameChars_leading_dot p.data with h | ⟨ext, h⟩
  · left
    unfold extname
    rw [h]
  · right
    refine ⟨⟨ext⟩, ?_, ?_⟩
    · unfold extname
      rw [h]
      rfl
    · unfold removeFirstDot extname
      rw [h]
      simp

/-! ## The output operations -/

theorem createGraphPromise_done (w : World) {m : Modules} {c : List (List String)}
    {cfg : Config} {o : GraphvizOptions} {r : GraphResult}
    (h : createGraph m c cfg o = .done r) :
    (createGraphPromise w m c cfg o).events =
        [.createGraph m c, .writeFile "temp.dot" (.text (w.toDot r.built.g)),
          .toStream (w.toDot r.built.g) o] ∧
      (createGraphPromise w m c cfg o).result = w.toStream (w.toDot r.built.g) o := by
  obtain ⟨_, _, _, ho, hw, _⟩ := createGraph_done_spec h
  refine ⟨?_, ?_⟩
  · simp [createGraphPromise, h, ho, hw]
  · simp [createGraphPromise, h, ho]

theorem createGraphPromise_toStream (w : World) (m : Modules) (c : List (List String))
    (cfg : Config) (o : GraphvizOptions) (d : String) (o' : GraphvizOptions)
    (h : Event.toStream d o' ∈ (createGraphPromise w m c cfg o).events) : o' = o := by
  unfold createGraphPromise at h
  cases hr : createGraph m c cfg o with
  | done r =>
    obtain ⟨_, _, _, ho, hw, _⟩ := createGraph_done_spec hr
    simp only [hr, ho, hw, List.map_cons, List.map_nil, List.cons_append, List.nil_append,
      List.mem_cons, reduceCtorEq, Event.toStream.injEq, List.mem_singleton,
      List.not_mem_nil, or_false, false_or] at h
    exact h.2
  | typeError => simp [hr] at h
  | protoWrite =>
    simp only [hr] at h
    cases hp : w.afterProtoWrite m c cfg with
    | none => simp [hp] at h
    | some text =>
      simp only [hp, List.mem_cons, reduceCtorEq, Event.toStream.injEq, List.mem_singleton,
        List.not_mem_nil, or_false, false_or] at h
      exact h.2

theorem andThen_error {α β : Type} (o : Outcome α) (k : α → Outcome β) (e : JsError)
    (h : o.result = .error e) :
    (o.andThen k).result = .error e ∧ (o.andThen k).events = o.events := by
  simp [Outcome.andThen, h]

theorem andThen_ok {α β : Type} (o : Outcome α) (k : α → Outcome β) (a : α)
    (h : o.result = .ok a) :
    (o.andThen k).result = (k a).result ∧ (o.andThen k).events = o.events ++ (k a).events := by
  simp [Outcome.andThen, h]

theorem mem_andThen_events {α β : Type} (o : Outcome α) (k : α → Outcome β) (e : Event)
    (h : e ∈ (o.andThen k).events) :
    e ∈ o.events ∨ ∃ a, o.result = .ok a ∧ e ∈ (k a).events := by
  cases hr : o.result with
  | error err =>
    rw [(andThen_error o k err hr).2] at h
    exact Or.inl h
  | ok a =>
    rw [(andThen_ok o k a hr).2, List.mem_append] at h
    rcases h with h | h
    · exact Or.inl h
    · exact Or.inr ⟨a, rfl, h⟩

theorem checkGraphvizInstalled_events (w : World) (config : Config) :
    (checkGraphvizInstalled w config).events = [.exec (probeCommand w config) ["-V"]] := rfl

/-- C11 fails at the destination path ".svg": the path ends in ".svg", but
`path.extname` gives a dot-file no extension, so the format passed to the
renderer is the fallback "png". -/
theorem image_format_of_dot_svg :
    (".svg" : String) = "" ++ ".svg" ∧ extname ".svg" = "" ∧ imageFormat ".svg" = "png" ∧
    imageFormat ".svg" ≠ "svg" ∧
    (image exampleWorld [("A", ["B"])] [] ".svg" exampleConfig).events.filterMap
      Event.renderFormat = [some "png"] := by
  decide

/-- C11, amended: the format `image` passes to the renderer is the result of
`path.extname` for the destination path with its leading dot removed when
that is non-empty, and "png" otherwise; the renderer is called with it when
the probe succeeds and the build finishes.  A path ending in ".png" selects
"png"; a path ending in ".svg" selects "svg" when the character before that
ending is not a slash (the last portion is more than ".svg"); a path without a
dot, a path ending in a bare dot and a dot-file name select "png". -/
theorem image_format (w : World) (modules : Modules) (circular : List (List String))
    (imagePath : String) (config : Config) :
    (∀ d o, Event.toStream d o ∈ (image w modules circular imagePath config).events →
      o.format = some (imageFormat imagePath)) ∧
    ((checkGraphvizInstalled w config).result = .ok () →
      (∀ r, createGraph modules circular config
          (setFormat (createGraphvizOptions w.pathJoin config) (imageFormat imagePath)) =
            .done r →
        Event.toStream (w.toDot r.built.g)
          (setFormat (createGraphvizOptions w.pathJoin config) (imageFormat imagePath)) ∈
          (image w modules circular imagePath config).events) ∧
      (OwnNames modules → OwnGroups config →
        ∃ d o, Event.toStream d o ∈ (image w modules circular imagePath config).events)) ∧
    (imageFormat imagePath =
      if removeFirstDot (extname imagePath) = "" then "png"
      else removeFirstDot (extname imagePath)) ∧
    (extname imagePath = "" ∨
      ∃ ext, extname imagePath = "." ++ ext ∧ removeFirstDot (extname imagePath) = ext) ∧
    (∀ p : String, imageFormat (p ++ ".png") = "png") ∧
    (∀ (p : String) (c : Char), c ≠ '/' → imageFormat (p.push c ++ ".svg") = "svg") ∧
    (∀ p : String, (∀ c ∈ p.data, c ≠ '.') → imageFormat p = "png") ∧
    (∀ p : String, imageFormat (p ++ ".") = "png") ∧
    (∀ name : String, (∀ c ∈ name.data, c ≠ '.' ∧ c ≠ '/') →
      imageFormat ("." ++ name) = "png" ∧
        ∀ dir : String, imageFormat (dir ++ "/." ++ name) = "png") := by
  have hdone : (checkGraphvizInstalled w config).result = .ok () →
      ∀ r, createGraph modules circular config
          (setFormat (createGraphvizOptions w.pathJoin config) (imageFormat imagePath)) =
            .done r →
        Event.toStream (w.toDot r.built.g)
          (setFormat (createGraphvizOptions w.pathJoin config) (imageFormat imagePath)) ∈
          (image w modules circular imagePath config).events := by
    intro hok r hr
    obtain ⟨hev, _⟩ := createGraphPromise_done w hr
    unfold image
    rw [(andThen_ok _ _ () hok).2]
    apply List.mem_append_right
    have : Event.toStream (w.toDot r.built.g)
        (setFormat (createGraphvizOptions w.pathJoin config) (imageFormat imagePath)) ∈
        (createGraphPromise w modules circular config
          (setFormat (createGraphvizOptions w.pathJoin config)
            (imageFormat imagePath))).events := by
      rw [hev]
      simp
    cases hres : (createGraphPromise w modules circular config
        (setFormat (createGraphvizOptions w.pathJoin config)
          (imageFormat imagePath))).result with
    | error e =>
      rw [(andThen_error _ _ e hres).2]
      exact this
    | ok b =>
      rw [(andThen_ok _ _ b hres).2]
      exact List.mem_append_left _ this
  refine ⟨?_, ?_, rfl, extname_leading_dot imagePath, imageFormat_png, imageFormat_svg,
    imageFormat_no_dot, imageFormat_bare_dot, imageFormat_dotfile⟩
  · intro d o hmem
    unfold image at hmem
    rcases mem_andThen_events _ _ _ hmem with h | ⟨_, _, h⟩
    · rw [checkGraphvizInstalled_events] at h
      simp at h
    · rcases mem_andThen_events _ _ _ h with h | ⟨_, _, h⟩
      · rw [createGraphPromise_toStream w _ _ _ _ d o h]
        rfl
      · rcases mem_andThen_events _ _ _ h with h | ⟨_, _, h⟩
        · simp [writeFileAwaited] at h
        · simp at h
  · intro hok
    refine ⟨hdone hok, ?_⟩
    intro hN hG
    obtain ⟨r, hr, _⟩ := createGraph_of_own circular
      (setFormat (createGraphvizOptions w.pathJoin config) (imageFormat imagePath)) hN hG
    exact ⟨_, _, hdone hok r hr⟩

/-- C11, at the destination path "out/graph.svg": the renderer is called once,
with the format "svg". -/
theorem image_format_witness :
    (∀ d o, Event.toStream d o ∈
        (image exampleWorld [("A", ["B"])] [] "out/graph.svg" exampleConfig).events →
      o.format = some "svg") ∧
    (image exampleWorld [("A", ["B"])] [] "out/graph.svg" exampleConfig).events.filterMap
      Event.renderFormat = [some "svg"] ∧
    imageFormat "graph" = "png" ∧ imageFormat "graph." = "png" ∧
    imageFormat ".graph" = "png" ∧ imageFormat "out/graph.png" = "png" := by
  refine ⟨?_, by decide, by decide, by decide, by decide, by decide⟩
  have h := (image_format exampleWorld [("A", ["B"])] [] "out/graph.svg" exampleConfig).1
  have hf : imageFormat "out/graph.svg" = "svg" := by decide
  rw [hf] at h
  exact h

/-- C12 fails for `interactive`: when the probe fails, the first thing the
operation has done is a console line, the probe comes second. -/
theorem interactive_logs_before_probe :
    (checkGraphvizInstalled worldWithoutGraphviz exampleConfig).result =
      .error ⟨"Graphviz could not be found. Ensure that \"gvpr\" is in your $PATH. " ++
        "Error: spawn gvpr ENOENT"⟩ ∧
    (interactive worldWithoutGraphviz [("A", ["B"])] [] "page.html" exampleConfig).events =
      [.consoleLog "Generating interactive...", .exec "gvpr" ["-V"]] ∧
    (interactive worldWithoutGraphviz [("A", ["B"])] [] "page.html" exampleConfig).events.head?
      ≠ some (.exec "gvpr" ["-V"]) :=
  ⟨rfl, by decide, by decide⟩

/-- C12, amended: when the probe fails, each of the four operations fails
with the probe's error, `createGraph` is not called, the renderer is not run
and no file is written; for `svg`, `image` and `dot` the probe is the only
thing done, for `interactive` one console line comes before it and nothing
else is done. -/
theorem probe_failure_stops_operation (w : World) (modules : Modules)
    (circular : List (List String)) (config : Config) (imagePath pagePath : String)
    (e : JsError) (h : (checkGraphvizInstalled w config).result = .error e) :
    (svg w modules circular config).result = .error e ∧
    (svg w modules circular config).events = [.exec (probeCommand w config) ["-V"]] ∧
    (image w modules circular imagePath config).result = .error e ∧
    (image w modules circular imagePath config).events =
      [.exec (probeCommand w config) ["-V"]] ∧
    (dot w modules circular config).result = .error e ∧
    (dot w modules circular config).events = [.exec (probeCommand w config) ["-V"]] ∧
    (interactive w modules circular pagePath config).result = .error e ∧
    (interactive w modules circular pagePath config).events =
      [.consoleLog "Generating interactive...", .exec (probeCommand w config) ["-V"]] := by
  have hsvg : (svg w modules circular config).result = .error e ∧
      (svg w modules circular config).events = [.exec (probeCommand w config) ["-V"]] :=
    andThen_error _ _ e h
  have himg := andThen_error (checkGraphvizInstalled w config)
    (fun _ => (createGraphPromise w modules circular config
      (setFormat (createGraphvizOptions w.pathJoin config)
        (imageFormat imagePath))).andThen fun image =>
      (writeFileAwaited w imagePath (.bytes image)).andThen fun _ =>
        ⟨.ok (w.pathResolve imagePath), []⟩) e h
  have hdot := andThen_error ((checkGraphvizInstalled w config).andThen fun _ =>
      createGraphPromise w modules circular config
        (setFormat (createGraphvizOptions w.pathJoin config) "dot"))
    (fun output => ⟨.ok (w.toStringUtf8 output), []⟩) e (andThen_error _ _ e h).1
  have hint : (interactive w modules circular pagePath config).result = .error e ∧
      (interactive w modules circular pagePath config).events =
        [.consoleLog "Generating interactive...", .exec (probeCommand w config) ["-V"]] := by
    unfold interactive
    have h1 := andThen_ok (consoleLog "Generating interactive...")
      (fun _ => (svg w modules circular config).andThen fun svg_ =>
        (consoleLog "Got svg").andThen fun _ =>
          (Outcome.mk (w.generateInteractiveHtml svg_)
            [.generateInteractiveHtml svg_]).andThen fun html_ =>
              (consoleLog "Got html").andThen fun _ =>
                (writeFileAwaited w pagePath html_).andThen fun _ =>
                  (consoleLog "Wrote html").andThen fun _ =>
                    ⟨.ok (w.pathResolve pagePath), []⟩) () rfl
    have h2 := andThen_error (svg w modules circular config)
      (fun svg_ => (consoleLog "Got svg").andThen fun _ =>
          (Outcome.mk (w.generateInteractiveHtml svg_)
            [.generateInteractiveHtml svg_]).andThen fun html_ =>
              (consoleLog "Got html").andThen fun _ =>
                (writeFileAwaited w pagePath html_).andThen fun _ =>
                  (consoleLog "Wrote html").andThen fun _ =>
                    ⟨.ok (w.pathResolve pagePath), []⟩) e hsvg.1
    rw [h1.1, h1.2, h2.1, h2.2, hsvg.2]
    exact ⟨rfl, rfl⟩
  exact ⟨hsvg.1, hsvg.2, himg.1, himg.2, hdot.1, hdot.2.trans (andThen_error _ _ e h).2,
    hint.1, hint.2⟩

/-- C12, in a world where the executable of the probe is not found: the four
operations fail with the probe's error and do nothing after the probe. -/
theorem probe_failure_stops_operation_witness :
    (checkGraphvizInstalled worldWithoutGraphviz exampleConfig).result =
      .error ⟨"Graphviz could not be found. Ensure that \"gvpr\" is in your $PATH. " ++
        "Error: spawn gvpr ENOENT"⟩ ∧
    (svg worldWithoutGraphviz [("A", ["B"])] [] exampleConfig).events =
      [.exec "gvpr" ["-V"]] ∧
    (image worldWithoutGraphviz [("A", ["B"])] [] "a.png" exampleConfig).events =
      [.exec "gvpr" ["-V"]] ∧
    (dot worldWithoutGraphviz [("A", ["B"])] [] exampleConfig).events =
      [.exec "gvpr" ["-V"]] := by
  have h : (checkGraphvizInstalled worldWithoutGraphviz exampleConfig).result =
      .error ⟨"Graphviz could not be found. Ensure that \"gvpr\" is in your $PATH. " ++
        "Error: spawn gvpr ENOENT"⟩ := rfl
  obtain ⟨_, h1, _, h2, _, h3, _⟩ :=
    probe_failure_stops_operation worldWithoutGraphviz [("A", ["B"])] [] exampleConfig
      "a.png" "page.html" _ h
  exact ⟨h, h1, h2, h3⟩

theorem probe_messages_differ (t t' cmd : String) :
    "Graphviz could not be found. Ensure that \"gvpr\" is in your $PATH. " ++ t ≠
      "Unexpected error when calling Graphviz \"" ++ cmd ++ "\". " ++ t' := by
  intro h
  have h' := congrArg (fun s : String => s.data.head?) h
  have hl : ("Graphviz could not be found. Ensure that \"gvpr\" is in your $PATH. " ++ t).data.head?
      = some 'G' := rfl
  have hr : ("Unexpected error when calling Graphviz \"" ++ cmd ++ "\". " ++ t').data.head?
      = some 'U' := rfl
  simp only [hl, hr] at h'
  exact absurd h' (by decide)

/-- C13: `checkGraphvizInstalled` runs the version query of the probe command
and nothing else; it succeeds exactly when the query succeeds; when the query
fails with code ENOENT the error says that Graphviz could not be found and
names "gvpr"; when it fails with another code the error is a different one,
with the command and the text of the underlying error in its message; the
command is "gvpr" joined under `config.graphVizPath` when that is a non-empty
string and plain "gvpr" otherwise. -/
theorem checkGraphvizInstalled_outcome (w : World) (config : Config) :
    (checkGraphvizInstalled w config).events = [.exec (probeCommand w config) ["-V"]] ∧
    ((checkGraphvizInstalled w config).result = .ok () ↔
      w.exec (probeCommand w config) ["-V"] = none) ∧
    (∀ err, w.exec (probeCommand w config) ["-V"] = some err → err.code = some "ENOENT" →
      (checkGraphvizInstalled w config).result =
        .error ⟨"Graphviz could not be found. Ensure that \"gvpr\" is in your $PATH. "
          ++ err.text⟩) ∧
    (∀ err, w.exec (probeCommand w config) ["-V"] = some err → err.code ≠ some "ENOENT" →
      (checkGraphvizInstalled w config).result =
        .error ⟨"Unexpected error when calling Graphviz \"" ++ probeCommand w config
          ++ "\". " ++ err.text⟩) ∧
    (∀ t t' cmd : String,
      "Graphviz could not be found. Ensure that \"gvpr\" is in your $PATH. " ++ t ≠
        "Unexpected error when calling Graphviz \"" ++ cmd ++ "\". " ++ t') ∧
    (∀ t : String, ∃ pre post : String,
      "Graphviz could not be found. Ensure that \"gvpr\" is in your $PATH. " ++ t =
        pre ++ "\"gvpr\"" ++ post) ∧
    (∀ p, config.graphVizPath = some p → p ≠ "" →
      probeCommand w config = w.pathJoin p "gvpr") ∧
    (config.graphVizPath = none ∨ config.graphVizPath = some "" →
      probeCommand w config = "gvpr") := by
  refine ⟨rfl, ?_, ?_, ?_, probe_messages_differ, ?_, ?_, ?_⟩
  · cases hx : w.exec (probeCommand w config) ["-V"] with
    | none => simp [checkGraphvizInstalled, hx]
    | some err =>
      by_cases hc : err.code = some "ENOENT" <;> simp [checkGraphvizInstalled, hx, hc]
  · intro err hx hc
    simp [checkGraphvizInstalled, hx, hc]
  · intro err hx hc
    simp [checkGraphvizInstalled, hx, hc]
  · intro t
    exact ⟨"Graphviz could not be found. Ensure that ", " is in your $PATH. " ++ t, by
      rw [String.ext_iff]
      simp only [String.data_append, List.append_assoc]
      rfl⟩
  · intro p hp hne
    simp [probeCommand, hp, truthy, hne]
  · rintro (h | h) <;> simp [probeCommand, h, truthy]

/-- C13, in three worlds: Graphviz installed, executable not found, and the
probe failing with exit status 1 under an alternate install directory. -/
theorem checkGraphvizInstalled_outcome_witness :
    ((checkGraphvizInstalled exampleWorld exampleConfig).result = .ok () ↔
      exampleWorld.exec (probeCommand exampleWorld exampleConfig) ["-V"] = none) ∧
    (checkGraphvizInstalled exampleWorld exampleConfig).result = .ok () ∧
    (checkGraphvizInstalled worldWithoutGraphviz exampleConfig).result =
      .error ⟨"Graphviz could not be found. Ensure that \"gvpr\" is in your $PATH. " ++
        "Error: spawn gvpr ENOENT"⟩ ∧
    (checkGraphvizInstalled worldWithBrokenGraphviz installDirConfig).result =
      .error ⟨"Unexpected error when calling Graphviz \"/opt/gv/bin/gvpr\". " ++
        "Error: Command failed"⟩ ∧
    (checkGraphvizInstalled worldWithBrokenGraphviz installDirConfig).events =
      [.exec "/opt/gv/bin/gvpr" ["-V"]] :=
  ⟨(checkGraphvizInstalled_outcome exampleWorld exampleConfig).2.1, rfl, rfl, rfl,
    by decide⟩

/-- C14 fails at every build, here for the mapping {A: [B]}: `createGraph`
writes the file "temp.dot", so `svg` and `dot` write a file, and `image` and
`interactive` write it besides their own destination. -/
theorem createGraph_writes_temp_dot :
    (createGraph [("A", ["B"])] [] exampleConfig exampleOptions).map (fun r => r.written) =
      .done ["temp.dot"] ∧
    (svg exampleWorld [("A", ["B"])] [] exampleConfig).events.filterMap Event.writtenPath =
      ["temp.dot"] ∧
    (dot exampleWorld [("A", ["B"])] [] exampleConfig).events.filterMap Event.writtenPath =
      ["temp.dot"] ∧
    (image exampleWorld [("A", ["B"])] [] "out.png" exampleConfig).events.filterMap
      Event.writtenPath = ["temp.dot", "out.png"] ∧
    (interactive exampleWorld [("A", ["B"])] [] "page.html" exampleConfig).events.filterMap
      Event.writtenPath = ["temp.dot", "page.html"] := by
  decide

end Madge
